import Mathlib

/-!
The package lifecycle orchestrator of criage-client.

A shallow embedding of `src/pkg/package_manager.go` and
`src/pkg/package_manager_helpers.go`.

Modelling conventions.

* A Go `map[string]T` is a key-unique association list; `none` of `GoMap`
  is the nil map of Go (ranging over it visits nothing, assigning into it
  panics).
* A path is the list of its components, `filepath.Join` is concatenation.
* The filesystem is a finite table from paths to nodes.
* Everything outside the process (registry servers, the archive library, the
  YAML loader, hook commands, the path layout of the configuration manager,
  the order `sort.Slice` leaves equal keys in) is a field of `World`.
* Mutable things (the in-memory registry, the filesystem, the sequence of
  externally visible events) are the fields of `State`.
* A hook command is modelled by its exit status and by what it does to the
  disk (`World.runCommand`); it cannot be started in a working directory
  that is missing.
* The empty path stands for the empty path string of Go.
* The answer to a request is seen through the decoder the caller applies to
  it: `httpDo` serves package lookups and downloads, `httpJSON` serves
  search, upload, server info, stats and index refresh. A request that
  `http.NewRequest` cannot build is the answer `invalidRequest`, and is not
  sent.
* The JSON encoding of the records is not part of the repository; it is
  modelled from the documentation of `encoding/json` and `time` in the
  section on the JSON encoding, over Go strings that need not be valid UTF-8.
* The rate limiter is its permit count (the length of the buffered channel);
  logical time is counted in nanoseconds since the ticker was created.
* Text printed to the console is not modelled.
-/

namespace Criage

/-! ## Data model -/

/-- A filesystem path, as the list of its components. -/
abbrev Path := List String

/-- Go `map[string]string`; `none` is the nil map. -/
abbrev GoMap := Option (List (String × String))

/-- The wire type `FileEntry` (fields as fixed by `api_schema_test.go`). -/
structure FileEntry where
  OS : String
  Arch : String
  Format : String
  Filename : String
  Size : Int
  Checksum : String
deriving DecidableEq, Repr

/-- The wire type `VersionEntry`. -/
structure VersionEntry where
  Version : String
  Description : String
  Dependencies : GoMap
  DevDeps : GoMap
  Files : List FileEntry
  Size : Int
  Checksum : String
  Downloads : Int
deriving DecidableEq, Repr

/-- The wire type `PackageEntry`. -/
structure PackageEntry where
  Name : String
  Description : String
  Author : String
  License : String
  Versions : List VersionEntry
  LatestVersion : String
  Downloads : Int
deriving DecidableEq, Repr

/-- The installed-package record `PackageInfo`. -/
structure PackageInfo where
  Name : String
  Version : String
  Description : String
  Author : String
  InstallDate : Nat
  InstallPath : Path
  Global : Bool
  Dependencies : GoMap
  Size : Int
  Files : List String
  Scripts : GoMap
deriving DecidableEq, Repr

/-- A configured registry, `Repository`. -/
structure Repository where
  Name : String
  URL : String
  Priority : Int
  Enabled : Bool
  AuthToken : String
deriving DecidableEq, Repr

/-- Lifecycle hooks of a manifest, `PackageHooks`. -/
structure PackageHooks where
  PreInstall : List String
  PostInstall : List String
  PreRemove : List String
  PostRemove : List String
deriving DecidableEq, Repr

/-- The fields of `PackageManifest` that the package manager reads.
`Hooks` is a pointer in Go: `none` is the nil pointer. -/
structure PackageManifest where
  Name : String
  Version : String
  Description : String
  Author : String
  Dependencies : GoMap
  DevDeps : GoMap
  Scripts : GoMap
  Files : List String
  Hooks : Option PackageHooks
deriving DecidableEq, Repr

/-- The payload of an envelope after `apiResp.Data.(map[string]interface{})`. -/
inductive ApiData where
  /-- The `data` field is absent or is not a JSON object. -/
  | notObject
  /-- A JSON object; `entry` is what re-marshalling it into a `PackageEntry`
  gives (`none` when `json.Unmarshal` rejects it). -/
  | object (entry : Option PackageEntry)
deriving DecidableEq, Repr

/-- The envelope `ApiResponse`. -/
structure ApiResponse where
  Success : Bool
  Message : String
  Data : ApiData
  Error : String
deriving DecidableEq, Repr

/-- The body of an HTTP response, seen through the two readers the
client uses. -/
structure Body where
  /-- What `json.NewDecoder(body).Decode(&apiResp)` yields, `none` on a
  decoding error. -/
  envelope : Option ApiResponse
  /-- The bytes `io.Copy` gets out of the body. -/
  bytes : String
  /-- Whether `io.Copy` returns an error after writing `bytes`. -/
  copyFails : Bool
deriving DecidableEq, Repr

/-- The outcome of `httpClient.Do` or `httpClient.Get`. -/
inductive HttpResult where
  | transportError (reason : String)
  | response (status : Nat) (body : Body)
  /-- The request is never built: `http.NewRequest` (inside `httpClient.Get`
  for a download) returns an error for this URL, and nothing is sent. -/
  | invalidRequest (reason : String)
deriving DecidableEq, Repr

/-- Errors returned by the package manager, one constructor for each
`fmt.Errorf` site (the message text is localized in the source). -/
inductive Error where
  /-- An error coming from a library or collaborator call. -/
  | external (reason : String)
  /-- Message `package not found in repository` (lookup status is not 200). -/
  | notFoundInRepository
  /-- Message `API error: %s`. -/
  | apiError (text : String)
  /-- Message `unexpected API response format`. -/
  | unexpectedFormat
  /-- Message `version %s not found`. -/
  | versionNotFound (version : String)
  /-- Message `file for %s/%s not found`. -/
  | fileNotFound (osName arch : String)
  /-- Message `package not found: %s`. -/
  | packageNotFound (name : String)
  /-- Message `failed to create cache directory`. -/
  | cacheDirectory (inner : Error)
  /-- Message `failed to download package: %w`. -/
  | downloadTransport (inner : Error)
  /-- Message `failed to download package: HTTP %d`. -/
  | downloadStatus (status : Nat)
  /-- Message `failed to create cache file`. -/
  | cacheFile (inner : Error)
  /-- Message `failed to save package`. -/
  | savePackage (inner : Error)
  /-- Message `manifest not found`. -/
  | manifestNotFound
  /-- Message `failed to install dependency %s: %w`. -/
  | dependency (name : String) (inner : Error)
  /-- Message `hook command failed: %s: %w`. -/
  | hookFailed (command : String)
  /-- Message `package not installed`. -/
  | notInstalled (name : String)
  /-- An error wrapped with the localized format of key `key`. -/
  | wrapped (key : String) (inner : Error)
  /-- Message `search failed: HTTP %d`. -/
  | searchStatus (status : Nat)
  /-- Message `unexpected search results format`. -/
  | searchResultsFormat
  /-- Message `failed to open file: %w`. -/
  | openFile (inner : Error)
  /-- Message `failed to copy file: %w`. -/
  | copyFile (inner : Error)
  /-- Message `failed to upload: %w`. -/
  | uploadTransport (inner : Error)
  /-- Message `invalid authorization token`. -/
  | invalidToken
  /-- Message `upload failed: HTTP %d`. -/
  | uploadStatus (status : Nat)
  /-- Message `failed to decode response: %w`. -/
  | decodeResponse (inner : Error)
  /-- Message `upload failed: %s`. -/
  | uploadFailed (text : String)
  /-- Message `failed to execute request: %w`. -/
  | executeRequest (inner : Error)
  /-- Message `server error: %d`. -/
  | serverError (status : Nat)
  /-- Message `operation failed: %s`. -/
  | operationFailed (text : String)
  /-- Message `unexpected response format`. -/
  | unexpectedResponseFormat
  /-- Message `failed to unmarshal stats: %w`. -/
  | unmarshalStats (inner : Error)
  /-- Message `package not installed: %s` of `UpdatePackage`. -/
  | updateNotInstalled (name : String)
  /-- Message `failed to find latest version: %w`. -/
  | findLatest (inner : Error)
  /-- Message `failed to create request: %w`. -/
  | createRequest (inner : Error)
deriving DecidableEq, Repr

deriving instance DecidableEq for Except

/-- How a call ends: it returns nil, returns an error, or panics. -/
inductive Result where
  | ok
  | error (e : Error)
  | panic (reason : String)
deriving DecidableEq, Repr

/-- A filesystem node. -/
inductive Node where
  | dir
  /-- A regular file with the given bytes. -/
  | file (bytes : String)
  /-- A regular file holding the indented JSON document that
  `savePackageInfo` writes for `info`. -/
  | record (info : PackageInfo)
deriving DecidableEq, Repr

/-- The filesystem: a finite table from paths to nodes. -/
abbrev FS := List (Path × Node)

/-- Something the process does that is visible outside it. -/
inductive Event where
  /-- An HTTP request handed to the client. -/
  | http (method url authorization : String)
  /-- A hook command run through `sh -c`; `workDir` is `none` when the
  command inherits the working directory. -/
  | hook (command : String) (workDir : Option Path)
  /-- A return of `rateLimiter.Wait()`. -/
  | wait
deriving DecidableEq, Repr

/-- The wire type `SearchResult`. The score is a JSON number, hence a
finite decimal. -/
structure SearchResult where
  Name : String
  Version : String
  Description : String
  Author : String
  Downloads : Int
  Updated : Nat
  Score : Rat
  Repository : String
deriving DecidableEq, Repr

/-- The statistics of a registry. The fields of the type are declared
outside the repository; the value is kept as the JSON document it was
decoded from. -/
structure RepositoryStats where
  document : String
deriving DecidableEq, Repr

/-- The `data` field of an envelope, seen through the readers that search,
server info and stats apply to it. -/
inductive Payload where
  /-- The field is absent or is not a JSON object; `stats` is what
  re-marshalling it into the statistics type gives. -/
  | notObject (stats : Option RepositoryStats)
  /-- A JSON object: its entries (keys with the JSON text of the values);
  its `results` array, `none` when the key is absent or not an array, each
  item being what re-marshalling it into a `SearchResult` gives; and what
  re-marshalling the object into the statistics type gives. -/
  | object (entries : List (String × String))
      (results : Option (List (Option SearchResult))) (stats : Option RepositoryStats)
deriving DecidableEq, Repr

/-- The envelope of the answers to search, upload, server info, stats and
index refresh. -/
structure JsonEnvelope where
  Success : Bool
  Message : String
  Data : Payload
  Error : String
deriving DecidableEq, Repr

/-- The outcome of `httpClient.Do` for search, upload, server info, stats
and index refresh: the status and what decoding the body into the envelope
yields (`none` on a decoding error). -/
inductive JsonReply where
  | transportError (reason : String)
  | response (status : Nat) (envelope : Option JsonEnvelope)
  /-- The request is never built: `http.NewRequest` returns an error for
  this URL, and nothing is sent. -/
  | invalidRequest (reason : String)
deriving DecidableEq, Repr

/-- Everything outside the process. -/
structure World where
  /-- Go `configManager.GetRepositories()`. -/
  GetRepositories : List Repository
  /-- Go `configManager.GetInstallPath(name, global)`. -/
  GetInstallPath : String → Bool → Path
  /-- Go `configManager.GetCachePath(name, version)`. -/
  GetCachePath : String → String → Path
  /-- Go `configManager.GetTempPath(label)`. -/
  GetTempPath : String → Path
  /-- Go `runtime.GOARCH`. -/
  GOARCH : String
  /-- Go `runtime.GOOS`. -/
  GOOS : String
  /-- Go `time.Now().Unix()`. -/
  now : Nat
  /-- Go `sort.Slice` with the given `less`: the order it leaves the slice in. -/
  sortSlice : {α : Type} → (α → α → Bool) → List α → List α
  /-- The order in which a `range` loop visits the entries of a map. -/
  rangeOrder : {α : Type} → List (String × α) → List (String × α)
  /-- The answer of the network to a request (method, url, authorization). -/
  httpDo : String → String → String → HttpResult
  /-- Go `archiveManager.ExtractArchive` on the bytes of an archive: whether
  it succeeds, and the entries it writes, relative to the destination
  (`none` for a directory, the bytes for a file). -/
  ExtractArchive : String → Bool × List (Path × Option String)
  /-- The YAML loader behind `configManager.LoadLocalConfig`, on the bytes
  of `criage.yaml`. -/
  parseManifest : String → Except Error PackageManifest
  /-- What `sh -c command`, started in the given directory on the given disk,
  does: whether it exits with status 0, and the disk it leaves. -/
  runCommand : String → Option Path → FS → Bool × FS
  /-- Go `filepath.Glob(filepath.Join(srcDir, pattern))`. -/
  Glob : FS → Path → String → Except Error (List Path)
  /-- The size `os.FileInfo` reports for a stored package record. -/
  recordSize : PackageInfo → Nat
  /-- A fault of `os.MkdirAll` at this path, if the environment raises one. -/
  mkdirAllFault : Path → Option Error
  /-- A fault of an `os.RemoveAll` whose error the source inspects: the
  error and the paths below it that survive. -/
  removeAllFault : Path → Option (Error × List Path)
  /-- A fault of creating or writing the file at this path. -/
  writeFault : Path → Option Error
  /-- The answer of the network to a search, upload, server info, stats or
  index refresh request: method, url, authorization, and the file sent as
  the request body, if any. -/
  httpJSON : String → String → String → Option Node → JsonReply :=
    fun _ _ _ _ => JsonReply.transportError "unreachable"
  /-- A fault of `os.Remove` at this path, if the environment raises one. -/
  removeFault : Path → Option Error := fun _ => none

/-- The mutable state: the in-memory registry `pm.installedPackages`, the
filesystem and the events so far. -/
structure State where
  installedPackages : List (String × PackageInfo)
  fs : FS
  trace : List Event
deriving DecidableEq, Repr

/-! ## Go maps -/

/-- The map read `m[k]` with its presence flag. -/
def mapGet {α : Type} (m : List (String × α)) (k : String) : Option α :=
  match m with
  | [] => none
  | (k1, v) :: rest => if k1 = k then some v else mapGet rest k

/-- The map write `m[k] = v`. -/
def mapSet {α : Type} (m : List (String × α)) (k : String) (v : α) : List (String × α) :=
  match m with
  | [] => [(k, v)]
  | (k1, v1) :: rest => if k1 = k then (k, v) :: rest else (k1, v1) :: mapSet rest k v

/-- The map deletion `delete(m, k)`. -/
def mapDelete {α : Type} (m : List (String × α)) (k : String) : List (String × α) :=
  m.filter (fun kv => decide (kv.1 ≠ k))

/-! ## Registry lookup -/

/-- The `less` function `findPackage` hands to `sort.Slice`. -/
def priorityLess (a b : Repository) : Bool := decide (a.Priority > b.Priority)

/-- The version selection of `findInRepository`: the last entry when no
version is requested, otherwise the first entry with that version string. -/
def selectVersion (versions : List VersionEntry) (version : String) : Option VersionEntry :=
  if version = "" then
    versions.getLast?
  else
    versions.find? (fun v => decide (v.Version = version))

/-- The file selection of `findInRepository`: the first file entry for
the requested platform. -/
def selectFile (files : List FileEntry) (osName arch : String) : Option FileEntry :=
  files.find? (fun f => decide (f.OS = osName) && decide (f.Arch = arch))

/-- The part of `findInRepository` after the version is selected. -/
def resolveFile (repo : Repository) (packageEntry : PackageEntry)
    (selectedVersion : VersionEntry) (arch osName : String) :
    Except Error (PackageInfo × String) :=
  match selectFile selectedVersion.Files osName arch with
  | none => .error (.fileNotFound osName arch)
  | some selectedFile =>
    let packageInfo : PackageInfo :=
      { Name := packageEntry.Name
        Version := selectedVersion.Version
        Description := packageEntry.Description
        Author := packageEntry.Author
        InstallDate := 0
        InstallPath := []
        Global := false
        Dependencies := selectedVersion.Dependencies
        Size := selectedFile.Size
        Files := []
        Scripts := none }
    let downloadURL := repo.URL ++ "/api/v1/download/" ++ packageEntry.Name ++ "/"
      ++ selectedVersion.Version ++ "/" ++ selectedFile.Filename
    .ok (packageInfo, downloadURL)

/-- The part of `findInRepository` after the package entry is decoded. -/
def resolveEntry (repo : Repository) (packageEntry : PackageEntry)
    (version arch osName : String) : Except Error (PackageInfo × String) :=
  match selectVersion packageEntry.Versions version with
  | none => .error (.versionNotFound version)
  | some selectedVersion => resolveFile repo packageEntry selectedVersion arch osName

/-- The URL `findInRepository` requests. -/
def lookupURL (repo : Repository) (packageName : String) : String :=
  repo.URL ++ "/api/v1/packages/" ++ packageName

/-- The `Authorization` header: `Bearer <token>` when a token is set,
empty (no header) otherwise. -/
def bearer (token : String) : String :=
  if token = "" then "" else "Bearer " ++ token

/-- What `findInRepository` makes of the answer to its request. -/
def decodeLookup (repo : Repository) (version arch osName : String) :
    HttpResult → Except Error (PackageInfo × String)
  | .invalidRequest reason => .error (.external reason)
  | .transportError reason => .error (.external reason)
  | .response status body =>
    if status ≠ 200 then .error .notFoundInRepository
    else
      match body.envelope with
      | none => .error (.external "json decode")
      | some apiResp =>
        if !apiResp.Success then .error (.apiError apiResp.Error)
        else
          match apiResp.Data with
          | .notObject => .error .unexpectedFormat
          | .object none => .error (.external "json unmarshal")
          | .object (some packageEntry) => resolveEntry repo packageEntry version arch osName

/-- The request `findInRepository` sends. -/
def lookupRequest (repo : Repository) (packageName : String) : Event :=
  Event.http "GET" (lookupURL repo packageName) (bearer repo.AuthToken)

/-- The value `findInRepository` returns. -/
def lookupResult (w : World) (repo : Repository) (packageName version arch osName : String) :
    Except Error (PackageInfo × String) :=
  decodeLookup repo version arch osName
    (w.httpDo "GET" (lookupURL repo packageName) (bearer repo.AuthToken))

/-- Whether a request is built and handed to the client. -/
def HttpResult.isSent : HttpResult → Bool
  | .invalidRequest _ => false
  | _ => true

/-- The requests `findInRepository` sends: one, or none when the request
cannot be built. -/
def lookupRequests (w : World) (repo : Repository) (packageName : String) : List Event :=
  if (w.httpDo "GET" (lookupURL repo packageName) (bearer repo.AuthToken)).isSent then
    [lookupRequest repo packageName]
  else []

/-- Method `PackageManager.findInRepository`. -/
def findInRepository (w : World) (repo : Repository) (packageName version arch osName : String)
    (s : State) : Except Error (PackageInfo × String) × State :=
  (lookupResult w repo packageName version arch osName,
    { s with trace := s.trace ++ lookupRequests w repo packageName })

/-- The loop of `findPackage` over the sorted repositories. -/
def findPackageLoop (w : World) (packageName version arch osName : String) :
    List Repository → State → Except Error (PackageInfo × String) × State
  | [], s => (.error (.packageNotFound packageName), s)
  | repo :: rest, s =>
    if !repo.Enabled then findPackageLoop w packageName version arch osName rest s
    else
      match findInRepository w repo packageName version arch osName s with
      | (.ok found, s1) => (.ok found, s1)
      | (.error _, s1) => findPackageLoop w packageName version arch osName rest s1

/-- Method `PackageManager.findPackage`. -/
def findPackage (w : World) (packageName version arch osName : String) (s : State) :
    Except Error (PackageInfo × String) × State :=
  findPackageLoop w packageName version arch osName
    (w.sortSlice priorityLess w.GetRepositories) s

/-! ## Filesystem primitives -/

/-- The node at a path (`os.Stat`), if there is one. -/
def fsLookup (fs : FS) (p : Path) : Option Node :=
  match fs with
  | [] => none
  | (q, n) :: rest => if q = p then some n else fsLookup rest p

/-- Put a node at a path, replacing what is there. -/
def fsWrite (fs : FS) (p : Path) (n : Node) : FS :=
  match fs with
  | [] => [(p, n)]
  | (q, m) :: rest => if q = p then (p, n) :: rest else (q, m) :: fsWrite rest p n

/-- Drop a path and everything below it; `os.RemoveAll` does nothing on
the empty path string. -/
def fsRemoveTree (fs : FS) (p : Path) : FS :=
  if p = [] then fs else fs.filter (fun e => !(p.isPrefixOf e.1))

/-- Whether some node lies strictly below a path. -/
def fsHasChild (fs : FS) (p : Path) : Bool :=
  fs.any (fun e => p.isPrefixOf e.1 && decide (e.1 ≠ p))

/-- Make the listed paths directories, in order, stopping at one that is
a file. -/
def mkdirEach (fs : FS) : List Path → Option Error × FS
  | [] => (none, fs)
  | q :: rest =>
    match fsLookup fs q with
    | none => mkdirEach (fs ++ [(q, Node.dir)]) rest
    | some Node.dir => mkdirEach fs rest
    | some _ => (some (.external "not a directory"), fs)

/-- The non-empty leading segments of a path, shortest first. -/
def ancestorsAndSelf (p : Path) : List Path :=
  p.inits.tail

/-- Go `os.MkdirAll`. -/
def osMkdirAll (w : World) (p : Path) (fs : FS) : Option Error × FS :=
  match w.mkdirAllFault p with
  | some e => (some e, fs)
  | none => mkdirEach fs (ancestorsAndSelf p)

/-- Go `os.RemoveAll` at a call whose error the source inspects. -/
def osRemoveAll (w : World) (p : Path) (fs : FS) : Option Error × FS :=
  if p = [] then (none, fs)
  else
    match w.removeAllFault p with
    | none => (none, fsRemoveTree fs p)
    | some (e, survivors) =>
      (some e, fs.filter (fun x => !(p.isPrefixOf x.1) || survivors.contains x.1))

/-- Go `os.Remove`: fails on a missing path and on a directory that is not empty. -/
def osRemove (w : World) (p : Path) (fs : FS) : Option Error × FS :=
  match w.removeFault p with
  | some e => (some e, fs)
  | none =>
    match fsLookup fs p with
    | none => (some (.external "no such file or directory"), fs)
    | some _ =>
      if fsHasChild fs p then (some (.external "directory not empty"), fs)
      else (none, fs.filter (fun e => decide (e.1 ≠ p)))

/-- Creating or overwriting a regular file (`os.Create` followed by the
write, `os.WriteFile`): fails on a directory. -/
def osWriteFile (w : World) (p : Path) (n : Node) (fs : FS) : Option Error × FS :=
  match w.writeFault p with
  | some e => (some e, fs)
  | none =>
    match fsLookup fs p with
    | some Node.dir => (some (.external "is a directory"), fs)
    | _ => (none, fsWrite fs p n)

/-- The size `os.FileInfo.Size` reports for a file node. -/
def nodeSize (w : World) : Node → Int
  | .dir => 0
  | .file bytes => bytes.utf8ByteSize
  | .record info => w.recordSize info

/-! ## Helpers of the package manager -/

/-- Method `PackageManager.getInstalledPackage`. -/
def getInstalledPackage (s : State) (packageName : String) : Option PackageInfo :=
  mapGet s.installedPackages packageName

/-- Method `PackageManager.downloadPackage`. -/
def downloadPackage (w : World) (url packageName version : String) (s : State) :
    Except Error Path × State :=
  let cachePath := w.GetCachePath packageName version
  match osMkdirAll w cachePath s.fs with
  | (some e, fs1) => (.error (.cacheDirectory e), { s with fs := fs1 })
  | (none, fs1) =>
    let archivePath := cachePath ++ ["package.tar.zst"]
    match fsLookup fs1 archivePath with
    | some _ => (.ok archivePath, { s with fs := fs1 })
    | none =>
      let s1 : State := { s with fs := fs1, trace := s.trace ++ [Event.http "GET" url ""] }
      match w.httpDo "GET" url "" with
      | .invalidRequest reason =>
        (.error (.downloadTransport (.external reason)), { s with fs := fs1 })
      | .transportError reason => (.error (.downloadTransport (.external reason)), s1)
      | .response status body =>
        if status ≠ 200 then (.error (.downloadStatus status), s1)
        else
          match osWriteFile w archivePath (Node.file "") s1.fs with
          | (some e, fs2) => (.error (.cacheFile e), { s1 with fs := fs2 })
          | (none, fs2) =>
            let fs3 := fsWrite fs2 archivePath (Node.file body.bytes)
            if body.copyFails then
              (.error (.savePackage (.external "copy")), { s1 with fs := fs3 })
            else (.ok archivePath, { s1 with fs := fs3 })

/-- Method `PackageManager.loadManifestFromDir`. -/
def loadManifestFromDir (w : World) (dir : Path) (fs : FS) : Except Error PackageManifest :=
  match fsLookup fs (dir ++ ["criage.yaml"]) with
  | none => .error .manifestNotFound
  | some (Node.file bytes) => w.parseManifest bytes
  | some _ => .error (.external "read criage.yaml")

/-- Whether `cmd.Run` can start a command in the working directory: the
directory is inherited (empty `workDir`) or exists. -/
def canStartIn (workDir : Path) (fs : FS) : Bool :=
  decide (workDir = []) || decide (fsLookup fs workDir = some Node.dir)

/-- The loop of `executeHooks` over the commands. A command whose working
directory is missing is not started and `cmd.Run` returns an error; a command
that is started may change the disk. -/
def runHooks (w : World) (workDir : Path) : List String → State → Option Error × State
  | [], s => (none, s)
  | command :: rest, s =>
    let dir : Option Path := if workDir = [] then none else some workDir
    if canStartIn workDir s.fs then
      let s1 : State :=
        { s with fs := (w.runCommand command dir s.fs).2
                 trace := s.trace ++ [Event.hook command dir] }
      if (w.runCommand command dir s.fs).1 then runHooks w workDir rest s1
      else (some (.hookFailed command), s1)
    else (some (.hookFailed command), s)

/-- Method `PackageManager.executeHooks`; the empty path stands for the empty
`workDir` string. -/
def executeHooks (w : World) (hooks : Option PackageHooks) (commands : List String)
    (workDir : Path) (s : State) : Option Error × State :=
  match hooks with
  | none => (none, s)
  | some _ => if commands = [] then (none, s) else runHooks w workDir commands s

/-- The first loop of `checkDependencies`: merging the dev-dependencies
into the dependency map; `none` is the panic of an assignment into a nil map. -/
def mergeDevDeps (dependencies : GoMap) : List (String × String) → Option GoMap
  | [] => some dependencies
  | (name, version) :: rest =>
    match dependencies with
    | none => none
    | some m => mergeDevDeps (some (mapSet m name version)) rest

/-- The entries a `range` over a Go map visits. -/
def rangeMap (w : World) (m : GoMap) : List (String × String) :=
  match m with
  | none => []
  | some entries => w.rangeOrder entries

/-- The second loop of `checkDependencies`, with the recursive call to
`InstallPackage` as `install`; `none` when `install` does not return. -/
def installMissing (install : String → String → State → Option (Result × State)) :
    List (String × String) → State → Option (Result × State)
  | [], s => some (.ok, s)
  | (depName, depVersion) :: rest, s =>
    match getInstalledPackage s depName with
    | some _ => installMissing install rest s
    | none =>
      match install depName depVersion s with
      | none => none
      | some (.ok, s1) => installMissing install rest s1
      | some (.error e, s1) => some (.error (.dependency depName e), s1)
      | some (.panic reason, s1) => some (.panic reason, s1)

/-- Method `PackageManager.checkDependencies`; it also returns the dependency map
of the manifest, which the first loop updates in place. -/
def checkDependencies (w : World)
    (install : String → String → State → Option (Result × State))
    (manifest : PackageManifest) (dev : Bool) (s : State) :
    Option (Result × GoMap × State) :=
  let merged : Option GoMap :=
    if dev then mergeDevDeps manifest.Dependencies (rangeMap w manifest.DevDeps)
    else some manifest.Dependencies
  match merged with
  | none => some (.panic "assignment to entry in nil map", manifest.Dependencies, s)
  | some dependencies =>
    match installMissing install (rangeMap w dependencies) s with
    | none => none
    | some (r, s1) => some (r, dependencies, s1)

/-- The length of the longest common leading segment of two paths. -/
def commonLength : Path → Path → Nat
  | a :: as, b :: bs => if a = b then commonLength as bs + 1 else 0
  | _, _ => 0

/-- Go `filepath.Rel(base, target)`. -/
def relPath (base target : Path) : Path :=
  let k := commonLength base target
  List.replicate (base.length - k) ".." ++ target.drop k

/-- Go `filepath.Join(dir, rel)` with the `..` components of `rel` resolved. -/
def joinClean (dir : Path) : Path → Path
  | [] => dir
  | c :: rest => if c = ".." then joinClean dir.dropLast rest else joinClean (dir ++ [c]) rest

/-- Method `PackageManager.copyFile`. -/
def copyFile (w : World) (src dst : Path) (fs : FS) : Option Error × FS :=
  match fsLookup fs src with
  | none => (some (.external "stat"), fs)
  | some Node.dir => osMkdirAll w dst fs
  | some n =>
    match osMkdirAll w dst.dropLast fs with
    | (some e, fs1) => (some e, fs1)
    | (none, fs1) => osWriteFile w dst n fs1

/-- The inner loop of `copyFiles` over the matches of one pattern. -/
def copyMatches (w : World) (srcDir dstDir : Path) : List Path → FS → Option Error × FS
  | [], fs => (none, fs)
  | src :: rest, fs =>
    match copyFile w src (joinClean dstDir (relPath srcDir src)) fs with
    | (some e, fs1) => (some e, fs1)
    | (none, fs1) => copyMatches w srcDir dstDir rest fs1

/-- Method `PackageManager.copyFiles`. -/
def copyFiles (w : World) (srcDir dstDir : Path) : List String → FS → Option Error × FS
  | [], fs => (none, fs)
  | pattern :: rest, fs =>
    match w.Glob fs srcDir pattern with
    | .error e => (some e, fs)
    | .ok src =>
      match copyMatches w srcDir dstDir src fs with
      | (some e, fs1) => (some e, fs1)
      | (none, fs1) => copyFiles w srcDir dstDir rest fs1

/-- Method `PackageManager.calculateDirSize`. -/
def calculateDirSize (w : World) (dir : Path) (fs : FS) : Int :=
  if dir = [] then 0
  else ((fs.filter (fun e => dir.isPrefixOf e.1)).map (fun e => nodeSize w e.2)).sum

/-- The path of the state record of a package installed at `installPath`. -/
def infoPath (installPath : Path) : Path :=
  installPath ++ [".criage", "package.json"]

/-- Method `PackageManager.savePackageInfo`. -/
def savePackageInfo (w : World) (info : PackageInfo) (fs : FS) : Option Error × FS :=
  match osMkdirAll w (info.InstallPath ++ [".criage"]) fs with
  | (some e, fs1) => (some e, fs1)
  | (none, fs1) => osWriteFile w (infoPath info.InstallPath) (Node.record info) fs1

/-- Method `PackageManager.removePackageInfo`. -/
def removePackageInfo (w : World) (packageName : String) (s : State) :
    Option Error × State :=
  match getInstalledPackage s packageName with
  | none => (none, s)
  | some info =>
    match osRemove w (infoPath info.InstallPath) s.fs with
    | (r, fs1) => (r, { s with fs := fs1 })

/-! ## Install, uninstall, list -/

/-- What `ExtractArchive` leaves under the destination directory. -/
def writeExtracted (dest : Path) (entries : List (Path × Option String)) (fs : FS) : FS :=
  (([], none) :: entries).foldl
    (fun acc e =>
      fsWrite acc (dest ++ e.1)
        (match e.2 with
         | none => Node.dir
         | some bytes => Node.file bytes))
    fs

/-- Steps 9 to 12 of `InstallPackage`: replacing the install directory,
copying the files, recording the package, running the post-install hooks. -/
def installFiles (w : World) (packageName : String) (global force : Bool)
    (manifest : PackageManifest) (hooks : PackageHooks) (dependencies : GoMap)
    (tempDir : Path) (s : State) : Result × State :=
  let installPath := w.GetInstallPath packageName global
  let removed : Option Error × FS :=
    if force then osRemoveAll w installPath s.fs else (none, s.fs)
  match removed with
  | (some e, fs1) => (.error (.wrapped "error_failed_to_remove" e), { s with fs := fs1 })
  | (none, fs1) =>
    match osMkdirAll w installPath fs1 with
    | (some e, fs2) => (.error (.wrapped "error_failed_to_create" e), { s with fs := fs2 })
    | (none, fs2) =>
      match copyFiles w tempDir installPath manifest.Files fs2 with
      | (some e, fs3) => (.error (.wrapped "error_failed_to_copy" e), { s with fs := fs3 })
      | (none, fs3) =>
        let packageInfo : PackageInfo :=
          { Name := manifest.Name
            Version := manifest.Version
            Description := manifest.Description
            Author := manifest.Author
            InstallDate := w.now
            InstallPath := installPath
            Global := global
            Dependencies := dependencies
            Size := calculateDirSize w installPath fs3
            Files := manifest.Files
            Scripts := manifest.Scripts }
        match savePackageInfo w packageInfo fs3 with
        | (some e, fs4) => (.error (.wrapped "error_failed_to_save" e), { s with fs := fs4 })
        | (none, fs4) =>
          let s1 : State :=
            { s with fs := fs4
                     installedPackages := mapSet s.installedPackages packageName packageInfo }
          (.ok, (executeHooks w (some hooks) hooks.PostInstall installPath s1).2)

/-- The call `archiveManager.ExtractArchive(archivePath, tempDir, format)`:
whether it succeeds, and the state it leaves. The format detected from the
path belongs to the archive collaborator; an archive path that holds no
regular file makes the call fail. -/
def extractArchive (w : World) (archivePath tempDir : Path) (s : State) : Bool × State :=
  let extracted : Bool × List (Path × Option String) :=
    match fsLookup s.fs archivePath with
    | some (Node.file bytes) => w.ExtractArchive bytes
    | _ => (false, [])
  (extracted.1, { s with fs := writeExtracted tempDir extracted.2 s.fs })

/-- Steps 5 to 12 of `InstallPackage`, the part that runs between the
registration of the deferred cleanup and the return. -/
def installSteps (w : World) (install : String → String → State → Option (Result × State))
    (packageName : String) (global force dev : Bool) (archivePath tempDir : Path)
    (s : State) : Option (Result × State) :=
  match extractArchive w archivePath tempDir s with
  | (false, s1) => some (.error (.wrapped "error_failed_to_extract" (.external "extract")), s1)
  | (true, s1) =>
    match loadManifestFromDir w tempDir s1.fs with
    | .error e => some (.error (.wrapped "error_failed_to_load" e), s1)
    | .ok manifest =>
      match checkDependencies w install manifest dev s1 with
      | none => none
      | some (.error e, _, s2) => some (.error (.wrapped "error_dependency_check" e), s2)
      | some (.panic reason, _, s2) => some (.panic reason, s2)
      | some (.ok, dependencies, s2) =>
        match manifest.Hooks with
        | none => some (.panic "nil pointer dereference", s2)
        | some hooks =>
          match executeHooks w manifest.Hooks hooks.PreInstall tempDir s2 with
          | (some e, s3) => some (.error (.wrapped "error_pre_install_hooks" e), s3)
          | (none, s3) =>
            some (installFiles w packageName global force manifest hooks dependencies tempDir s3)

/-- The two deferred calls of `InstallPackage`, run last registered
first: `os.RemoveAll(tempDir)`, then `os.Remove(archivePath)`. Either can
fail; the source drops their results. -/
def installCleanup (w : World) (archivePath tempDir : Path) (s : State) : State :=
  { s with fs := (osRemove w archivePath (osRemoveAll w tempDir s.fs).2).2 }

/-- The test at the top of `InstallPackage`: the package is installed
and no other version is asked for. -/
def alreadyInstalled (s : State) (packageName version : String) : Bool :=
  match getInstalledPackage s packageName with
  | none => false
  | some info => decide (version = "") || decide (info.Version = version)

/-- The temp directory of an install. -/
def installTempDir (w : World) (packageName : String) : Path :=
  w.GetTempPath ("install_" ++ packageName ++ "_" ++ toString w.now)

/-- Method `PackageManager.InstallPackage`. The first argument bounds the depth
of nested dependency installs; `none` means the bound was reached. -/
def InstallPackage (w : World) : Nat → String → String → Bool → Bool → Bool → String → String →
    State → Option (Result × State)
  | 0, _, _, _, _, _, _, _, _ => none
  | fuel + 1, packageName, version, global, force, dev, arch, osName, s =>
    if !force && alreadyInstalled s packageName version then some (.ok, s)
    else
      let arch := if arch = "" then w.GOARCH else arch
      let osName := if osName = "" then w.GOOS else osName
      match findPackage w packageName version arch osName s with
      | (.error e, s1) => some (.error (.wrapped "error_failed_to_find" e), s1)
      | (.ok (packageInfo, downloadURL), s1) =>
        match downloadPackage w downloadURL packageName packageInfo.Version s1 with
        | (.error e, s2) => some (.error (.wrapped "error_failed_to_download" e), s2)
        | (.ok archivePath, s2) =>
          let tempDir := installTempDir w packageName
          match installSteps w
              (fun depName depVersion st =>
                InstallPackage w fuel depName depVersion false false false "" "" st)
              packageName global force dev archivePath tempDir s2 with
          | none => none
          | some (r, s3) => some (r, installCleanup w archivePath tempDir s3)

/-- The part of `UninstallPackage` after the pre-remove hooks: removing
the install directory and the record, dropping the registry entry, running
the post-remove hooks. -/
def uninstallSteps (w : World) (packageName : String) (packageInfo : PackageInfo)
    (hooks : Option PackageHooks) (s1 : State) : Result × State :=
  match osRemoveAll w packageInfo.InstallPath s1.fs with
  | (some e, fs2) => (.error (.wrapped "error_failed_to_remove" e), { s1 with fs := fs2 })
  | (none, fs2) =>
    match removePackageInfo w packageName { s1 with fs := fs2 } with
    | (some e, s3) => (.error (.wrapped "error_failed_to_remove" e), s3)
    | (none, s3) =>
      let s4 : State :=
        { s3 with installedPackages := mapDelete s3.installedPackages packageName }
      match hooks with
      | some h => (.ok, (executeHooks w hooks h.PostRemove [] s4).2)
      | none => (.ok, s4)

/-- Method `PackageManager.UninstallPackage`. The hooks are those of the manifest
when it loads and has hooks (`manifest != nil && manifest.Hooks != nil`). -/
def UninstallPackage (w : World) (packageName : String) (global purge : Bool) (s : State) :
    Result × State :=
  match getInstalledPackage s packageName with
  | none => (.error (.notInstalled packageName), s)
  | some packageInfo =>
    let hooks : Option PackageHooks :=
      match loadManifestFromDir w packageInfo.InstallPath s.fs with
      | .ok manifest => manifest.Hooks
      | .error _ => none
    let s1 : State :=
      match hooks with
      | some h => (executeHooks w hooks h.PreRemove packageInfo.InstallPath s).2
      | none => s
    uninstallSteps w packageName packageInfo hooks s1

/-- The loop of `ListPackages` over the entries of the registry. -/
def listLoop (w : World) (global outdated : Bool) :
    List (String × PackageInfo) → State → List PackageInfo × State
  | [], s => ([], s)
  | (_, pkg) :: rest, s =>
    if global && !pkg.Global then listLoop w global outdated rest s
    else if !global && pkg.Global then listLoop w global outdated rest s
    else if outdated then
      match findPackage w pkg.Name "" w.GOARCH w.GOOS s with
      | (.error _, s1) => listLoop w global outdated rest s1
      | (.ok (latestInfo, _), s1) =>
        if latestInfo.Version = pkg.Version then listLoop w global outdated rest s1
        else (pkg :: (listLoop w global outdated rest s1).1, (listLoop w global outdated rest s1).2)
    else (pkg :: (listLoop w global outdated rest s).1, (listLoop w global outdated rest s).2)

/-- Method `PackageManager.ListPackages`; it never returns an error. -/
def ListPackages (w : World) (global outdated : Bool) (s : State) : List PackageInfo × State :=
  (w.sortSlice (fun a b => decide (a.Name < b.Name))
      (listLoop w global outdated (w.rangeOrder s.installedPackages) s).1,
    (listLoop w global outdated (w.rangeOrder s.installedPackages) s).2)

/-- The nested call `checkDependencies` makes for a missing
dependency: `InstallPackage(depName, depVersion, false, false, false, "", "")`. -/
def nestedInstall (w : World) (fuel : Nat) (depName depVersion : String) (s : State) :
    Option (Result × State) :=
  InstallPackage w fuel depName depVersion false false false "" "" s

/-- The architecture `InstallPackage` resolves for. -/
def effectiveArch (w : World) (arch : String) : String :=
  if arch = "" then w.GOARCH else arch

/-- The operating system `InstallPackage` resolves for. -/
def effectiveOS (w : World) (osName : String) : String :=
  if osName = "" then w.GOOS else osName

/-- Steps 2 to 6 of `InstallPackage`, from the resolution to the load of the
manifest: the archive path, the manifest and the state in which the
dependency check starts; `none` when one of the steps fails. -/
def dependencyCheckPoint (w : World) (packageName version arch osName : String) (s : State) :
    Option (Path × PackageManifest × State) :=
  match findPackage w packageName version (effectiveArch w arch) (effectiveOS w osName) s with
  | (.error _, _) => none
  | (.ok (packageInfo, downloadURL), s1) =>
    match downloadPackage w downloadURL packageName packageInfo.Version s1 with
    | (.error _, _) => none
    | (.ok archivePath, s2) =>
      match extractArchive w archivePath (installTempDir w packageName) s2 with
      | (false, _) => none
      | (true, s3) =>
        match loadManifestFromDir w (installTempDir w packageName) s3.fs with
        | .error _ => none
        | .ok manifest => some (archivePath, manifest, s3)

/-! ## Search, upload, server info, stats, index refresh -/

/-- What `searchInRepository` makes of the answer to its request. -/
def decodeSearch (repo : Repository) : JsonReply → Except Error (List SearchResult)
  | .invalidRequest reason => .error (.external reason)
  | .transportError reason => .error (.external reason)
  | .response status envelope =>
    if status ≠ 200 then .error (.searchStatus status)
    else
      match envelope with
      | none => .error (.external "json decode")
      | some apiResp =>
        if !apiResp.Success then .error (.apiError apiResp.Error)
        else
          match apiResp.Data with
          | .notObject _ => .error .unexpectedFormat
          | .object _ none _ => .error .searchResultsFormat
          | .object _ (some items) _ =>
            .ok ((items.filterMap id).map (fun r => { r with Repository := repo.Name }))

/-- Whether a request is built and handed to the client. -/
def JsonReply.isSent : JsonReply → Bool
  | .invalidRequest _ => false
  | _ => true

/-- The requests a call sends: the one given, or none when it cannot be built. -/
def requestsSent (reply : JsonReply) (request : Event) : List Event :=
  if reply.isSent then [request] else []

/-- Method `PackageManager.searchInRepository`. -/
def searchInRepository (w : World) (repo : Repository) (query : String) (s : State) :
    Except Error (List SearchResult) × State :=
  let url := repo.URL ++ "/api/v1/search?q=" ++ query
  let reply := w.httpJSON "GET" url (bearer repo.AuthToken) none
  let sent := requestsSent reply (Event.http "GET" url (bearer repo.AuthToken))
  (decodeSearch repo reply, { s with trace := s.trace ++ sent })

/-- The loop of `SearchPackages` over the configured repositories, in the
order `GetRepositories` lists them. -/
def searchLoop (w : World) (query : String) :
    List Repository → State → List SearchResult × State
  | [], s => ([], s)
  | repo :: rest, s =>
    if !repo.Enabled then searchLoop w query rest s
    else
      match searchInRepository w repo query s with
      | (.error _, s1) => searchLoop w query rest s1
      | (.ok repoResults, s1) =>
        (repoResults ++ (searchLoop w query rest s1).1, (searchLoop w query rest s1).2)

/-- Method `PackageManager.SearchPackages`; it never returns an error. -/
def SearchPackages (w : World) (query : String) (s : State) : List SearchResult × State :=
  (w.sortSlice (fun a b => decide (a.Score > b.Score))
      (searchLoop w query w.GetRepositories s).1,
    (searchLoop w query w.GetRepositories s).2)

/-- What `uploadPackage` makes of the answer to its request. -/
def decodeUpload : JsonReply → Option Error
  | .invalidRequest reason => some (.createRequest (.external reason))
  | .transportError reason => some (.uploadTransport (.external reason))
  | .response status envelope =>
    if status = 401 then some .invalidToken
    else if status ≠ 201 then some (.uploadStatus status)
    else
      match envelope with
      | none => some (.decodeResponse (.external "json decode"))
      | some apiResp =>
        if !apiResp.Success then some (.uploadFailed apiResp.Error) else none

/-- Method `PackageManager.uploadPackage`; the request body is the
multipart form holding the archive file. -/
def uploadPackage (w : World) (registryURL token : String) (archivePath : Path)
    (manifest : PackageManifest) (s : State) : Option Error × State :=
  let url := registryURL ++ "/api/v1/upload"
  match fsLookup s.fs archivePath with
  | none => (some (.openFile (.external "no such file or directory")), s)
  | some Node.dir => (some (.copyFile (.external "is a directory")), s)
  | some file =>
    let reply := w.httpJSON "POST" url (bearer token) (some file)
    let sent := requestsSent reply (Event.http "POST" url (bearer token))
    (decodeUpload reply, { s with trace := s.trace ++ sent })

/-- What `GetRepositoryInfo` makes of the answer to its request. -/
def decodeInfo : JsonReply → Except Error (List (String × String))
  | .invalidRequest reason => .error (.createRequest (.external reason))
  | .transportError reason => .error (.executeRequest (.external reason))
  | .response status envelope =>
    if status ≠ 200 then .error (.serverError status)
    else
      match envelope with
      | none => .error (.decodeResponse (.external "json decode"))
      | some apiResp =>
        if !apiResp.Success then .error (.operationFailed apiResp.Error)
        else
          match apiResp.Data with
          | .notObject _ => .error .unexpectedResponseFormat
          | .object entries _ _ => .ok entries

/-- Method `PackageManager.GetRepositoryInfo`. -/
def GetRepositoryInfo (w : World) (repositoryURL : String) (s : State) :
    Except Error (List (String × String)) × State :=
  let url := repositoryURL ++ "/api/v1/"
  let reply := w.httpJSON "GET" url "" none
  let sent := requestsSent reply (Event.http "GET" url "")
  (decodeInfo reply, { s with trace := s.trace ++ sent })

/-- The statistics view of a payload. -/
def payloadStats : Payload → Option RepositoryStats
  | .notObject stats => stats
  | .object _ _ stats => stats

/-- What `GetRepositoryStats` makes of the answer to its request. -/
def decodeStats : JsonReply → Except Error RepositoryStats
  | .invalidRequest reason => .error (.createRequest (.external reason))
  | .transportError reason => .error (.executeRequest (.external reason))
  | .response status envelope =>
    if status ≠ 200 then .error (.serverError status)
    else
      match envelope with
      | none => .error (.decodeResponse (.external "json decode"))
      | some apiResp =>
        if !apiResp.Success then .error (.operationFailed apiResp.Error)
        else
          match payloadStats apiResp.Data with
          | none => .error (.unmarshalStats (.external "json unmarshal"))
          | some stats => .ok stats

/-- Method `PackageManager.GetRepositoryStats`. -/
def GetRepositoryStats (w : World) (repositoryURL : String) (s : State) :
    Except Error RepositoryStats × State :=
  let url := repositoryURL ++ "/api/v1/stats"
  let reply := w.httpJSON "GET" url "" none
  let sent := requestsSent reply (Event.http "GET" url "")
  (decodeStats reply, { s with trace := s.trace ++ sent })

/-- What `RefreshRepositoryIndex` makes of the answer to its request. -/
def decodeRefresh : JsonReply → Option Error
  | .invalidRequest reason => some (.createRequest (.external reason))
  | .transportError reason => some (.executeRequest (.external reason))
  | .response status envelope =>
    if status = 401 then some .invalidToken
    else if status ≠ 200 then some (.serverError status)
    else
      match envelope with
      | none => some (.decodeResponse (.external "json decode"))
      | some apiResp =>
        if !apiResp.Success then some (.operationFailed apiResp.Error) else none

/-- Method `PackageManager.RefreshRepositoryIndex`. -/
def RefreshRepositoryIndex (w : World) (repositoryURL authToken : String) (s : State) :
    Option Error × State :=
  let url := repositoryURL ++ "/api/v1/refresh"
  let reply := w.httpJSON "POST" url (bearer authToken) none
  let sent := requestsSent reply (Event.http "POST" url (bearer authToken))
  (decodeRefresh reply, { s with trace := s.trace ++ sent })

/-! ## Update -/

/-- Method `PackageManager.UpdatePackage`. The first argument bounds the
depth of nested installs, as for `InstallPackage`. -/
def UpdatePackage (w : World) (fuel : Nat) (packageName : String) (s : State) :
    Option (Result × State) :=
  match getInstalledPackage s packageName with
  | none => some (.error (.updateNotInstalled packageName), s)
  | some packageInfo =>
    match findPackage w packageName "" w.GOARCH w.GOOS s with
    | (.error e, s1) => some (.error (.findLatest e), s1)
    | (.ok (latestInfo, _), s1) =>
      if latestInfo.Version = packageInfo.Version then some (.ok, s1)
      else InstallPackage w fuel packageName latestInfo.Version packageInfo.Global true false
        "" "" s1

/-! ## Rate limiter -/

/-- The state of a `RateLimiter`: the capacity and the length of the
buffered channel `requests`, and the period of the ticker in nanoseconds. -/
structure RateLimiter where
  capacity : Nat
  count : Nat
  interval : Nat
deriving DecidableEq, Repr

/-- Function `NewRateLimiter`, up to the start of the refill goroutine:
`none` is the panic of `time.NewTicker` on an interval that is not positive. -/
def NewRateLimiter (requestsPerSecond : Int) : Option RateLimiter :=
  let n : Int := if requestsPerSecond ≤ 0 then 10 else requestsPerSecond
  let interval : Int := 1000000000 / n
  if interval ≤ 0 then none
  else some { capacity := n.toNat, count := n.toNat, interval := interval.toNat }

/-- One tick of the refill goroutine: the `select` sends a permit unless
the buffer is full. -/
def tick (rl : RateLimiter) : RateLimiter :=
  if rl.count < rl.capacity then { rl with count := rl.count + 1 } else rl

/-- Method `RateLimiter.Wait`: the receive takes one permit; `none` when
the buffer is empty and the caller blocks. -/
def Wait (rl : RateLimiter) : Option RateLimiter :=
  if 0 < rl.count then some { rl with count := rl.count - 1 } else none

/-- The states a limiter built as `start` can reach by ticks and waits. -/
inductive Reachable (start : RateLimiter) : RateLimiter → Prop where
  | construct : Reachable start start
  | tick {rl : RateLimiter} : Reachable start rl → Reachable start (tick rl)
  | wait {rl rl' : RateLimiter} : Reachable start rl → Wait rl = some rl' → Reachable start rl'

/-- A limiter in logical time: `now` is the time since the ticker was
created, in nanoseconds. -/
structure Clocked where
  limiter : RateLimiter
  now : Nat
deriving DecidableEq, Repr

/-- A `Wait` in logical time. With a permit in the buffer it returns at
once. Otherwise the caller blocks until the next tick of the ticker, which
sends one permit, and takes it. -/
def waitAt (c : Clocked) : Clocked :=
  match Wait c.limiter with
  | some rl => { limiter := rl, now := c.now }
  | none =>
    let next := (c.now / c.limiter.interval + 1) * c.limiter.interval
    match Wait (tick c.limiter) with
    | some rl => { limiter := rl, now := next }
    | none => { limiter := tick c.limiter, now := next }

/-- Consecutive `Wait` calls in logical time. -/
def waits : Nat → Clocked → Clocked
  | 0, c => c
  | k + 1, c => waits k (waitAt c)

/-- The logical time that `k` consecutive `Wait` calls take on a fresh
`NewRateLimiter(requestsPerSecond)`, in nanoseconds. -/
def elapsedNanos (requestsPerSecond : Int) (k : Nat) : Option Nat :=
  (NewRateLimiter requestsPerSecond).map (fun rl => (waits k { limiter := rl, now := 0 }).now)

/-! ## Localization -/

/-- The fields of `Localization` that `Get` reads. A language without a
table and a language whose table is a nil map read alike. -/
structure Localization where
  currentLanguage : String
  supportedLanguages : List String
  translations : List (String × List (String × String))
deriving DecidableEq, Repr

/-- The fallback language. -/
def DefaultLanguage : String := "en"

/-- The first part of `Localization.Get`: the table it reads. It is the
table of the current language; without one, the English table; without that,
the table of the first supported language, or no table at all. -/
def Localization.tableInUse (l : Localization) : List (String × String) :=
  match mapGet l.translations l.currentLanguage with
  | some translations => translations
  | none =>
    match mapGet l.translations DefaultLanguage with
    | some fallbackTranslations => fallbackTranslations
    | none =>
      match l.supportedLanguages with
      | first :: _ => (mapGet l.translations first).getD []
      | [] => []

/-- Method `Localization.Get`; `sprintf` is `fmt.Sprintf` and `α` the type of
its arguments. -/
def Localization.Get {α : Type} (sprintf : String → List α → String) (l : Localization)
    (key : String) (args : List α) : String :=
  match mapGet l.tableInUse key with
  | some translation => if args.length > 0 then sprintf translation args else translation
  | none => key

/-- Function `T`: `Get` on the global instance. -/
def T {α : Type} (sprintf : String → List α → String) (globalLocalization : Localization)
    (key : String) (args : List α) : String :=
  globalLocalization.Get sprintf key args

/-! ## Contracts of the library calls and sample environments -/

/-- What `sort.Slice` guarantees: the slice is rearranged, and
afterwards no element is `less` than one before it. -/
def SortContract (w : World) : Prop :=
  ∀ (α : Type) (less : α → α → Bool) (l : List α),
    (w.sortSlice less l).Perm l ∧
    ((∀ a b c, less a b = false → less b c = false → less a c = false) →
      (∀ a b, less a b = true → less b a = false) →
      List.Pairwise (fun a b => less b a = false) (w.sortSlice less l))

/-- What a `range` over a map guarantees: every entry is visited once. -/
def RangeContract (w : World) : Prop :=
  ∀ (α : Type) (l : List (String × α)), (w.rangeOrder l).Perm l

/-- An install of `name` from the state `s` resolves, downloads, extracts
and loads its manifest, so that its dependency check starts, in the state
`s3`; and the first entry of the dependency map that the check finds without
a registry entry is `other`. -/
def DependsOn (w : World) (name version : String) (dev : Bool) (arch osName : String)
    (other otherVersion : String) (s s3 : State) : Prop :=
  ∃ archivePath manifest dependencies pre post,
    dependencyCheckPoint w name version arch osName s = some (archivePath, manifest, s3) ∧
    (if dev then mergeDevDeps manifest.Dependencies (rangeMap w manifest.DevDeps)
      else some manifest.Dependencies) = some dependencies ∧
    rangeMap w dependencies = pre ++ (other, otherVersion) :: post ∧
    (∀ d ∈ pre, getInstalledPackage s3 d.1 ≠ none) ∧
    getInstalledPackage s3 other = none

/-- Whether a node is a package record. -/
def isRecord : Node → Bool
  | .record _ => true
  | _ => false

/-- The package records on disk. -/
def diskRecords (fs : FS) : FS :=
  fs.filter (fun e => isRecord e.2)

/-- Neither path lies at or below the other. -/
def pathsApart (a b : Path) : Bool :=
  !a.isPrefixOf b && !b.isPrefixOf a

/-- A stable insertion sort, which is what `sort.Slice` runs on a slice
shorter than twelve elements. -/
def stableSort {α : Type} (less : α → α → Bool) (l : List α) : List α :=
  l.insertionSort (fun a b => less b a = false)

/-- The state of a fresh manager on an empty disk. -/
def emptyState : State := ⟨[], [], []⟩

/-! ### A sample environment

Three registries with priorities 10, 50 and 30; only the one with priority
30 holds packages. -/

/-- The registry with priority 10. -/
def sampleRepoLow : Repository := ⟨"low", "http://low", 10, true, ""⟩

/-- The registry with priority 50. -/
def sampleRepoHigh : Repository := ⟨"high", "http://high", 50, true, ""⟩

/-- The registry with priority 30, the one that holds the packages. -/
def sampleRepoMid : Repository := ⟨"mid", "http://mid", 30, true, "token"⟩

/-- The file entry of a version for linux/amd64. -/
def sampleFile (name version : String) : FileEntry :=
  ⟨"linux", "amd64", "tar.zst", name ++ "-" ++ version ++ ".tar.zst", 100, ""⟩

/-- A version entry with one file for linux/amd64. -/
def sampleVersion (name version : String) : VersionEntry :=
  ⟨version, "", none, none, [sampleFile name version], 100, "", 0⟩

/-- A package entry with the listed versions. -/
def sampleEntry (name : String) (versions : List String) : PackageEntry :=
  { Name := name, Description := "", Author := "", License := "MIT"
    Versions := versions.map (sampleVersion name)
    LatestVersion := "", Downloads := 0 }

/-- The packages of the sample registry and their versions. -/
def samplePackages : List (String × List String) :=
  [("foo", ["1.0.0", "1.1.0", "2.0.0"]), ("app", ["1.0.0"]), ("lib", ["1.0.0"]),
   ("cyc", ["1.0.0", "2.0.0"]), ("hub", ["1.0.0"]), ("brk", ["1.0.0"]), ("alias", ["1.0.0"])]

/-- The answer of the sample registry to a package lookup. -/
def sampleLookup (url : String) : Option HttpResult :=
  (samplePackages.find? (fun p => decide (url = "http://mid/api/v1/packages/" ++ p.1))).map
    (fun p => .response 200 ⟨some ⟨true, "", .object (some (sampleEntry p.1 p.2)), ""⟩, "", false⟩)

/-- The archives of the sample registry: the download URL and the bytes. -/
def sampleArchives : List (String × String) :=
  samplePackages.flatMap (fun p =>
    p.2.map (fun v =>
      ("http://mid/api/v1/download/" ++ p.1 ++ "/" ++ v ++ "/" ++ p.1 ++ "-" ++ v ++ ".tar.zst",
        p.1 ++ "@" ++ v)))

/-- Whether a URL holds an ASCII control character; Go `url.Parse`, and with
it `http.NewRequest`, rejects such a URL. -/
def urlRejected (url : String) : Bool :=
  url.toList.any (fun c => decide (c.toNat < 32) || decide (c.toNat = 127))

/-- The answer of the sample network. The body of the archive of `brk`
breaks off while it is copied. -/
def sampleHttp (_method url _authorization : String) : HttpResult :=
  if urlRejected url then .invalidRequest "invalid control character in URL"
  else
    match sampleLookup url with
    | some r => r
    | none =>
      match mapGet sampleArchives url with
      | some bytes => .response 200 ⟨none, bytes, decide (bytes = "brk@1.0.0")⟩
      | none => .response 404 ⟨none, "", false⟩

/-- Hooks that do nothing. -/
def noHooks : PackageHooks := ⟨[], [], [], []⟩

/-- The manifests inside the sample archives, keyed by the archive bytes. -/
def sampleManifests : List (String × PackageManifest) :=
  [("foo@1.0.0", ⟨"foo", "1.0.0", "", "", some [], some [], none, ["bin"], some noHooks⟩),
   ("foo@1.1.0", ⟨"foo", "1.1.0", "", "", some [], some [], none, ["bin"], some noHooks⟩),
   ("foo@2.0.0", ⟨"foo", "2.0.0", "", "", some [], some [], none, ["bin"], some noHooks⟩),
   ("app@1.0.0", ⟨"app", "1.0.0", "", "", some [("lib", "1.0.0")], some [], none, ["bin"],
      some ⟨["false"], [], [], []⟩⟩),
   ("lib@1.0.0", ⟨"lib", "1.0.0", "", "", some [], some [], none, ["bin"], some noHooks⟩),
   ("cyc@2.0.0", ⟨"cyc", "2.0.0", "", "", some [("hub", "1.0.0")], some [], none, ["bin"],
      some ⟨["false"], [], [], []⟩⟩),
   ("hub@1.0.0", ⟨"hub", "1.0.0", "", "", some [("cyc", "1.0.0")], some [], none, ["bin"],
      some noHooks⟩),
   ("cyc@1.0.0", ⟨"cyc", "1.0.0", "", "", some [], some [], none, ["bin"], some noHooks⟩),
   ("alias@1.0.0", ⟨"other", "1.0.0", "", "", some [], some [], none, ["bin"], some noHooks⟩)]

/-- The sample environment. Every archive holds `criage.yaml` and a file
`bin/run`; the file patterns of the manifests have no metacharacter, so
`filepath.Glob` returns the one path of that name, if it exists; the only
command that fails is `false`, and no command changes the disk; the disk
raises no fault. -/
def sampleWorld : World :=
  { GetRepositories := [sampleRepoLow, sampleRepoHigh, sampleRepoMid]
    GetInstallPath := fun name global => [if global then "global" else "local", name]
    GetCachePath := fun name version => ["cache", name, version]
    GetTempPath := fun label => ["tmp", label]
    GOARCH := "amd64"
    GOOS := "linux"
    now := 1700000000
    sortSlice := stableSort
    rangeOrder := fun l => l
    httpDo := sampleHttp
    ExtractArchive := fun bytes =>
      (true, [(["criage.yaml"], some bytes), (["bin"], none), (["bin", "run"], some "#!")])
    parseManifest := fun bytes =>
      match mapGet sampleManifests bytes with
      | some m => .ok m
      | none => .error (.external "yaml")
    runCommand := fun command _ fs => (decide (command ≠ "false"), fs)
    Glob := fun fs srcDir pattern =>
      .ok ((fs.filter (fun e => decide (e.1 = srcDir ++ [pattern]))).map (fun e => e.1))
    recordSize := fun _ => 256
    mkdirAllFault := fun _ => none
    removeAllFault := fun _ => none
    writeFault := fun _ => none }

/-- The state a call leaves behind (the state of a fresh manager if the
call does not return). -/
def stateAfter (r : Option (Result × State)) : State :=
  match r with
  | some (_, s) => s
  | none => emptyState

/-- The outcome of a call, if it returns. -/
def resultOf (r : Option (Result × State)) : Option Result :=
  r.map (fun x => x.1)

/-- The sample state in which `foo` is installed in the local scope. -/
def sampleFooState : State :=
  stateAfter (InstallPackage sampleWorld 1 "foo" "" false false false "" "" emptyState)

/-- The record of `foo` in `sampleFooState`. -/
def sampleFooInfo : PackageInfo :=
  { Name := "foo", Version := "2.0.0", Description := "", Author := ""
    InstallDate := 1700000000, InstallPath := ["local", "foo"], Global := false
    Dependencies := some [], Size := 0, Files := ["bin"], Scripts := none }

/-- The record the install of `alias` writes: its name is the name
declared by the manifest, `other`. -/
def sampleAliasInfo : PackageInfo :=
  { Name := "other", Version := "1.0.0", Description := "", Author := ""
    InstallDate := 1700000000, InstallPath := ["local", "alias"], Global := false
    Dependencies := some [], Size := 0, Files := ["bin"], Scripts := none }

/-- The record of `cyc` 1.0.0, installed as a dependency of `hub`. -/
def sampleCycInfo : PackageInfo :=
  { Name := "cyc", Version := "1.0.0", Description := "", Author := ""
    InstallDate := 1700000000, InstallPath := ["local", "cyc"], Global := false
    Dependencies := some [], Size := 0, Files := ["bin"], Scripts := none }

/-- What the lookup of `app` returns. -/
def sampleAppInfo : PackageInfo :=
  { Name := "app", Version := "1.0.0", Description := "", Author := ""
    InstallDate := 0, InstallPath := [], Global := false
    Dependencies := none, Size := 100, Files := [], Scripts := none }

/-- The manifest of `app`: it depends on `lib` and its pre-install hook fails. -/
def sampleAppManifest : PackageManifest :=
  ⟨"app", "1.0.0", "", "", some [("lib", "1.0.0")], some [], none, ["bin"],
    some ⟨["false"], [], [], []⟩⟩

/-- The state of the install of `app` after the download. -/
def sampleAppDownloaded : State :=
  (downloadPackage sampleWorld "http://mid/api/v1/download/app/1.0.0/app-1.0.0.tar.zst" "app"
    "1.0.0" (findPackage sampleWorld "app" "" "amd64" "linux" emptyState).2).2

/-- The state of the install of `app` after the dependency check. -/
def sampleAppChecked : State :=
  match checkDependencies sampleWorld (nestedInstall sampleWorld 1) sampleAppManifest false
      (extractArchive sampleWorld ["cache", "app", "1.0.0", "package.tar.zst"]
        (installTempDir sampleWorld "app") sampleAppDownloaded).2 with
  | some (_, _, s) => s
  | none => emptyState

/-- The sample state in which version 1.0.0 of `foo` is installed. -/
def sampleFooOldState : State :=
  stateAfter (InstallPackage sampleWorld 1 "foo" "1.0.0" false false false "" "" emptyState)

/-- A record with the given name and scope. -/
def sampleInfo (name : String) (global : Bool) : PackageInfo :=
  { Name := name, Version := "1.0.0", Description := "", Author := ""
    InstallDate := 1700000000, InstallPath := [if global then "global" else "local", name]
    Global := global, Dependencies := none, Size := 0, Files := [], Scripts := none }

/-- A sample registry with `apple` and `Zed` in the local scope and `glob`
in the global scope. -/
def sampleMixedState : State :=
  ⟨[("apple", sampleInfo "apple" false), ("glob", sampleInfo "glob" true),
      ("Zed", sampleInfo "Zed" false)], [], []⟩

/-- What the lookup of the latest `foo` returns. -/
def sampleVersionInfo : PackageInfo :=
  { Name := "foo", Version := "2.0.0", Description := "", Author := ""
    InstallDate := 0, InstallPath := [], Global := false
    Dependencies := none, Size := 100, Files := [], Scripts := none }

/-! ### A sample environment with servers in trouble

The server `down` answers every request with status 500 (404 for a package
lookup) and an envelope with success=false; `auth` answers 401; `soft`
answers with the status each call expects and an envelope with
success=false; `up` answers with the expected status and success=true. -/

/-- Whether a URL starts with the given text. -/
def urlStartsWith (start url : String) : Bool :=
  start.toList.isPrefixOf url.toList

/-- The envelope the servers in trouble send. -/
def sampleRefusal (text : String) : JsonEnvelope :=
  ⟨false, "", .notObject none, text⟩

/-- The envelope the server `up` sends. -/
def sampleAccept : JsonEnvelope :=
  ⟨true, "done", .object [("name", "criage")] (some []) (some ⟨"stats"⟩), ""⟩

/-- The network of the servers in trouble for search, upload, server info,
stats and index refresh. -/
def troubledJSON (method url _authorization : String) (_body : Option Node) : JsonReply :=
  if urlRejected url then .invalidRequest "invalid control character in URL"
  else if urlStartsWith "http://down/" url then .response 500 (some (sampleRefusal "database is down"))
  else if urlStartsWith "http://auth/" url then
    .response 401 (some (sampleRefusal "token rejected"))
  else if urlStartsWith "http://soft/" url then
    .response (if method = "POST" ∧ url = "http://soft/api/v1/upload" then 201 else 200)
      (some (sampleRefusal "quota exceeded"))
  else if urlStartsWith "http://up/" url then
    .response (if method = "POST" ∧ url = "http://up/api/v1/upload" then 201 else 200)
      (some sampleAccept)
  else .transportError "no route to host"

/-- The network of the servers in trouble for package lookups. -/
def troubledHttp (_method url _authorization : String) : HttpResult :=
  if urlRejected url then .invalidRequest "invalid control character in URL"
  else if urlStartsWith "http://down/" url then
    .response 404 ⟨some ⟨false, "", .notObject, "package is withdrawn"⟩, "", false⟩
  else if urlStartsWith "http://auth/" url then
    .response 401 ⟨some ⟨false, "", .notObject, "token rejected"⟩, "", false⟩
  else if urlStartsWith "http://soft/" url then
    .response 200 ⟨some ⟨false, "", .notObject, "quota exceeded"⟩, "", false⟩
  else .transportError "no route to host"

/-- The sample environment with the servers in trouble. -/
def troubledWorld : World :=
  { sampleWorld with httpDo := troubledHttp, httpJSON := troubledJSON }

/-- The sample environment with a temp directory of `app` that cannot be
removed: `os.RemoveAll` fails on it and the directory survives. -/
def stuckWorld : World :=
  { sampleWorld with
    removeAllFault := fun p =>
      if p = installTempDir sampleWorld "app" then
        some (.external "permission denied", [installTempDir sampleWorld "app"])
      else none }

/-- A registry on the given sample server. -/
def sampleServer (host : String) : Repository :=
  ⟨host, "http://" ++ host, 1, true, "token"⟩

/-- A state whose disk holds an archive ready for upload. -/
def sampleArchiveState : State :=
  ⟨[], [(["pkg.tar.zst"], Node.file "archive")], []⟩

/-- A manifest for the upload. -/
def sampleUploadManifest : PackageManifest :=
  ⟨"pkg", "1.0.0", "", "", none, none, none, [], none⟩

/-! ### A sample environment with hooks, dev-dependencies and a cycle

The registry `mid` also holds `post` (its post-install hook fails), `ping`
and `pong` (each lists the other as a dependency), `bare` (a manifest without
a hooks section), `tool` (dependencies and dev-dependencies), `kit`
(dev-dependencies and no dependency map), `tick` and `tock` (each lists
the other, and `tick` lists before it `gone`, which no registry holds), and
`mask` (its pre-install hook fails) with its dependency `veil`, whose manifest
carries the name `mask`. -/

/-- The further packages of the registry and their versions. -/
def extraPackages : List (String × List String) :=
  [("post", ["1.0.0"]), ("ping", ["1.0.0"]), ("pong", ["1.0.0"]), ("bare", ["1.0.0"]),
   ("tool", ["1.0.0"]), ("kit", ["1.0.0"]), ("tick", ["1.0.0"]), ("tock", ["1.0.0"]),
   ("mask", ["1.0.0"]), ("veil", ["1.0.0"])]

/-- The answer of the registry to a lookup of one of the further packages. -/
def extraLookup (url : String) : Option HttpResult :=
  (extraPackages.find? (fun p => decide (url = "http://mid/api/v1/packages/" ++ p.1))).map
    (fun p => .response 200 ⟨some ⟨true, "", .object (some (sampleEntry p.1 p.2)), ""⟩, "", false⟩)

/-- The archives of the further packages: the download URL and the bytes. -/
def extraArchives : List (String × String) :=
  extraPackages.flatMap (fun p =>
    p.2.map (fun v =>
      ("http://mid/api/v1/download/" ++ p.1 ++ "/" ++ v ++ "/" ++ p.1 ++ "-" ++ v ++ ".tar.zst",
        p.1 ++ "@" ++ v)))

/-- The answer of the network: the further packages first, then the sample ones. -/
def extraHttp (method url authorization : String) : HttpResult :=
  if urlRejected url then .invalidRequest "invalid control character in URL"
  else
    match extraLookup url with
    | some r => r
    | none =>
      match mapGet extraArchives url with
      | some bytes => .response 200 ⟨none, bytes, false⟩
      | none => sampleHttp method url authorization

/-- The manifests inside the archives of the further packages. -/
def extraManifests : List (String × PackageManifest) :=
  [("post@1.0.0", ⟨"post", "1.0.0", "", "", some [], some [], none, ["bin"],
      some ⟨[], ["false"], [], []⟩⟩),
   ("ping@1.0.0", ⟨"ping", "1.0.0", "", "", some [("pong", "1.0.0")], some [], none, ["bin"],
      some noHooks⟩),
   ("pong@1.0.0", ⟨"pong", "1.0.0", "", "", some [("ping", "1.0.0")], some [], none, ["bin"],
      some noHooks⟩),
   ("bare@1.0.0", ⟨"bare", "1.0.0", "", "", some [], some [], none, ["bin"], none⟩),
   ("tool@1.0.0", ⟨"tool", "1.0.0", "", "", some [("lib", "1.0.0"), ("foo", "2.0.0")],
      some [("foo", "1.0.0")], none, ["bin"], some noHooks⟩),
   ("kit@1.0.0", ⟨"kit", "1.0.0", "", "", none, some [("foo", "1.0.0")], none, ["bin"],
      some noHooks⟩),
   ("tick@1.0.0", ⟨"tick", "1.0.0", "", "", some [("gone", "1.0.0"), ("tock", "1.0.0")],
      some [], none, ["bin"], some noHooks⟩),
   ("tock@1.0.0", ⟨"tock", "1.0.0", "", "", some [("tick", "1.0.0")], some [], none, ["bin"],
      some noHooks⟩),
   ("mask@1.0.0", ⟨"mask", "1.0.0", "", "", some [("veil", "1.0.0")], some [], none, ["bin"],
      some ⟨["false"], [], [], []⟩⟩),
   ("veil@1.0.0", ⟨"mask", "9.9.9", "", "", some [], some [], none, ["bin"], some noHooks⟩)]

/-- The sample environment with the further packages. -/
def extraWorld : World :=
  { sampleWorld with
    httpDo := extraHttp
    parseManifest := fun bytes =>
      match mapGet extraManifests bytes with
      | some m => .ok m
      | none => sampleWorld.parseManifest bytes }

/-- The manifest of `tool`: it depends on `lib` and on `foo` 2.0.0, and for
development on `foo` 1.0.0. -/
def sampleToolManifest : PackageManifest :=
  ⟨"tool", "1.0.0", "", "", some [("lib", "1.0.0"), ("foo", "2.0.0")],
    some [("foo", "1.0.0")], none, ["bin"], some noHooks⟩

/-- What the lookup of `post` returns. -/
def samplePostInfo : PackageInfo :=
  { sampleAppInfo with Name := "post" }

/-- The manifest of `post`: its post-install hook fails. -/
def samplePostManifest : PackageManifest :=
  ⟨"post", "1.0.0", "", "", some [], some [], none, ["bin"], some ⟨[], ["false"], [], []⟩⟩

/-- The state of the install of `post` when its archive is extracted. -/
def samplePostExtracted : State :=
  (extractArchive extraWorld ["cache", "post", "1.0.0", "package.tar.zst"]
    (installTempDir extraWorld "post")
    (downloadPackage extraWorld "http://mid/api/v1/download/post/1.0.0/post-1.0.0.tar.zst"
      "post" "1.0.0" (findPackage extraWorld "post" "" "amd64" "linux" emptyState).2).2).2

/-- The disk of the install of `post` when its files are copied. -/
def samplePostCopied : FS :=
  (copyFiles extraWorld (installTempDir extraWorld "post") ["local", "post"] ["bin"]
    (osMkdirAll extraWorld ["local", "post"] samplePostExtracted.fs).2).2

/-- The record the install of `post` writes. -/
def samplePostRecord : PackageInfo :=
  { Name := "post", Version := "1.0.0", Description := "", Author := ""
    InstallDate := 1700000000, InstallPath := ["local", "post"], Global := false
    Dependencies := some [], Size := 0, Files := ["bin"], Scripts := none }

/-- The manifest of `ping`. -/
def samplePingManifest : PackageManifest :=
  ⟨"ping", "1.0.0", "", "", some [("pong", "1.0.0")], some [], none, ["bin"], some noHooks⟩

/-- The manifest of `pong`. -/
def samplePongManifest : PackageManifest :=
  ⟨"pong", "1.0.0", "", "", some [("ping", "1.0.0")], some [], none, ["bin"], some noHooks⟩

/-- The state part of a dependency check point (a fresh state if there is none). -/
def checkPointState (r : Option (Path × PackageManifest × State)) : State :=
  match r with
  | some (_, _, s) => s
  | none => emptyState

/-- The disk when the first install of `ping` reaches its dependency check:
the archive of `ping` is cached and extracted. -/
def samplePingDisk : FS :=
  (checkPointState (dependencyCheckPoint extraWorld "ping" "" "" "" emptyState)).fs

/-- The disk when the install of `pong` nested in it reaches its dependency
check: the archives of `ping` and `pong` are cached and extracted. -/
def samplePongDisk : FS :=
  (checkPointState
    (dependencyCheckPoint extraWorld "pong" "1.0.0" "" "" ⟨[], samplePingDisk, []⟩)).fs

/-! ### A sample environment for the search

The registries `one` and `two` answer a search, `off` is disabled and `bad`
answers with status 500. -/

/-- A search result with the given name and score. -/
def sampleResult (name : String) (score : Rat) : SearchResult :=
  { Name := name, Version := "1.0.0", Description := "", Author := "", Downloads := 0
    Updated := 0, Score := score, Repository := "" }

/-- The envelope of a successful search. -/
def sampleFound (items : List (Option SearchResult)) : JsonEnvelope :=
  ⟨true, "", .object [] (some items) none, ""⟩

/-- The network of the search sample. -/
def searchJSON (_method url _authorization : String) (_body : Option Node) : JsonReply :=
  if urlRejected url then .invalidRequest "invalid control character in URL"
  else if url = "http://one/api/v1/search?q=tool" then
    .response 200 (some (sampleFound
      [some (sampleResult "toolbox" 5), none, some (sampleResult "tool" 9)]))
  else if url = "http://two/api/v1/search?q=tool" then
    .response 200 (some (sampleFound [some (sampleResult "tooling" 7)]))
  else if url = "http://off/api/v1/search?q=tool" then
    .response 200 (some (sampleFound [some (sampleResult "hidden" 10)]))
  else .response 500 none

/-- The environment of the search sample. -/
def searchWorld : World :=
  { sampleWorld with
    GetRepositories :=
      [⟨"one", "http://one", 1, true, ""⟩, ⟨"bad", "http://bad", 5, true, ""⟩,
       ⟨"off", "http://off", 9, false, ""⟩, ⟨"two", "http://two", 2, true, ""⟩]
    httpJSON := searchJSON }

/-! ## The JSON encoding of the records

The package record is written with `json.MarshalIndent` and read with
`json.Unmarshal`, and the wire types are encoded the same way; the encoder,
the time formatting and the declarations of the record types (module
`criage-common`) are not part of this repository. This section models them
from the documentation of `encoding/json` and of `time`, from the field list
of the specification and from the tags `api_schema_test.go` fixes. A JSON text
is modelled by the value it denotes. What neither source fixes (the tags of
`PackageInfo`, the tags of the fields of `VersionEntry` the test does not
list, the RFC 3339 texts, the case folding of keys) is a parameter. -/

/-- Modelled from the spec: one element of a Go string, which is a sequence
of bytes: a code point whose UTF-8 encoding stands in the string, or a byte
that is part of no valid encoding. -/
inductive GoRune where
  | rune (c : Char)
  | invalid (byte : Nat)
deriving DecidableEq, Repr

/-- Modelled from the spec: a Go string, read as a `range` loop reads it. -/
abbrev GoString := List GoRune

/-- Modelled from the spec: whether the element is a code point. -/
def GoRune.isValid : GoRune → Bool
  | .rune _ => true
  | .invalid _ => false

/-- Modelled from the spec: whether the string is valid UTF-8. -/
def validUTF8 (s : GoString) : Bool := s.all GoRune.isValid

/-- Modelled from the spec: the Unicode replacement character U+FFFD. -/
def replacementChar : Char := Char.ofNat 65533

/-- Modelled from the spec: the JSON string `encoding/json` writes for a Go
string ("String values encode as JSON strings coerced to valid UTF-8,
replacing invalid bytes with the Unicode replacement rune"). -/
def encodeString (s : GoString) : String :=
  String.mk (s.map (fun r =>
    match r with
    | .rune c => c
    | .invalid _ => replacementChar))

/-- Modelled from the spec: the Go string `encoding/json` reads from a JSON
string. -/
def decodeString (s : String) : GoString := s.data.map GoRune.rune

/-- Modelled from the spec: the string with each byte that is part of no
valid encoding replaced by U+FFFD: what is read back from the JSON of a
string. -/
def toValidUTF8 (s : GoString) : GoString := decodeString (encodeString s)

/-- Modelled from the spec: the bytes of the UTF-8 encoding of a code point. -/
def utf8Bytes (c : Char) : List Nat :=
  if c.toNat < 128 then [c.toNat]
  else if c.toNat < 2048 then [192 + c.toNat / 64, 128 + c.toNat % 64]
  else if c.toNat < 65536 then
    [224 + c.toNat / 4096, 128 + c.toNat / 64 % 64, 128 + c.toNat % 64]
  else
    [240 + c.toNat / 262144, 128 + c.toNat / 4096 % 64, 128 + c.toNat / 64 % 64,
      128 + c.toNat % 64]

/-- Modelled from the spec: the bytes of a Go string. -/
def goBytes (s : GoString) : List Nat :=
  s.flatMap (fun r =>
    match r with
    | .rune c => utf8Bytes c
    | .invalid b => [b])

/-- Modelled from the spec: the order of Go strings, byte by byte. -/
def bytesLE : List Nat → List Nat → Bool
  | [], _ => true
  | _ :: _, [] => false
  | a :: as, b :: bs => decide (a < b) || (decide (a = b) && bytesLE as bs)

/-- Modelled from the spec: a JSON value. A number written without fraction
and exponent is `integer`, any other number is `real`. -/
inductive Json where
  | null
  | bool (b : Bool)
  | integer (n : Int)
  | real (q : Rat)
  | str (s : String)
  | array (items : List Json)
  | object (members : List (String × Json))

/-- Modelled from the spec: the wall clock reading of a `time.Time` in its
location; `zoneOffset` is the offset of the location in seconds east of UTC. -/
structure WallClock where
  year : Int
  month : Nat
  day : Nat
  hour : Nat
  minute : Nat
  second : Nat
  nanosecond : Nat
  zoneOffset : Int
deriving DecidableEq, Repr

/-- Modelled from the spec: a `time.Time`: the wall clock reading and, for a
value that comes from `time.Now()`, a reading of the monotonic clock. A
location is modelled by its offset. -/
structure GoTime where
  wall : WallClock
  monotonic : Option Int
deriving DecidableEq, Repr

/-- Modelled from the spec: the zero `time.Time`, January 1 of year 1, UTC. -/
def zeroTime : GoTime := ⟨⟨1, 1, 1, 0, 0, 0, 0, 0⟩, none⟩

/-- Modelled from the spec: what the codec takes from outside: the text
`Time.MarshalJSON` writes for a reading (`none` is its error), the reading
`Time.UnmarshalJSON` takes from a text (`none` is its error), and the case
folding under which `Unmarshal` matches a key that equals no tag. -/
structure Library where
  formatTime : WallClock → Option String
  parseTime : String → Option WallClock
  foldName : String → String

/-- Modelled from the spec: a struct tag `json:"key"` or
`json:"key,omitempty"`. -/
structure FieldTag where
  key : String
  omitEmpty : Bool
deriving DecidableEq, Repr

/-- Modelled from the spec: the object member a struct field contributes:
none when the field is tagged `omitempty` and its value is empty. -/
def member (tag : FieldTag) (empty : Bool) (value : Json) : List (String × Json) :=
  if tag.omitEmpty && empty then [] else [(tag.key, value)]

/-- Modelled from the spec: the index of the first of `keys` equal to `k`. -/
def position : List String → String → Option Nat
  | [], _ => none
  | x :: xs, k => if x = k then some 0 else (position xs k).map (fun i => i + 1)

/-- Modelled from the spec: the struct field an object key goes to
("preferring an exact match but also accepting a case-insensitive match");
`none` for a key that matches no field, which `Unmarshal` ignores. -/
def fieldIndex (lib : Library) (keys : List String) (k : String) : Option Nat :=
  match position keys k with
  | some i => some i
  | none => position (keys.map lib.foldName) (lib.foldName k)

/-- Modelled from the spec: `Unmarshal` of a JSON value into a struct whose
value is `zero`: the members of an object are stored one after the other,
`null` changes nothing, any other value is an error. -/
def unmarshalObject {α : Type} (store : α → String → Json → Option α) (zero : α) :
    Json → Option α
  | .object members => members.foldlM (fun acc m => store acc m.1 m.2) zero
  | .null => some zero
  | _ => none

/-- Modelled from the spec: one object member stored into a struct: the
member goes to the field its key matches, through the decoder of that field
(`fields` lists the decoders in the order of the keys); a key that matches no
field is ignored. -/
def storeField {α : Type} (lib : Library) (keys : List String)
    (fields : List (α → Json → Option α)) (acc : α) (k : String) (j : Json) : Option α :=
  match fieldIndex lib keys k with
  | none => some acc
  | some i =>
    match fields.get? i with
    | none => some acc
    | some field => field acc j

/-- Modelled from the spec: `Unmarshal` into a `string` field: `null`
changes nothing, a value that is not a string is an error. -/
def storeString (old : GoString) : Json → Option GoString
  | .null => some old
  | .str s => some (decodeString s)
  | _ => none

/-- Modelled from the spec: `Unmarshal` into a `bool` field. -/
def storeBool (old : Bool) : Json → Option Bool
  | .null => some old
  | .bool b => some b
  | _ => none

/-- Modelled from the spec: whether the integer is an `int64`. -/
def inInt64 (n : Int) : Bool :=
  decide (-9223372036854775808 ≤ n) && decide (n ≤ 9223372036854775807)

/-- Modelled from the spec: `Unmarshal` into an `int64` field: a number
that is no integer or overflows is an error. -/
def storeInt (old : Int) : Json → Option Int
  | .null => some old
  | .integer n => if inInt64 n then some n else none
  | _ => none

/-- Modelled from the spec: `Unmarshal` into a `time.Time` field
(`Time.UnmarshalJSON`): the reading of the text, without monotonic reading. -/
def storeTime (lib : Library) (old : GoTime) : Json → Option GoTime
  | .null => some old
  | .str s => (lib.parseTime s).map (fun w => ⟨w, none⟩)
  | _ => none

/-- Modelled from the spec: a Go `map[string]string`: its entries, each key
once; `none` is the nil map. A map has no order: the values of the theorems
list the entries in ascending order of the keys, which makes equal maps equal
lists. -/
abbrev GoStringMap := Option (List (GoString × GoString))

/-- Modelled from the spec: the map write `m[k] = v`. -/
def goMapSet (m : List (GoString × GoString)) (k v : GoString) : List (GoString × GoString) :=
  match m with
  | [] => [(k, v)]
  | (k1, v1) :: rest => if k1 = k then (k, v) :: rest else (k1, v1) :: goMapSet rest k v

/-- Modelled from the spec: whether the entries are those of a map in
ascending order of the keys: each key differs from the later ones and is
below them byte by byte. -/
def isGoMap : List (GoString × GoString) → Bool
  | [] => true
  | a :: rest =>
    rest.all (fun b => decide (a.1 ≠ b.1) && bytesLE (goBytes a.1) (goBytes b.1)) &&
      isGoMap rest

/-- Modelled from the spec: whether a map or slice is empty for `omitempty`
(nil or of length zero). -/
def isEmptyOrNil {α : Type} (l : Option (List α)) : Bool :=
  match l with
  | none => true
  | some entries => entries.isEmpty

/-- Modelled from the spec: the JSON `encoding/json` writes for a
`map[string]string`: `null` for the nil map, otherwise an object with the
keys sorted. -/
def encodeMap (m : GoStringMap) : Json :=
  match m with
  | none => .null
  | some entries =>
    .object ((entries.insertionSort (fun a b => bytesLE (goBytes a.1) (goBytes b.1) = true)).map
      (fun e => (encodeString e.1, Json.str (encodeString e.2))))

/-- Modelled from the spec: one member stored into a `map[string]string`. -/
def storeEntry (m : List (GoString × GoString)) (k : String) : Json →
    Option (List (GoString × GoString))
  | .null => some (goMapSet m (decodeString k) [])
  | .str s => some (goMapSet m (decodeString k) (decodeString s))
  | _ => none

/-- Modelled from the spec: `Unmarshal` into a `map[string]string` field:
`null` sets the nil map; an object keeps the entries of the map (a nil map is
replaced by a new one) and stores its members one after the other. -/
def storeMap (old : GoStringMap) : Json → Option GoStringMap
  | .null => some none
  | .object members =>
    (members.foldlM (fun m e => storeEntry m e.1 e.2) (old.getD [])).map some
  | _ => none

/-- Modelled from the spec: the JSON `encoding/json` writes for a
`[]string`. -/
def encodeStrings (l : Option (List GoString)) : Json :=
  match l with
  | none => .null
  | some items => .array (items.map (fun s => Json.str (encodeString s)))

/-- Modelled from the spec: one element read into a `[]string`. -/
def storeElement : Json → Option GoString
  | .null => some []
  | .str s => some (decodeString s)
  | _ => none

/-- Modelled from the spec: `Unmarshal` into a `[]string` field: `null`
sets the nil slice, an array replaces the elements. -/
def storeStrings (_old : Option (List GoString)) : Json → Option (Option (List GoString))
  | .null => some none
  | .array items => (items.mapM storeElement).map some
  | _ => none

/-- Modelled from the spec: whether the map is listed in ascending order of
its keys and its keys and values are valid UTF-8. -/
def validMap (m : GoStringMap) : Bool :=
  match m with
  | none => true
  | some entries => isGoMap entries && entries.all (fun e => validUTF8 e.1 && validUTF8 e.2)

/-- Modelled from the spec: whether the strings of the slice are valid
UTF-8. -/
def validStrings (l : Option (List GoString)) : Bool :=
  match l with
  | none => true
  | some items => items.all validUTF8

/-- Modelled from the spec: whether the field keeps an empty map or slice
that is not nil: a field tagged `omitempty` does not write it, and reads back
as nil. -/
def keepsEmpty {α : Type} (tag : FieldTag) (l : Option (List α)) : Bool :=
  match l with
  | some [] => !tag.omitEmpty
  | _ => true

/-! ### The package record -/

/-- Modelled from the spec: a value of the Go type `PackageInfo`, with the
fields the specification lists. -/
structure GoPackageInfo where
  Name : GoString
  Version : GoString
  Description : GoString
  Author : GoString
  InstallDate : GoTime
  InstallPath : GoString
  Global : Bool
  Dependencies : GoStringMap
  Size : Int
  Files : Option (List GoString)
  Scripts : GoStringMap
deriving DecidableEq, Repr

/-- Modelled from the spec: the tags of the fields of `PackageInfo`, which
are declared outside this repository. -/
structure PackageInfoTags where
  Name : FieldTag
  Version : FieldTag
  Description : FieldTag
  Author : FieldTag
  InstallDate : FieldTag
  InstallPath : FieldTag
  Global : FieldTag
  Dependencies : FieldTag
  Size : FieldTag
  Files : FieldTag
  Scripts : FieldTag

/-- Modelled from the spec: the keys of the fields, in the order of the
fields. -/
def PackageInfoTags.keys (tags : PackageInfoTags) : List String :=
  [tags.Name.key, tags.Version.key, tags.Description.key, tags.Author.key,
    tags.InstallDate.key, tags.InstallPath.key, tags.Global.key, tags.Dependencies.key,
    tags.Size.key, tags.Files.key, tags.Scripts.key]

/-- Modelled from the spec: the zero value of `PackageInfo`. -/
def zeroPackageInfo : GoPackageInfo :=
  { Name := [], Version := [], Description := [], Author := [], InstallDate := zeroTime
    InstallPath := [], Global := false, Dependencies := none, Size := 0, Files := none
    Scripts := none }

/-- Modelled from the spec: the JSON value of the text
`json.MarshalIndent(info, "", "  ")` writes in `savePackageInfo`; `none` is
its error. -/
def marshalPackageInfo (lib : Library) (tags : PackageInfoTags) (v : GoPackageInfo) :
    Option Json :=
  match lib.formatTime v.InstallDate.wall with
  | none => none
  | some stamp =>
    some (.object
      (member tags.Name v.Name.isEmpty (.str (encodeString v.Name)) ++
        (member tags.Version v.Version.isEmpty (.str (encodeString v.Version)) ++
        (member tags.Description v.Description.isEmpty (.str (encodeString v.Description)) ++
        (member tags.Author v.Author.isEmpty (.str (encodeString v.Author)) ++
        (member tags.InstallDate false (.str stamp) ++
        (member tags.InstallPath v.InstallPath.isEmpty (.str (encodeString v.InstallPath)) ++
        (member tags.Global (!v.Global) (.bool v.Global) ++
        (member tags.Dependencies (isEmptyOrNil v.Dependencies) (encodeMap v.Dependencies) ++
        (member tags.Size (decide (v.Size = 0)) (.integer v.Size) ++
        (member tags.Files (isEmptyOrNil v.Files) (encodeStrings v.Files) ++
        member tags.Scripts (isEmptyOrNil v.Scripts) (encodeMap v.Scripts))))))))))))

/-- Modelled from the spec: the decoders of the fields of `PackageInfo`, in
the order of the fields. -/
def packageInfoFields (lib : Library) :
    List (GoPackageInfo → Json → Option GoPackageInfo) :=
  [fun acc j => (storeString acc.Name j).map (fun x => { acc with Name := x }),
    fun acc j => (storeString acc.Version j).map (fun x => { acc with Version := x }),
    fun acc j => (storeString acc.Description j).map (fun x => { acc with Description := x }),
    fun acc j => (storeString acc.Author j).map (fun x => { acc with Author := x }),
    fun acc j => (storeTime lib acc.InstallDate j).map (fun x => { acc with InstallDate := x }),
    fun acc j => (storeString acc.InstallPath j).map (fun x => { acc with InstallPath := x }),
    fun acc j => (storeBool acc.Global j).map (fun x => { acc with Global := x }),
    fun acc j => (storeMap acc.Dependencies j).map (fun x => { acc with Dependencies := x }),
    fun acc j => (storeInt acc.Size j).map (fun x => { acc with Size := x }),
    fun acc j => (storeStrings acc.Files j).map (fun x => { acc with Files := x }),
    fun acc j => (storeMap acc.Scripts j).map (fun x => { acc with Scripts := x })]

/-- Modelled from the spec: one object member stored into a `PackageInfo`. -/
def storePackageInfo (lib : Library) (tags : PackageInfoTags) (acc : GoPackageInfo)
    (k : String) (j : Json) : Option GoPackageInfo :=
  storeField lib tags.keys (packageInfoFields lib) acc k j

/-- Modelled from the spec: the value `json.Unmarshal(data, &info)` leaves
in the zero `info` of `loadPackagesFromDir`; `none` is its error. -/
def unmarshalPackageInfo (lib : Library) (tags : PackageInfoTags) (j : Json) :
    Option GoPackageInfo :=
  unmarshalObject (storePackageInfo lib tags) zeroPackageInfo j

/-! ### The wire types -/

/-- Modelled from the spec: a value of the Go type `interface{}` in the
field `Data`: the nil interface, a value `Marshal` writes as the given JSON
value, or a value `Marshal` rejects (a channel, a function, a complex number,
a NaN). -/
inductive GoData where
  | nil
  | value (j : Json)
  | unsupported

/-- Modelled from the spec: whether `Marshal` accepts the value. -/
def GoData.isSupported : GoData → Bool
  | .unsupported => false
  | _ => true

/-- Modelled from the spec: a value of the wire type `ApiResponse`. -/
structure GoApiResponse where
  Success : Bool
  Message : GoString
  Data : GoData
  Error : GoString

/-- Modelled from the spec: the tags of `ApiResponse` that
`TestApiSchemaCompatibility` fixes. -/
def apiResponseKeys : List String := ["success", "message", "data", "error"]

/-- Modelled from the spec: the zero value of `ApiResponse`. -/
def zeroApiResponse : GoApiResponse :=
  { Success := false, Message := [], Data := .nil, Error := [] }

/-- Modelled from the spec: the member of the field `Data`, tagged
`data,omitempty`; `none` is the error of `Marshal`. -/
def encodeData : GoData → Option (List (String × Json))
  | .nil => some []
  | .value j => some [("data", j)]
  | .unsupported => none

/-- Modelled from the spec: `json.Marshal` of an `ApiResponse`; `none` is
its error. -/
def marshalApiResponse (v : GoApiResponse) : Option Json :=
  match encodeData v.Data with
  | none => none
  | some data =>
    some (.object
      (member ⟨"success", false⟩ (!v.Success) (.bool v.Success) ++
        (member ⟨"message", true⟩ v.Message.isEmpty (.str (encodeString v.Message)) ++
        (data ++
        member ⟨"error", true⟩ v.Error.isEmpty (.str (encodeString v.Error))))))

/-- Modelled from the spec: `Unmarshal` into an `interface{}` field: `null`
sets the nil interface, any other value is stored as it is. -/
def storeData : Json → GoData
  | .null => .nil
  | j => .value j

/-- Modelled from the spec: the decoders of the fields of `ApiResponse`, in
the order of the fields. -/
def apiResponseFields : List (GoApiResponse → Json → Option GoApiResponse) :=
  [fun acc j => (storeBool acc.Success j).map (fun x => { acc with Success := x }),
    fun acc j => (storeString acc.Message j).map (fun x => { acc with Message := x }),
    fun acc j => some { acc with Data := storeData j },
    fun acc j => (storeString acc.Error j).map (fun x => { acc with Error := x })]

/-- Modelled from the spec: one object member stored into an `ApiResponse`. -/
def storeApiResponse (lib : Library) (acc : GoApiResponse) (k : String) (j : Json) :
    Option GoApiResponse :=
  storeField lib apiResponseKeys apiResponseFields acc k j

/-- Modelled from the spec: `json.Unmarshal` into a zero `ApiResponse`. -/
def unmarshalApiResponse (lib : Library) (j : Json) : Option GoApiResponse :=
  unmarshalObject (storeApiResponse lib) zeroApiResponse j

/-- Modelled from the spec: a value of the wire type `FileEntry`. -/
structure GoFileEntry where
  OS : GoString
  Arch : GoString
  Format : GoString
  Filename : GoString
  Size : Int
  Checksum : GoString
deriving DecidableEq, Repr

/-- Modelled from the spec: the tags of `FileEntry` that
`TestApiSchemaCompatibility` fixes. -/
def fileEntryKeys : List String := ["os", "arch", "format", "filename", "size", "checksum"]

/-- Modelled from the spec: the zero value of `FileEntry`. -/
def zeroFileEntry : GoFileEntry :=
  { OS := [], Arch := [], Format := [], Filename := [], Size := 0, Checksum := [] }

/-- Modelled from the spec: `json.Marshal` of a `FileEntry`, which has no
error. -/
def marshalFileEntry (v : GoFileEntry) : Json :=
  .object
    [("os", .str (encodeString v.OS)), ("arch", .str (encodeString v.Arch)),
      ("format", .str (encodeString v.Format)), ("filename", .str (encodeString v.Filename)),
      ("size", .integer v.Size), ("checksum", .str (encodeString v.Checksum))]

/-- Modelled from the spec: the decoders of the fields of `FileEntry`, in
the order of the fields. -/
def fileEntryFields : List (GoFileEntry → Json → Option GoFileEntry) :=
  [fun acc j => (storeString acc.OS j).map (fun x => { acc with OS := x }),
    fun acc j => (storeString acc.Arch j).map (fun x => { acc with Arch := x }),
    fun acc j => (storeString acc.Format j).map (fun x => { acc with Format := x }),
    fun acc j => (storeString acc.Filename j).map (fun x => { acc with Filename := x }),
    fun acc j => (storeInt acc.Size j).map (fun x => { acc with Size := x }),
    fun acc j => (storeString acc.Checksum j).map (fun x => { acc with Checksum := x })]

/-- Modelled from the spec: one object member stored into a `FileEntry`. -/
def storeFileEntry (lib : Library) (acc : GoFileEntry) (k : String) (j : Json) :
    Option GoFileEntry :=
  storeField lib fileEntryKeys fileEntryFields acc k j

/-- Modelled from the spec: `json.Unmarshal` into a zero `FileEntry`. -/
def unmarshalFileEntry (lib : Library) (j : Json) : Option GoFileEntry :=
  unmarshalObject (storeFileEntry lib) zeroFileEntry j

/-- Modelled from the spec: a value of the wire type `VersionEntry`, with
the fields of the literal in `TestVersionEntryStructure`. -/
structure GoVersionEntry where
  Version : GoString
  Description : GoString
  Dependencies : GoStringMap
  DevDeps : GoStringMap
  Files : Option (List GoFileEntry)
  Size : Int
  Checksum : GoString
  Uploaded : GoTime
  Downloads : Int
deriving DecidableEq, Repr

/-- Modelled from the spec: the tags of the fields of `VersionEntry` that
`TestApiSchemaCompatibility` does not list. -/
structure VersionEntryTags where
  Description : FieldTag
  Files : FieldTag
  Uploaded : FieldTag

/-- Modelled from the spec: the keys of the fields of `VersionEntry`, in the
order of the fields: those the schema test fixes, and the three it leaves
open. -/
def VersionEntryTags.keys (tags : VersionEntryTags) : List String :=
  ["version", tags.Description.key, "dependencies", "devDependencies", tags.Files.key, "size",
    "checksum", tags.Uploaded.key, "downloads"]

/-- Modelled from the spec: the zero value of `VersionEntry`. -/
def zeroVersionEntry : GoVersionEntry :=
  { Version := [], Description := [], Dependencies := none, DevDeps := none, Files := none
    Size := 0, Checksum := [], Uploaded := zeroTime, Downloads := 0 }

/-- Modelled from the spec: the JSON `encoding/json` writes for a
`[]FileEntry`. -/
def encodeFiles (l : Option (List GoFileEntry)) : Json :=
  match l with
  | none => .null
  | some items => .array (items.map marshalFileEntry)

/-- Modelled from the spec: `Unmarshal` into a `[]FileEntry` field: `null`
sets the nil slice, an array replaces the elements, each read into a zero
`FileEntry`. -/
def storeFiles (lib : Library) (_old : Option (List GoFileEntry)) :
    Json → Option (Option (List GoFileEntry))
  | .null => some none
  | .array items => (items.mapM (unmarshalFileEntry lib)).map some
  | _ => none

/-- Modelled from the spec: `json.Marshal` of a `VersionEntry`; `none` is
its error. -/
def marshalVersionEntry (lib : Library) (tags : VersionEntryTags) (v : GoVersionEntry) :
    Option Json :=
  match lib.formatTime v.Uploaded.wall with
  | none => none
  | some stamp =>
    some (.object
      (member ⟨"version", false⟩ v.Version.isEmpty (.str (encodeString v.Version)) ++
        (member tags.Description v.Description.isEmpty (.str (encodeString v.Description)) ++
        (member ⟨"dependencies", true⟩ (isEmptyOrNil v.Dependencies)
          (encodeMap v.Dependencies) ++
        (member ⟨"devDependencies", true⟩ (isEmptyOrNil v.DevDeps) (encodeMap v.DevDeps) ++
        (member tags.Files (isEmptyOrNil v.Files) (encodeFiles v.Files) ++
        (member ⟨"size", false⟩ (decide (v.Size = 0)) (.integer v.Size) ++
        (member ⟨"checksum", false⟩ v.Checksum.isEmpty (.str (encodeString v.Checksum)) ++
        (member tags.Uploaded false (.str stamp) ++
        member ⟨"downloads", false⟩ (decide (v.Downloads = 0))
          (.integer v.Downloads))))))))))

/-- Modelled from the spec: the decoders of the fields of `VersionEntry`, in
the order of the fields. -/
def versionEntryFields (lib : Library) :
    List (GoVersionEntry → Json → Option GoVersionEntry) :=
  [fun acc j => (storeString acc.Version j).map (fun x => { acc with Version := x }),
    fun acc j => (storeString acc.Description j).map (fun x => { acc with Description := x }),
    fun acc j => (storeMap acc.Dependencies j).map (fun x => { acc with Dependencies := x }),
    fun acc j => (storeMap acc.DevDeps j).map (fun x => { acc with DevDeps := x }),
    fun acc j => (storeFiles lib acc.Files j).map (fun x => { acc with Files := x }),
    fun acc j => (storeInt acc.Size j).map (fun x => { acc with Size := x }),
    fun acc j => (storeString acc.Checksum j).map (fun x => { acc with Checksum := x }),
    fun acc j => (storeTime lib acc.Uploaded j).map (fun x => { acc with Uploaded := x }),
    fun acc j => (storeInt acc.Downloads j).map (fun x => { acc with Downloads := x })]

/-- Modelled from the spec: one object member stored into a `VersionEntry`. -/
def storeVersionEntry (lib : Library) (tags : VersionEntryTags) (acc : GoVersionEntry)
    (k : String) (j : Json) : Option GoVersionEntry :=
  storeField lib tags.keys (versionEntryFields lib) acc k j

/-- Modelled from the spec: `json.Unmarshal` into a zero `VersionEntry`. -/
def unmarshalVersionEntry (lib : Library) (tags : VersionEntryTags) (j : Json) :
    Option GoVersionEntry :=
  unmarshalObject (storeVersionEntry lib tags) zeroVersionEntry j

/-! ### A sample library and sample values for the codec -/

/-- Modelled from the spec: the decimal digit of the units of `d`. -/
def digitChar (d : Nat) : Char := Char.ofNat (48 + d % 10)

/-- Modelled from the spec: `n` in two decimal digits. -/
def twoDigits (n : Nat) : String := String.mk [digitChar (n / 10), digitChar n]

/-- Modelled from the spec: `n` in four decimal digits. -/
def fourDigits (n : Nat) : String :=
  String.mk [digitChar (n / 1000), digitChar (n / 100), digitChar (n / 10), digitChar n]

/-- Modelled from the spec: the fraction of a second of RFC 3339 with
nanoseconds: nothing for zero, otherwise a point and the nine digits without
the trailing zeros. -/
def fractionText (nanos : Nat) : String :=
  if nanos = 0 then ""
  else
    "." ++ String.mk
      (([digitChar (nanos / 100000000), digitChar (nanos / 10000000),
          digitChar (nanos / 1000000), digitChar (nanos / 100000), digitChar (nanos / 10000),
          digitChar (nanos / 1000), digitChar (nanos / 100), digitChar (nanos / 10),
          digitChar nanos].reverse.dropWhile (fun c => decide (c = digitChar 0))).reverse)

/-- Modelled from the spec: the zone of RFC 3339: `Z` for the offset zero,
otherwise sign, hours and minutes; the seconds of the offset are not written;
`none` when the hours are not below 24. -/
def zoneText (offset : Int) : Option String :=
  if offset = 0 then some "Z"
  else if offset.natAbs / 60 / 60 ≥ 24 then none
  else
    some ((if offset < 0 then "-" else "+") ++ twoDigits (offset.natAbs / 60 / 60) ++ ":" ++
      twoDigits (offset.natAbs / 60 % 60))

/-- Modelled from the spec: the text `Time.MarshalJSON` writes: RFC 3339
with nanoseconds; a year outside 0 to 9999 is an error. -/
def formatRFC3339 (w : WallClock) : Option String :=
  if w.year < 0 ∨ w.year > 9999 then none
  else
    match zoneText w.zoneOffset with
    | none => none
    | some zone =>
      some (fourDigits w.year.toNat ++ "-" ++ twoDigits w.month ++ "-" ++ twoDigits w.day ++
        "T" ++ twoDigits w.hour ++ ":" ++ twoDigits w.minute ++ ":" ++ twoDigits w.second ++
        fractionText w.nanosecond ++ zone)

/-- Modelled from the spec: the number a sequence of decimal digits
denotes, read after the digits `acc`. -/
def readDigits (acc : Nat) : List Char → Option Nat
  | [] => some acc
  | c :: rest =>
    if 48 ≤ c.toNat ∧ c.toNat ≤ 57 then readDigits (acc * 10 + (c.toNat - 48)) rest else none

/-- Modelled from the spec: the days of a month. -/
def daysIn (year month : Nat) : Nat :=
  if month = 2 then
    (if year % 4 = 0 ∧ (year % 100 ≠ 0 ∨ year % 400 = 0) then 29 else 28)
  else if month = 4 ∨ month = 6 ∨ month = 9 ∨ month = 11 then 30
  else 31

/-- Modelled from the spec: the zone offset in seconds that the end of an
RFC 3339 text denotes. -/
def readZone : List Char → Option Int
  | [z] => if String.mk [z] = "Z" then some 0 else none
  | [sign, h1, h2, colon, m1, m2] =>
    match readDigits 0 [h1, h2], readDigits 0 [m1, m2] with
    | some hours, some minutes =>
      if String.mk [colon] = ":" ∧ hours < 24 ∧ minutes < 60 then
        if String.mk [sign] = "+" then some (((hours * 60 + minutes) * 60 : Nat) : Int)
        else if String.mk [sign] = "-" then some (-(((hours * 60 + minutes) * 60 : Nat) : Int))
        else none
      else none
    | _, _ => none
  | _ => none

/-- Modelled from the spec: the fraction of a second and the zone that
follow the seconds of an RFC 3339 text. -/
def readFractionAndZone (rest : List Char) : Option (Nat × Int) :=
  match rest with
  | [] => none
  | c :: more =>
    if String.mk [c] = "." then
      match readDigits 0
        (((more.takeWhile (fun d => decide (48 ≤ d.toNat ∧ d.toNat ≤ 57))) ++
          "000000000".data).take 9) with
      | some nanos =>
        if (more.takeWhile (fun d => decide (48 ≤ d.toNat ∧ d.toNat ≤ 57))) = [] then none
        else
          (readZone (more.dropWhile (fun d => decide (48 ≤ d.toNat ∧ d.toNat ≤ 57)))).map
            (fun zone => (nanos, zone))
      | none => none
    else (readZone rest).map (fun zone => (0, zone))

/-- Modelled from the spec: the reading `Time.UnmarshalJSON` takes from an
RFC 3339 text; `none` is its error. -/
def parseRFC3339 (s : String) : Option WallClock :=
  match s.data with
  | y1 :: y2 :: y3 :: y4 :: d1 :: m1 :: m2 :: d2 :: a1 :: a2 :: t :: h1 :: h2 :: c1 :: i1 ::
      i2 :: c2 :: s1 :: s2 :: rest =>
    if String.mk [d1, d2, t, c1, c2] = "--T::" then
      match readDigits 0 [y1, y2, y3, y4], readDigits 0 [m1, m2], readDigits 0 [a1, a2],
        readDigits 0 [h1, h2], readDigits 0 [i1, i2], readDigits 0 [s1, s2],
        readFractionAndZone rest with
      | some year, some month, some day, some hour, some minute, some second,
          some (nanos, zone) =>
        if 1 ≤ month ∧ month ≤ 12 ∧ 1 ≤ day ∧ day ≤ daysIn year month ∧ hour < 24 ∧
            minute < 60 ∧ second < 60 then
          some ⟨year, month, day, hour, minute, second, nanos, zone⟩
        else none
      | _, _, _, _, _, _, _ => none
    else none
  | _ => none

/-- Modelled from the spec: a library for the samples: RFC 3339 texts, and
the folding of the ASCII letters. -/
def sampleLibrary : Library :=
  { formatTime := formatRFC3339
    parseTime := parseRFC3339
    foldName := fun s => String.mk (s.data.map Char.toLower) }

/-- Modelled from the spec: tags for the samples: one key per field of the
specification's list, the author and the script map with `omitempty`. -/
def sampleTags : PackageInfoTags :=
  { Name := ⟨"name", false⟩, Version := ⟨"version", false⟩
    Description := ⟨"description", false⟩, Author := ⟨"author", true⟩
    InstallDate := ⟨"install_date", false⟩, InstallPath := ⟨"install_path", false⟩
    Global := ⟨"global", false⟩, Dependencies := ⟨"dependencies", false⟩
    Size := ⟨"size", false⟩, Files := ⟨"files", false⟩, Scripts := ⟨"scripts", true⟩ }

/-- Modelled from the spec: a valid Go string. -/
def goString (s : String) : GoString := s.data.map GoRune.rune

/-- Modelled from the spec: a wall clock reading for the samples:
2023-11-14 22:13:20.5 UTC. -/
def sampleWallClock : WallClock := ⟨2023, 11, 14, 22, 13, 20, 500000000, 0⟩

/-- Modelled from the spec: a package record whose strings are valid UTF-8
and whose timestamp has no monotonic reading. -/
def sampleGoInfo : GoPackageInfo :=
  { Name := goString "foo", Version := goString "1.0.0", Description := goString "a <tool>"
    Author := [], InstallDate := ⟨sampleWallClock, none⟩
    InstallPath := goString "criage_modules/foo", Global := false
    Dependencies := some [(goString "bar", goString "^1.0.0"), (goString "lib", goString "*")]
    Size := 2048, Files := some [goString "bin/foo"], Scripts := none }

/-- Modelled from the spec: the tags for the samples of the fields of
`VersionEntry` the schema test leaves open. -/
def sampleVersionTags : VersionEntryTags :=
  { Description := ⟨"description", false⟩, Files := ⟨"files", false⟩
    Uploaded := ⟨"uploaded", false⟩ }

/-- Modelled from the spec: the file entry of `TestFileEntryStructure`. -/
def sampleGoFile : GoFileEntry :=
  { OS := goString "linux", Arch := goString "amd64", Format := goString "tar.zst"
    Filename := goString "test-package-1.0.0-linux-amd64.tar.zst", Size := 2048
    Checksum := goString "sha256:efgh5678" }

/-- Modelled from the spec: the version entry of
`TestVersionEntryStructure`, with a file entry. -/
def sampleGoVersion : GoVersionEntry :=
  { Version := goString "1.0.0", Description := goString "Initial version"
    Dependencies := some [(goString "dep1", goString "^1.0.0")]
    DevDeps := some [(goString "devdep1", goString "^2.0.0")]
    Files := some [sampleGoFile], Size := 1024, Checksum := goString "sha256:abcd1234"
    Uploaded := ⟨sampleWallClock, some 7⟩, Downloads := 50 }

/-- Modelled from the spec: the response of `TestApiResponseStructure`. -/
def sampleGoResponse : GoApiResponse :=
  { Success := true, Message := goString "Test message"
    Data := .value (.object [("test", .str "data")]), Error := goString "Test error" }

/-- Modelled from the spec: the sample record as `InstallPackage` builds it:
the timestamp comes from `time.Now()` and carries a monotonic clock reading. -/
def sampleGoInfoNow : GoPackageInfo :=
  { sampleGoInfo with InstallDate := ⟨sampleWallClock, some 1000⟩ }

/-- Modelled from the spec: the sample record with a description that holds
the byte 0xff, which is part of no valid UTF-8 encoding. -/
def sampleGoInfoBytes : GoPackageInfo :=
  { sampleGoInfo with Description := [GoRune.rune (Char.ofNat 97), GoRune.invalid 255] }

/-- Modelled from the spec: the sample record with a timestamp in the year
10000. -/
def sampleGoInfoLate : GoPackageInfo :=
  { sampleGoInfo with InstallDate := ⟨{ sampleWallClock with year := 10000 }, none⟩ }

/-- Modelled from the spec: the sample record with an empty script map that
is not nil. -/
def sampleGoInfoEmpty : GoPackageInfo :=
  { sampleGoInfo with Scripts := some [] }

/-- Modelled from the spec: the projection of what is read back from the
JSON of a response to its compared fields. -/
def comparedOfResponse (r : Option GoApiResponse) : Option (Bool × GoString × GoString) :=
  r.map (fun x => (x.Success, x.Message, x.Error))

/-! ## Theorems -/

/-! ### Registry lookup -/

theorem stableSort_contract {α : Type} (less : α → α → Bool) (l : List α) :
    (stableSort less l).Perm l ∧
    ((∀ a b c, less a b = false → less b c = false → less a c = false) →
      (∀ a b, less a b = true → less b a = false) →
      List.Pairwise (fun a b => less b a = false) (stableSort less l)) := by
  refine ⟨List.perm_insertionSort _ l, fun htrans hasym => ?_⟩
  have htotal : IsTotal α (fun a b => less b a = false) := by
    refine ⟨fun a b => ?_⟩
    cases hba : less b a
    · exact Or.inl rfl
    · exact Or.inr (hasym b a hba)
  have htr : IsTrans α (fun a b => less b a = false) :=
    ⟨fun a b c hab hbc => htrans c b a hbc hab⟩
  exact @List.sorted_insertionSort α (fun a b => less b a = false) _ htotal htr l

theorem sampleWorld_sortContract : SortContract sampleWorld :=
  fun _ less l => stableSort_contract less l

theorem sampleWorld_rangeContract : RangeContract sampleWorld :=
  fun _ l => List.Perm.refl l

theorem state_trace_nil (s : State) : ({ s with trace := s.trace ++ [] } : State) = s := by
  cases s; simp

theorem findPackageLoop_spec (w : World) (name version arch osName : String) :
    ∀ (l : List Repository) (s : State),
      ∃ tried skipped : List Repository,
        tried ++ skipped = l.filter (fun r => r.Enabled) ∧
        (findPackageLoop w name version arch osName l s).2 =
          { s with trace := s.trace ++ tried.flatMap (fun r => lookupRequests w r name) } ∧
        ((∃ failed r found, tried = failed ++ [r] ∧
            (∀ x ∈ failed, ∀ y, lookupResult w x name version arch osName ≠ .ok y) ∧
            lookupResult w r name version arch osName = .ok found ∧
            (findPackageLoop w name version arch osName l s).1 = .ok found) ∨
         (skipped = [] ∧
            (∀ x ∈ tried, ∀ y, lookupResult w x name version arch osName ≠ .ok y) ∧
            (findPackageLoop w name version arch osName l s).1 =
              .error (.packageNotFound name))) := by
  intro l
  induction l with
  | nil =>
    intro s
    refine ⟨[], [], rfl, ?_, Or.inr ⟨rfl, ?_, rfl⟩⟩
    · simp [findPackageLoop]
    · intro x hx; cases hx
  | cons repo rest ih =>
    intro s
    cases hen : repo.Enabled with
    | false =>
      obtain ⟨tried, skipped, hsplit, hstate, hcase⟩ := ih s
      refine ⟨tried, skipped, ?_, ?_, ?_⟩
      · simp [hen, hsplit]
      · simpa [findPackageLoop, hen] using hstate
      · simpa [findPackageLoop, hen] using hcase
    | true =>
      cases hres : lookupResult w repo name version arch osName with
      | ok found =>
        refine ⟨[repo], rest.filter (fun r => r.Enabled), ?_, ?_, Or.inl ⟨[], repo, found, rfl, ?_, hres, ?_⟩⟩
        · simp [hen]
        · simp [findPackageLoop, hen, findInRepository, hres]
        · intro x hx; cases hx
        · simp [findPackageLoop, hen, findInRepository, hres]
      | error e =>
        obtain ⟨tried, skipped, hsplit, hstate, hcase⟩ :=
          ih { s with trace := s.trace ++ lookupRequests w repo name }
        have hfail : ∀ y, lookupResult w repo name version arch osName ≠ .ok y := by
          intro y hy; rw [hres] at hy; cases hy
        refine ⟨repo :: tried, skipped, ?_, ?_, ?_⟩
        · simp [hen, hsplit]
        · simp only [findPackageLoop, hen, findInRepository, hres]
          simpa [List.append_assoc] using hstate
        · simp only [findPackageLoop, hen, findInRepository, hres]
          rcases hcase with ⟨failed, r, found, htried, hfailed, hr, hresult⟩ | ⟨hskip, hall, hresult⟩
          · refine Or.inl ⟨repo :: failed, r, found, by simp [htried], ?_, hr, by simpa using hresult⟩
            intro x hx
            rcases List.mem_cons.mp hx with rfl | hx
            · exact hfail
            · exact hfailed x hx
          · refine Or.inr ⟨hskip, ?_, by simpa using hresult⟩
            intro x hx
            rcases List.mem_cons.mp hx with rfl | hx
            · exact hfail
            · exact hall x hx

/-- C3: `findPackage` splits the enabled repositories, taken in descending
priority order, into those it queries (`tried`) and those it never queries
(`skipped`); no disabled repository is queried; the requests that leave are,
in this order, those of the queried repositories, none for a repository whose
request cannot be built (its lookup fails without a request); either the last
queried repository is the first whose lookup succeeds and its result is
returned, or every enabled repository was queried and failed and the error is
package-not-found; the call fails iff no enabled repository succeeds. -/
theorem findPackage_priority_order (w : World) (hsort : SortContract w)
    (name version arch osName : String) (s : State) :
    ∃ tried skipped : List Repository,
      (tried ++ skipped).Perm (w.GetRepositories.filter (fun r => r.Enabled)) ∧
      List.Pairwise (fun a b : Repository => a.Priority ≥ b.Priority) (tried ++ skipped) ∧
      (findPackage w name version arch osName s).2 =
        { s with trace := s.trace ++ tried.flatMap (fun r => lookupRequests w r name) } ∧
      ((∃ failed r found, tried = failed ++ [r] ∧
          (∀ x ∈ failed, ∀ y, lookupResult w x name version arch osName ≠ .ok y) ∧
          lookupResult w r name version arch osName = .ok found ∧
          (findPackage w name version arch osName s).1 = .ok found) ∨
       (skipped = [] ∧
          (∀ x ∈ tried, ∀ y, lookupResult w x name version arch osName ≠ .ok y) ∧
          (findPackage w name version arch osName s).1 = .error (.packageNotFound name))) ∧
      ((∃ e, (findPackage w name version arch osName s).1 = .error e) ↔
        ∀ r ∈ w.GetRepositories, r.Enabled = true →
          ∀ y, lookupResult w r name version arch osName ≠ .ok y) ∧
      (∀ e, (findPackage w name version arch osName s).1 = .error e →
        e = .packageNotFound name) := by
  obtain ⟨hperm, hsorted⟩ := hsort Repository priorityLess w.GetRepositories
  have hdesc : List.Pairwise (fun a b : Repository => a.Priority ≥ b.Priority)
      (w.sortSlice priorityLess w.GetRepositories) := by
    have h := hsorted
      (by intro a b c hab hbc
          simp only [priorityLess, decide_eq_false_iff_not, not_lt] at *
          omega)
      (by intro a b hab
          simp only [priorityLess, decide_eq_true_eq, decide_eq_false_iff_not, not_lt] at *
          omega)
    refine h.imp ?_
    intro a b hab
    simp only [priorityLess, decide_eq_false_iff_not, not_lt] at hab
    exact hab
  obtain ⟨tried, skipped, hsplit, hstate, hcase⟩ :=
    findPackageLoop_spec w name version arch osName
      (w.sortSlice priorityLess w.GetRepositories) s
  have hpermE : (tried ++ skipped).Perm (w.GetRepositories.filter (fun r => r.Enabled)) := by
    rw [hsplit]; exact hperm.filter _
  have hmem : ∀ r, r ∈ tried ++ skipped ↔ (r ∈ w.GetRepositories ∧ r.Enabled = true) := by
    intro r
    rw [hpermE.mem_iff, List.mem_filter]
  refine ⟨tried, skipped, hpermE, ?_, hstate, hcase, ?_, ?_⟩
  · rw [hsplit]; exact hdesc.sublist (List.filter_sublist _)
  · constructor
    · rintro ⟨e, he⟩ r hr hen
      rcases hcase with ⟨failed, r1, found, _, _, _, hresult⟩ | ⟨hskip, hall, _⟩
      · have h1 : (findPackage w name version arch osName s).1 = .ok found := hresult
        rw [h1] at he; cases he
      · apply hall
        have : r ∈ tried ++ skipped := (hmem r).2 ⟨hr, hen⟩
        simpa [hskip] using this
    · intro hall
      rcases hcase with ⟨failed, r1, found, htried, _, hr1, _⟩ | ⟨_, _, hresult⟩
      · exfalso
        have hin : r1 ∈ tried ++ skipped := by simp [htried]
        obtain ⟨h1, h2⟩ := (hmem r1).1 hin
        exact hall r1 h1 h2 found hr1
      · exact ⟨_, hresult⟩
  · intro e he
    rcases hcase with ⟨failed, r1, found, _, _, _, hresult⟩ | ⟨_, _, hresult⟩
    · have h1 : (findPackage w name version arch osName s).1 = .ok found := hresult
      rw [h1] at he; cases he
    · have h1 : (findPackage w name version arch osName s).1 =
          .error (.packageNotFound name) := hresult
      rw [h1] at he; cases he; rfl

/-- A package name with a line feed makes a lookup URL that `http.NewRequest`
rejects: `findPackage` sends no request, to any repository, where the lookup
of the name `ab` sends three. -/
theorem findPackage_sends_nothing_for_unbuildable_request :
    (findPackage sampleWorld (String.mk [Char.ofNat 97, Char.ofNat 10, Char.ofNat 98]) ""
        "amd64" "linux" emptyState).2.trace = [] ∧
      (findPackage sampleWorld "ab" "" "amd64" "linux" emptyState).2.trace.length = 3 := by
  decide

/-- C3, on the sample registries with priorities 10, 50 and 30 of which
only the last holds `foo`: the contract of the sort holds, the requests go to
the registry with priority 50 and then to the one with priority 30, and the
result comes from the latter. -/
theorem findPackage_priority_order_witness :
    (∃ tried skipped : List Repository,
      (tried ++ skipped).Perm (sampleWorld.GetRepositories.filter (fun r => r.Enabled)) ∧
      List.Pairwise (fun a b : Repository => a.Priority ≥ b.Priority) (tried ++ skipped) ∧
      (findPackage sampleWorld "foo" "" "amd64" "linux" emptyState).2 =
        { emptyState with
          trace := emptyState.trace ++ tried.flatMap (fun r => lookupRequests sampleWorld r "foo") }) ∧
    (findPackage sampleWorld "foo" "" "amd64" "linux" emptyState).2.trace =
      [lookupRequest sampleRepoHigh "foo", lookupRequest sampleRepoMid "foo"] ∧
    (findPackage sampleWorld "foo" "" "amd64" "linux" emptyState).1 =
      lookupResult sampleWorld sampleRepoMid "foo" "" "amd64" "linux" := by
  refine ⟨?_, by decide, by rfl⟩
  obtain ⟨tried, skipped, h1, h2, h3, _⟩ :=
    findPackage_priority_order sampleWorld sampleWorld_sortContract "foo" "" "amd64" "linux"
      emptyState
  exact ⟨tried, skipped, h1, h2, h3⟩

theorem resolveFile_ne_versionNotFound (repo : Repository) (entry : PackageEntry)
    (v : VersionEntry) (arch osName version : String) :
    resolveFile repo entry v arch osName ≠ .error (.versionNotFound version) := by
  unfold resolveFile
  split <;> simp

theorem resolveFile_version (repo : Repository) (entry : PackageEntry)
    (v : VersionEntry) (arch osName : String) (info : PackageInfo) (url : String)
    (h : resolveFile repo entry v arch osName = .ok (info, url)) :
    info.Version = v.Version := by
  unfold resolveFile at h
  split at h
  · cases h
  · simp only [Except.ok.injEq, Prod.mk.injEq] at h
    rw [← h.1]

theorem findInRepository_decoded (w : World) (repo : Repository)
    (name version arch osName : String) (s : State) (body : Body) (apiResp : ApiResponse)
    (entry : PackageEntry)
    (hresp : w.httpDo "GET" (lookupURL repo name) (bearer repo.AuthToken) = .response 200 body)
    (henv : body.envelope = some apiResp) (hok : apiResp.Success = true)
    (hdata : apiResp.Data = .object (some entry)) :
    (findInRepository w repo name version arch osName s).1 =
      resolveEntry repo entry version arch osName := by
  simp [findInRepository, lookupResult, decodeLookup, hresp, henv, hok, hdata]

theorem getLast?_append_singleton {α : Type} (pre : List α) (v : α) :
    (pre ++ [v]).getLast? = some v := by
  simp

theorem find?_first_match {α : Type} (p : α → Bool) (pre post : List α) (v : α)
    (hv : p v = true) (hpre : ∀ u ∈ pre, p u = false) :
    (pre ++ v :: post).find? p = some v := by
  induction pre with
  | nil => simp [hv]
  | cons a rest ih =>
    have ha : p a = false := hpre a (List.mem_cons_self a rest)
    simp only [List.cons_append, List.find?_cons, ha]
    exact ih (fun u hu => hpre u (List.mem_cons_of_mem a hu))

/-- C4: when a repository returns a package entry, `findInRepository`
resolves the last entry of the version sequence if no version is requested,
and otherwise the first entry whose version string equals the requested one;
the returned `PackageInfo.Version` is that entry's version; the error is
version-not-found iff the sequence is empty (no version requested) or no
entry has the requested version string. -/
theorem findInRepository_version_selection (w : World) (repo : Repository)
    (name version arch osName : String) (s : State) (body : Body) (apiResp : ApiResponse)
    (entry : PackageEntry)
    (hresp : w.httpDo "GET" (lookupURL repo name) (bearer repo.AuthToken) = .response 200 body)
    (henv : body.envelope = some apiResp) (hok : apiResp.Success = true)
    (hdata : apiResp.Data = .object (some entry)) :
    (∀ pre v, version = "" → entry.Versions = pre ++ [v] →
      (findInRepository w repo name version arch osName s).1 =
          resolveFile repo entry v arch osName ∧
        ∀ info url, (findInRepository w repo name version arch osName s).1 = .ok (info, url) →
          info.Version = v.Version) ∧
    (∀ pre v post, version ≠ "" → entry.Versions = pre ++ v :: post → v.Version = version →
      (∀ u ∈ pre, u.Version ≠ version) →
      (findInRepository w repo name version arch osName s).1 =
          resolveFile repo entry v arch osName ∧
        ∀ info url, (findInRepository w repo name version arch osName s).1 = .ok (info, url) →
          info.Version = v.Version) ∧
    ((findInRepository w repo name version arch osName s).1 = .error (.versionNotFound version) ↔
      (version = "" ∧ entry.Versions = []) ∨
        (version ≠ "" ∧ ∀ v ∈ entry.Versions, v.Version ≠ version)) := by
  have hdec := findInRepository_decoded w repo name version arch osName s body apiResp entry
    hresp henv hok hdata
  rw [hdec]
  refine ⟨?_, ?_, ?_⟩
  · intro pre v hver hsplit
    have hsel : selectVersion entry.Versions version = some v := by
      simp [selectVersion, hver, hsplit]
    have hres : resolveEntry repo entry version arch osName =
        resolveFile repo entry v arch osName := by
      simp [resolveEntry, hsel]
    rw [hres]
    exact ⟨rfl, fun info url h => resolveFile_version repo entry v arch osName info url h⟩
  · intro pre v post hver hsplit hv hpre
    have hsel : selectVersion entry.Versions version = some v := by
      simp only [selectVersion, hver, if_false, hsplit]
      apply find?_first_match
      · simp [hv]
      · intro u hu; simp [hpre u hu]
    have hres : resolveEntry repo entry version arch osName =
        resolveFile repo entry v arch osName := by
      simp [resolveEntry, hsel]
    rw [hres]
    exact ⟨rfl, fun info url h => resolveFile_version repo entry v arch osName info url h⟩
  · unfold resolveEntry
    cases hsel : selectVersion entry.Versions version with
    | none =>
      simp only [true_iff]
      by_cases hver : version = ""
      · left
        refine ⟨hver, ?_⟩
        simpa [selectVersion, hver] using hsel
      · right
        refine ⟨hver, ?_⟩
        intro v hv hvv
        simp only [selectVersion, hver, if_false] at hsel
        have := List.find?_eq_none.mp hsel v hv
        simp [hvv] at this
    | some v =>
      simp only
      constructor
      · intro h
        exact absurd h (resolveFile_ne_versionNotFound repo entry v arch osName version)
      · rintro (⟨hver, hnil⟩ | ⟨hver, hall⟩)
        · simp [selectVersion, hver, hnil] at hsel
        · simp only [selectVersion, hver, if_false] at hsel
          have hmem := List.mem_of_find?_eq_some hsel
          have hp := List.find?_some hsel
          simp only [decide_eq_true_eq] at hp
          exact absurd hp (hall v hmem)

/-- C4, on the sample registry: `foo` has the versions 1.0.0, 1.1.0 and
2.0.0, and a lookup that requests no version resolves 2.0.0. -/
theorem findInRepository_version_selection_witness :
    (sampleEntry "foo" ["1.0.0", "1.1.0", "2.0.0"]).Versions.map (fun v => v.Version) =
        ["1.0.0", "1.1.0", "2.0.0"] ∧
      (findInRepository sampleWorld sampleRepoMid "foo" "" "amd64" "linux" emptyState).1 =
        resolveFile sampleRepoMid (sampleEntry "foo" ["1.0.0", "1.1.0", "2.0.0"])
          (sampleVersion "foo" "2.0.0") "amd64" "linux" ∧
      ∀ info url,
        (findInRepository sampleWorld sampleRepoMid "foo" "" "amd64" "linux" emptyState).1 =
            .ok (info, url) →
          info.Version = "2.0.0" :=
  ⟨by decide,
    (findInRepository_version_selection sampleWorld sampleRepoMid "foo" "" "amd64" "linux"
      emptyState
      ⟨some ⟨true, "", .object (some (sampleEntry "foo" ["1.0.0", "1.1.0", "2.0.0"])), ""⟩,
        "", false⟩
      ⟨true, "", .object (some (sampleEntry "foo" ["1.0.0", "1.1.0", "2.0.0"])), ""⟩
      (sampleEntry "foo" ["1.0.0", "1.1.0", "2.0.0"])
      (by rfl) rfl rfl rfl).1
      [sampleVersion "foo" "1.0.0", sampleVersion "foo" "1.1.0"] (sampleVersion "foo" "2.0.0")
      rfl (by rfl)⟩

/-- C5: when a repository returns a package entry and `v` is the version
entry selected in it, `findInRepository` takes the first file entry of `v`
whose OS and Arch both equal the requested pair: the download URL is
`<repo URL>/api/v1/download/<entry name>/<version>/<filename>` and the size
returned is that file's size; the call fails iff no file entry matches, and
then with the file-not-found error. -/
theorem findInRepository_file_selection (w : World) (repo : Repository)
    (name version arch osName : String) (s : State) (body : Body) (apiResp : ApiResponse)
    (entry : PackageEntry) (v : VersionEntry)
    (hresp : w.httpDo "GET" (lookupURL repo name) (bearer repo.AuthToken) = .response 200 body)
    (henv : body.envelope = some apiResp) (hok : apiResp.Success = true)
    (hdata : apiResp.Data = .object (some entry))
    (hsel : selectVersion entry.Versions version = some v) :
    (∀ pre f post, v.Files = pre ++ f :: post → f.OS = osName → f.Arch = arch →
      (∀ g ∈ pre, ¬ (g.OS = osName ∧ g.Arch = arch)) →
      ∃ info, (findInRepository w repo name version arch osName s).1 =
          .ok (info, repo.URL ++ "/api/v1/download/" ++ entry.Name ++ "/" ++ v.Version ++ "/"
            ++ f.Filename) ∧
        info.Size = f.Size ∧ info.Version = v.Version ∧ info.Name = entry.Name) ∧
    ((∃ e, (findInRepository w repo name version arch osName s).1 = .error e) ↔
      ∀ f ∈ v.Files, ¬ (f.OS = osName ∧ f.Arch = arch)) ∧
    (∀ e, (findInRepository w repo name version arch osName s).1 = .error e →
      e = .fileNotFound osName arch) := by
  have hdec := findInRepository_decoded w repo name version arch osName s body apiResp entry
    hresp henv hok hdata
  rw [hdec]
  have hres : resolveEntry repo entry version arch osName =
      resolveFile repo entry v arch osName := by
    simp [resolveEntry, hsel]
  rw [hres]
  refine ⟨?_, ?_, ?_⟩
  · intro pre f post hsplit hos harch hpre
    have hfile : selectFile v.Files osName arch = some f := by
      simp only [selectFile, hsplit]
      apply find?_first_match
      · simp [hos, harch]
      · intro g hg
        have := hpre g hg
        simp only [Bool.and_eq_false_imp, decide_eq_true_eq, decide_eq_false_iff_not]
        intro h1 h2
        exact this ⟨h1, h2⟩
    simp only [resolveFile, hfile]
    exact ⟨_, rfl, rfl, rfl, rfl⟩
  · unfold resolveFile
    cases hfile : selectFile v.Files osName arch with
    | none =>
      simp only
      refine ⟨fun _ f hf hmatch => ?_, fun _ => ⟨_, rfl⟩⟩
      have := List.find?_eq_none.mp hfile f hf
      simp [hmatch.1, hmatch.2] at this
    | some f =>
      simp only
      have hmem := List.mem_of_find?_eq_some hfile
      have hp := List.find?_some hfile
      simp only [Bool.and_eq_true, decide_eq_true_eq] at hp
      refine ⟨fun h => ?_, fun h => absurd hp (h f hmem)⟩
      obtain ⟨e, he⟩ := h
      cases he
  · intro e he
    unfold resolveFile at he
    split at he
    · cases he; rfl
    · cases he

/-- C5, on the sample registry: version 2.0.0 of `foo` has one file for
linux/amd64, and the lookup returns its URL and its size. -/
theorem findInRepository_file_selection_witness :
    ∃ info, (findInRepository sampleWorld sampleRepoMid "foo" "" "amd64" "linux" emptyState).1 =
        .ok (info, "http://mid/api/v1/download/foo/2.0.0/foo-2.0.0.tar.zst") ∧
      info.Size = 100 ∧ info.Version = "2.0.0" ∧ info.Name = "foo" :=
  (findInRepository_file_selection sampleWorld sampleRepoMid "foo" "" "amd64" "linux"
    emptyState
    ⟨some ⟨true, "", .object (some (sampleEntry "foo" ["1.0.0", "1.1.0", "2.0.0"])), ""⟩,
      "", false⟩
    ⟨true, "", .object (some (sampleEntry "foo" ["1.0.0", "1.1.0", "2.0.0"])), ""⟩
    (sampleEntry "foo" ["1.0.0", "1.1.0", "2.0.0"]) (sampleVersion "foo" "2.0.0")
    (by rfl) rfl rfl rfl (by rfl)).1
    [] (sampleFile "foo" "2.0.0") [] rfl rfl rfl (by intro g hg; cases hg)

/-! ### Install: the short circuit -/

/-- C1: when the registry has an entry for the name and the requested
version is empty or equals the entry's version, a call without `force`
returns success and leaves the whole state as it is: no event (so no registry
request), no filesystem change, no registry change. -/
theorem InstallPackage_already_installed (w : World) (fuel : Nat) (packageName version : String)
    (global dev : Bool) (arch osName : String) (s : State) (info : PackageInfo)
    (hinst : getInstalledPackage s packageName = some info)
    (hver : version = "" ∨ info.Version = version) :
    InstallPackage w (fuel + 1) packageName version global false dev arch osName s =
      some (.ok, s) := by
  have h : alreadyInstalled s packageName version = true := by
    simp only [alreadyInstalled, hinst, Bool.or_eq_true, decide_eq_true_eq]
    exact hver
  simp [InstallPackage, h]

/-- C1, on the sample state in which `foo` 2.0.0 is installed: a second
install of `foo` changes nothing. -/
theorem InstallPackage_already_installed_witness :
    getInstalledPackage sampleFooState "foo" = some sampleFooInfo ∧
      InstallPackage sampleWorld 1 "foo" "2.0.0" false false true "" "" sampleFooState =
        some (.ok, sampleFooState) :=
  ⟨by decide,
    InstallPackage_already_installed sampleWorld 0 "foo" "2.0.0" false true "" ""
      sampleFooState sampleFooInfo (by decide) (Or.inr (by decide))⟩

/-! ### Uninstall -/

/-- C2, evaluated: `foo` is installed, its record is where
`savePackageInfo` wrote it and its install directory can be deleted, yet
`UninstallPackage` returns the error of the record removal (the record went
with the directory), and the registry still holds the entry of `foo`. -/
theorem UninstallPackage_fails_after_removing_directory :
    getInstalledPackage sampleFooState "foo" = some sampleFooInfo ∧
      fsLookup sampleFooState.fs (infoPath sampleFooInfo.InstallPath) =
        some (Node.record sampleFooInfo) ∧
      sampleWorld.removeAllFault sampleFooInfo.InstallPath = none ∧
      (UninstallPackage sampleWorld "foo" false false sampleFooState).1 =
        .error (.wrapped "error_failed_to_remove" (.external "no such file or directory")) ∧
      fsLookup (UninstallPackage sampleWorld "foo" false false sampleFooState).2.fs
        sampleFooInfo.InstallPath = none ∧
      getInstalledPackage (UninstallPackage sampleWorld "foo" false false sampleFooState).2
        "foo" = some sampleFooInfo := by
  decide

/-! ### Install: evaluated runs -/

/-- C8, evaluated: the download of `brk` breaks off while the body is
written to the cache file; `InstallPackage` returns the download error and the
truncated archive is still at the cache path after the call. -/
theorem InstallPackage_leaves_truncated_archive :
    fsLookup emptyState.fs (sampleWorld.GetCachePath "brk" "1.0.0" ++ ["package.tar.zst"]) =
        none ∧
      resultOf (InstallPackage sampleWorld 1 "brk" "" false false false "" "" emptyState) =
        some (.error (.wrapped "error_failed_to_download"
          (.savePackage (.external "copy")))) ∧
      fsLookup
          (stateAfter
            (InstallPackage sampleWorld 1 "brk" "" false false false "" "" emptyState)).fs
          (sampleWorld.GetCachePath "brk" "1.0.0" ++ ["package.tar.zst"]) =
        some (Node.file "brk@1.0.0") := by
  decide

/-- C9, evaluated: the archive requested as `alias` holds a manifest
named `other`; the install succeeds, the record on disk is named `other`, and
the registry has no entry under `other` (the entry is under `alias`). -/
theorem InstallPackage_record_name_not_registry_key :
    resultOf (InstallPackage sampleWorld 1 "alias" "" false false false "" "" emptyState) =
        some .ok ∧
      (∃ info,
        fsLookup
            (stateAfter
              (InstallPackage sampleWorld 1 "alias" "" false false false "" "" emptyState)).fs
            (infoPath (sampleWorld.GetInstallPath "alias" false)) =
          some (Node.record info) ∧
        info.Name = "other" ∧
        getInstalledPackage
            (stateAfter
              (InstallPackage sampleWorld 1 "alias" "" false false false "" "" emptyState))
            info.Name = none ∧
        getInstalledPackage
            (stateAfter
              (InstallPackage sampleWorld 1 "alias" "" false false false "" "" emptyState))
            "alias" = some info) := by
  refine ⟨by decide, ⟨sampleAliasInfo, ?_⟩⟩
  decide

/-- C10 refuted on the sample state in which `foo` is installed in the
local scope. Without `force`, the global install returns success at once and
changes nothing, so no global installation is tracked. With `force`, the
global install replaces the entry of `foo`: the local listing is empty
afterwards although the local install directory is still on disk. -/
theorem InstallPackage_scopes_share_one_entry :
    (ListPackages sampleWorld false false sampleFooState).1 = [sampleFooInfo] ∧
      InstallPackage sampleWorld 1 "foo" "" true false false "" "" sampleFooState =
        some (.ok, sampleFooState) ∧
      (ListPackages sampleWorld true false sampleFooState).1 = [] ∧
      resultOf (InstallPackage sampleWorld 1 "foo" "" true true false "" "" sampleFooState) =
        some .ok ∧
      (ListPackages sampleWorld false false
          (stateAfter
            (InstallPackage sampleWorld 1 "foo" "" true true false "" "" sampleFooState))).1 =
        [] ∧
      fsLookup
          (stateAfter
            (InstallPackage sampleWorld 1 "foo" "" true true false "" "" sampleFooState)).fs
          (infoPath (sampleWorld.GetInstallPath "foo" false)) =
        some (Node.record sampleFooInfo) := by
  decide

/-! ### Frame lemmas -/

theorem runHooks_frame (w : World) (workDir : Path) :
    ∀ (commands : List String) (s : State),
      (runHooks w workDir commands s).2.installedPackages = s.installedPackages := by
  intro commands
  induction commands with
  | nil => intro s; simp [runHooks]
  | cons c rest ih =>
    intro s
    unfold runHooks
    simp only
    by_cases hc : canStartIn workDir s.fs = true
    · simp only [hc, if_true]
      by_cases hr : (w.runCommand c (if workDir = [] then none else some workDir) s.fs).1 = true
      · simp only [hr, if_true]
        rw [ih]
      · simp only [hr]
        rfl
    · simp only [hc]
      rfl

theorem executeHooks_frame (w : World) (hooks : Option PackageHooks) (commands : List String)
    (workDir : Path) (s : State) :
    (executeHooks w hooks commands workDir s).2.installedPackages = s.installedPackages := by
  unfold executeHooks
  split
  · rfl
  · split
    · rfl
    · exact runHooks_frame w workDir commands s

theorem findPackage_frame (w : World) (name version arch osName : String) (s : State) :
    (findPackage w name version arch osName s).2.fs = s.fs ∧
      (findPackage w name version arch osName s).2.installedPackages = s.installedPackages := by
  obtain ⟨tried, skipped, _, hstate, _⟩ :=
    findPackageLoop_spec w name version arch osName
      (w.sortSlice priorityLess w.GetRepositories) s
  unfold findPackage
  rw [hstate]
  simp

theorem downloadPackage_installed (w : World) (url name version : String) (s : State) :
    (downloadPackage w url name version s).2.installedPackages = s.installedPackages := by
  unfold downloadPackage
  simp only
  split
  · rfl
  · split
    · rfl
    · split
      · rfl
      · rfl
      · split
        · rfl
        · split
          · rfl
          · split <;> rfl

theorem installCleanup_installed (w : World) (archivePath tempDir : Path) (s : State) :
    (installCleanup w archivePath tempDir s).installedPackages = s.installedPackages := rfl

theorem mapGet_mapSet_self {α : Type} (m : List (String × α)) (k : String) (v : α) :
    mapGet (mapSet m k v) k = some v := by
  induction m with
  | nil => simp [mapSet, mapGet]
  | cons e rest ih =>
    obtain ⟨k1, v1⟩ := e
    by_cases h : k1 = k
    · simp [mapSet, mapGet, h]
    · simp [mapSet, mapGet, h, ih]

theorem mapGet_mem {α : Type} (m : List (String × α)) (k : String) (v : α)
    (h : mapGet m k = some v) : (k, v) ∈ m := by
  induction m with
  | nil => simp [mapGet] at h
  | cons e rest ih =>
    obtain ⟨k1, v1⟩ := e
    by_cases hk : k1 = k
    · simp only [mapGet, hk, if_true, Option.some.injEq] at h
      simp [hk, h]
    · simp only [mapGet, hk, if_false] at h
      exact List.mem_cons_of_mem _ (ih h)

/-! ### Install: the steps after the hooks -/

theorem installFiles_cases (w : World) (packageName : String) (global force : Bool)
    (manifest : PackageManifest) (hooks : PackageHooks) (dependencies : GoMap)
    (tempDir : Path) (s : State) :
    (∃ info,
      (installFiles w packageName global force manifest hooks dependencies tempDir s).1 = .ok ∧
      (installFiles w packageName global force manifest hooks dependencies tempDir
          s).2.installedPackages = mapSet s.installedPackages packageName info ∧
      info.Global = global ∧ info.InstallPath = w.GetInstallPath packageName global ∧
      info.Name = manifest.Name ∧ info.Version = manifest.Version) ∨
    (∃ key e,
      (installFiles w packageName global force manifest hooks dependencies tempDir s).1 =
        .error (.wrapped key e) ∧
      (key = "error_failed_to_remove" ∨ key = "error_failed_to_create" ∨
        key = "error_failed_to_copy" ∨ key = "error_failed_to_save") ∧
      (installFiles w packageName global force manifest hooks dependencies tempDir
          s).2.installedPackages = s.installedPackages) := by
  unfold installFiles
  dsimp only
  split
  · exact Or.inr ⟨_, _, rfl, Or.inl rfl, rfl⟩
  · split
    · exact Or.inr ⟨_, _, rfl, Or.inr (Or.inl rfl), rfl⟩
    · split
      · exact Or.inr ⟨_, _, rfl, Or.inr (Or.inr (Or.inl rfl)), rfl⟩
      · split
        · exact Or.inr ⟨_, _, rfl, Or.inr (Or.inr (Or.inr rfl)), rfl⟩
        · apply Or.inl
          apply Exists.intro
          refine ⟨rfl, ?_, ?_⟩
          · rw [executeHooks_frame w _ _ _ _]
          · exact ⟨rfl, rfl, rfl, rfl⟩

theorem installSteps_cases (w : World)
    (install : String → String → State → Option (Result × State))
    (packageName : String) (global force dev : Bool) (archivePath tempDir : Path)
    (s : State) (r : Result) (s' : State)
    (h : installSteps w install packageName global force dev archivePath tempDir s =
      some (r, s')) :
    ((extractArchive w archivePath tempDir s).1 = false ∧
      r = .error (.wrapped "error_failed_to_extract" (.external "extract")) ∧
      s' = (extractArchive w archivePath tempDir s).2) ∨
    (∃ e, loadManifestFromDir w tempDir (extractArchive w archivePath tempDir s).2.fs =
        .error e ∧
      r = .error (.wrapped "error_failed_to_load" e) ∧
      s' = (extractArchive w archivePath tempDir s).2) ∨
    (∃ manifest rd deps s2,
      loadManifestFromDir w tempDir (extractArchive w archivePath tempDir s).2.fs =
        .ok manifest ∧
      checkDependencies w install manifest dev (extractArchive w archivePath tempDir s).2 =
        some (rd, deps, s2) ∧
      ((∃ e, rd = .error e ∧ r = .error (.wrapped "error_dependency_check" e) ∧ s' = s2) ∨
       (∃ reason, rd = .panic reason ∧ r = .panic reason ∧ s' = s2) ∨
       (rd = .ok ∧ manifest.Hooks = none ∧ r = .panic "nil pointer dereference" ∧ s' = s2) ∨
       (rd = .ok ∧ ∃ hooks e s3, manifest.Hooks = some hooks ∧
          executeHooks w manifest.Hooks hooks.PreInstall tempDir s2 = (some e, s3) ∧
          r = .error (.wrapped "error_pre_install_hooks" e) ∧ s' = s3) ∨
       (rd = .ok ∧ ∃ hooks s3, manifest.Hooks = some hooks ∧
          executeHooks w manifest.Hooks hooks.PreInstall tempDir s2 = (none, s3) ∧
          (r, s') =
            installFiles w packageName global force manifest hooks deps tempDir s3))) := by
  unfold installSteps at h
  split at h
  · next s1 hext =>
    simp only [Option.some.injEq, Prod.mk.injEq] at h
    refine Or.inl ⟨by rw [hext], h.1.symm, ?_⟩
    rw [hext]; exact h.2.symm
  · next s1 hext =>
    have hs1 : (extractArchive w archivePath tempDir s).2 = s1 := by rw [hext]
    rw [hs1]
    split at h
    · next e hload =>
      simp only [Option.some.injEq, Prod.mk.injEq] at h
      exact Or.inr (Or.inl ⟨e, hload, h.1.symm, h.2.symm⟩)
    · next manifest hload =>
      refine Or.inr (Or.inr ⟨manifest, ?_⟩)
      split at h
      · cases h
      · next e deps s2 hdeps =>
        simp only [Option.some.injEq, Prod.mk.injEq] at h
        exact ⟨_, deps, s2, hload, hdeps, Or.inl ⟨e, rfl, h.1.symm, h.2.symm⟩⟩
      · next reason deps s2 hdeps =>
        simp only [Option.some.injEq, Prod.mk.injEq] at h
        exact ⟨_, deps, s2, hload, hdeps, Or.inr (Or.inl ⟨reason, rfl, h.1.symm, h.2.symm⟩)⟩
      · next deps s2 hdeps =>
        refine ⟨_, deps, s2, hload, hdeps, Or.inr (Or.inr ?_)⟩
        split at h
        · next hh =>
          simp only [Option.some.injEq, Prod.mk.injEq] at h
          exact Or.inl ⟨rfl, hh, h.1.symm, h.2.symm⟩
        · next hooks hh =>
          split at h
          · next e s3 hpre =>
            simp only [Option.some.injEq, Prod.mk.injEq] at h
            exact Or.inr (Or.inl ⟨rfl, hooks, e, s3, hh, hh ▸ hpre, h.1.symm, h.2.symm⟩)
          · next s3 hpre =>
            simp only [Option.some.injEq] at h
            exact Or.inr (Or.inr ⟨rfl, hooks, s3, hh, hh ▸ hpre, h.symm⟩)

theorem InstallPackage_cases (w : World) (fuel : Nat) (packageName version : String)
    (global force dev : Bool) (arch osName : String) (s : State) (r : Result) (s' : State)
    (h : InstallPackage w fuel packageName version global force dev arch osName s =
      some (r, s')) :
    ∃ fuel', fuel = fuel' + 1 ∧
      ((force = false ∧ alreadyInstalled s packageName version = true ∧ r = .ok ∧ s' = s) ∨
       (∃ e s1,
          findPackage w packageName version (effectiveArch w arch) (effectiveOS w osName) s =
            (.error e, s1) ∧
          r = .error (.wrapped "error_failed_to_find" e) ∧ s' = s1) ∨
       (∃ packageInfo url s1,
          findPackage w packageName version (effectiveArch w arch) (effectiveOS w osName) s =
            (.ok (packageInfo, url), s1) ∧
          ((∃ e s2,
              downloadPackage w url packageName packageInfo.Version s1 = (.error e, s2) ∧
              r = .error (.wrapped "error_failed_to_download" e) ∧ s' = s2) ∨
           (∃ archivePath s2 s3,
              downloadPackage w url packageName packageInfo.Version s1 =
                (.ok archivePath, s2) ∧
              installSteps w (nestedInstall w fuel') packageName global force dev archivePath
                (installTempDir w packageName) s2 = some (r, s3) ∧
              s' = installCleanup w archivePath (installTempDir w packageName) s3)))) := by
  cases fuel with
  | zero => simp [InstallPackage] at h
  | succ fuel' =>
    refine ⟨fuel', rfl, ?_⟩
    unfold InstallPackage at h
    split at h
    · next hshort =>
      simp only [Bool.and_eq_true, Bool.not_eq_true'] at hshort
      simp only [Option.some.injEq, Prod.mk.injEq] at h
      exact Or.inl ⟨hshort.1, hshort.2, h.1.symm, h.2.symm⟩
    · dsimp only at h
      split at h
      · next e s1 hfind =>
        simp only [Option.some.injEq, Prod.mk.injEq] at h
        exact Or.inr (Or.inl ⟨e, s1, hfind, h.1.symm, h.2.symm⟩)
      · next packageInfo url s1 hfind =>
        refine Or.inr (Or.inr ⟨packageInfo, url, s1, hfind, ?_⟩)
        split at h
        · next e s2 hdl =>
          simp only [Option.some.injEq, Prod.mk.injEq] at h
          exact Or.inl ⟨e, s2, hdl, h.1.symm, h.2.symm⟩
        · next archivePath s2 hdl =>
          split at h
          · cases h
          · next r3 s3 hsteps =>
            simp only [Option.some.injEq, Prod.mk.injEq] at h
            refine Or.inr ⟨archivePath, s2, s3, hdl, ?_, h.2.symm⟩
            rw [← h.1]
            exact hsteps

/-! ### Listing -/

theorem listLoop_plain (w : World) (global : Bool) :
    ∀ (l : List (String × PackageInfo)) (s : State),
      listLoop w global false l s =
        ((l.map Prod.snd).filter (fun i => i.Global == global), s) := by
  intro l
  induction l with
  | nil => intro s; simp [listLoop]
  | cons e rest ih =>
    intro s
    obtain ⟨k, pkg⟩ := e
    cases global <;> cases hp : pkg.Global <;> simp [listLoop, hp, ih]

theorem mem_ListPackages (w : World) (hsort : SortContract w) (hrange : RangeContract w)
    (global : Bool) (s : State) (info : PackageInfo) :
    info ∈ (ListPackages w global false s).1 ↔
      ∃ k, (k, info) ∈ s.installedPackages ∧ info.Global = global := by
  unfold ListPackages
  simp only
  rw [((hsort PackageInfo _ _).1).mem_iff, listLoop_plain, List.mem_filter, List.mem_map]
  constructor
  · rintro ⟨⟨⟨k, i⟩, hmem, hi⟩, hg⟩
    simp only at hi
    subst hi
    exact ⟨k, ((hrange PackageInfo _).mem_iff).1 hmem, by simpa using hg⟩
  · rintro ⟨k, hmem, hg⟩
    exact ⟨⟨(k, info), ((hrange PackageInfo _).mem_iff).2 hmem, rfl⟩, by simpa using hg⟩

theorem InstallPackage_short_circuit (w : World) (fuel : Nat) (packageName version : String)
    (global dev : Bool) (arch osName : String) (s : State) (info : PackageInfo)
    (hinst : getInstalledPackage s packageName = some info)
    (hver : version = "" ∨ info.Version = version) :
    InstallPackage w (fuel + 1) packageName version global false dev arch osName s =
      some (.ok, s) := by
  have h : alreadyInstalled s packageName version = true := by
    simp only [alreadyInstalled, hinst, Bool.or_eq_true, decide_eq_true_eq]
    exact hver
  simp [InstallPackage, h]

theorem InstallPackage_ok_entry (w : World) (fuel : Nat) (packageName version : String)
    (global force dev : Bool) (arch osName : String) (s s' : State)
    (h : InstallPackage w fuel packageName version global force dev arch osName s =
      some (.ok, s'))
    (hrun : force = true ∨ alreadyInstalled s packageName version = false) :
    ∃ info, getInstalledPackage s' packageName = some info ∧ info.Global = global ∧
      info.InstallPath = w.GetInstallPath packageName global := by
  obtain ⟨fuel', _, hcases⟩ :=
    InstallPackage_cases w fuel packageName version global force dev arch osName s .ok s' h
  rcases hcases with ⟨hf, hal, _, _⟩ | ⟨e, s1, _, hr, _⟩ | ⟨pinfo, url, s1, _, hrest⟩
  · rcases hrun with hforce | hnot
    · rw [hf] at hforce; cases hforce
    · rw [hal] at hnot; cases hnot
  · cases hr
  · rcases hrest with ⟨e, s2, _, hr, _⟩ | ⟨archivePath, s2, s3, _, hsteps, hs'⟩
    · cases hr
    · have hc := installSteps_cases w _ packageName global force dev archivePath _ s2 .ok s3 hsteps
      rcases hc with ⟨_, hr, _⟩ | ⟨e, _, hr, _⟩ | ⟨manifest, rd, deps, s4, _, _, hc⟩
      · cases hr
      · cases hr
      · rcases hc with ⟨e, _, hr, _⟩ | ⟨reason, _, hr, _⟩ | ⟨_, _, hr, _⟩ |
          ⟨_, hooks, e, s5, _, _, hr, _⟩ | ⟨_, hooks, s5, _, _, hfiles⟩
        · cases hr
        · cases hr
        · cases hr
        · cases hr
        · rcases installFiles_cases w packageName global force manifest hooks deps
            (installTempDir w packageName) s5 with
            ⟨info, _, hreg, hglobal, hpath, _⟩ | ⟨key, e, herr, _⟩
          · refine ⟨info, ?_, hglobal, hpath⟩
            rw [hs']
            unfold getInstalledPackage
            rw [installCleanup_installed]
            have h2 : s3 = (installFiles w packageName global force manifest hooks deps
                (installTempDir w packageName) s5).2 := by rw [← hfiles]
            rw [h2, hreg]
            exact mapGet_mapSet_self _ _ _
          · rw [← hfiles] at herr
            cases herr

/-! ### The registry as a map: one entry per key -/

theorem installMissing_registry (P : List (String × PackageInfo) → Prop)
    (install : String → String → State → Option (Result × State))
    (hinstall : ∀ name version st r st', install name version st = some (r, st') →
      P st.installedPackages → P st'.installedPackages) :
    ∀ (deps : List (String × String)) (s : State) (r : Result) (s' : State),
      installMissing install deps s = some (r, s') →
      P s.installedPackages → P s'.installedPackages := by
  intro deps
  induction deps with
  | nil =>
    intro s r s' h hP
    simp only [installMissing, Option.some.injEq, Prod.mk.injEq] at h
    rw [← h.2]; exact hP
  | cons d rest ih =>
    intro s r s' h hP
    obtain ⟨depName, depVersion⟩ := d
    unfold installMissing at h
    cases hget : getInstalledPackage s depName with
    | some i =>
      rw [hget] at h
      exact ih s r s' h hP
    | none =>
      rw [hget] at h
      cases hin : install depName depVersion s with
      | none => rw [hin] at h; cases h
      | some out =>
        obtain ⟨r1, s1⟩ := out
        rw [hin] at h
        have hP1 := hinstall depName depVersion s r1 s1 hin hP
        cases r1 with
        | ok => exact ih s1 r s' h hP1
        | error e =>
          simp only [Option.some.injEq, Prod.mk.injEq] at h
          rw [← h.2]; exact hP1
        | panic reason =>
          simp only [Option.some.injEq, Prod.mk.injEq] at h
          rw [← h.2]; exact hP1

theorem checkDependencies_registry (w : World) (P : List (String × PackageInfo) → Prop)
    (install : String → String → State → Option (Result × State))
    (hinstall : ∀ name version st r st', install name version st = some (r, st') →
      P st.installedPackages → P st'.installedPackages)
    (manifest : PackageManifest) (dev : Bool) (s : State) (r : Result) (deps : GoMap)
    (s' : State) (h : checkDependencies w install manifest dev s = some (r, deps, s')) :
    P s.installedPackages → P s'.installedPackages := by
  unfold checkDependencies at h
  simp only at h
  split at h
  · simp only [Option.some.injEq, Prod.mk.injEq] at h
    intro hP
    rw [← h.2.2]; exact hP
  · next dependencies _ =>
    cases hm : installMissing install (rangeMap w dependencies) s with
    | none => rw [hm] at h; cases h
    | some out =>
      obtain ⟨r1, s1⟩ := out
      rw [hm] at h
      simp only [Option.some.injEq, Prod.mk.injEq] at h
      intro hP
      rw [← h.2.2]
      exact installMissing_registry P install hinstall _ s r1 s1 hm hP

/-- Every property of the registry that each map write keeps is kept by
`InstallPackage`, whatever it returns: the registry changes by map writes
alone. -/
theorem InstallPackage_registry_invariant (w : World) (P : List (String × PackageInfo) → Prop)
    (hP : ∀ m k v, P m → P (mapSet m k v)) :
    ∀ (fuel : Nat) (packageName version : String) (global force dev : Bool)
      (arch osName : String) (s : State) (r : Result) (s' : State),
      InstallPackage w fuel packageName version global force dev arch osName s = some (r, s') →
      P s.installedPackages → P s'.installedPackages := by
  intro fuel
  induction fuel with
  | zero =>
    intro packageName version global force dev arch osName s r s' h
    simp [InstallPackage] at h
  | succ n ih =>
    intro packageName version global force dev arch osName s r s' h hk
    obtain ⟨fuel', hfuel, hcases⟩ :=
      InstallPackage_cases w (n + 1) packageName version global force dev arch osName s r s' h
    have hn : fuel' = n := by omega
    subst hn
    have hnested : ∀ name version st r st', nestedInstall w fuel' name version st = some (r, st') →
        P st.installedPackages → P st'.installedPackages := by
      intro name version st r st' hcall
      exact ih name version false false false "" "" st r st' hcall
    rcases hcases with ⟨_, _, _, hs'⟩ | ⟨e, s1, hfind, _, hs'⟩ | ⟨pinfo, url, s1, hfind, hrest⟩
    · rw [hs']; exact hk
    · have hfr := findPackage_frame w packageName version (effectiveArch w arch)
        (effectiveOS w osName) s
      rw [hfind] at hfr
      rw [hs', hfr.2]; exact hk
    · have hfr := findPackage_frame w packageName version (effectiveArch w arch)
        (effectiveOS w osName) s
      rw [hfind] at hfr
      simp only at hfr
      have hk1 : P s1.installedPackages := by rw [hfr.2]; exact hk
      rcases hrest with ⟨e, s2, hdl, _, hs'⟩ | ⟨archivePath, s2, s3, hdl, hsteps, hs'⟩
      · have hdi := downloadPackage_installed w url packageName pinfo.Version s1
        rw [hdl] at hdi
        rw [hs', hdi]; exact hk1
      · have hdi := downloadPackage_installed w url packageName pinfo.Version s1
        rw [hdl] at hdi
        simp only at hdi
        have hk2 : P s2.installedPackages := by rw [hdi]; exact hk1
        have hke : P
            (extractArchive w archivePath (installTempDir w packageName) s2).2.installedPackages :=
          hk2
        suffices hk3 : P s3.installedPackages by
          rw [hs', installCleanup_installed]; exact hk3
        have hc := installSteps_cases w _ packageName global force dev archivePath _ s2 r s3 hsteps
        rcases hc with ⟨_, _, hs3⟩ | ⟨e, _, _, hs3⟩ | ⟨manifest, rd, deps, s4, _, hdeps, hc⟩
        · rw [hs3]; exact hke
        · rw [hs3]; exact hke
        · have hk4 := checkDependencies_registry w P _ hnested manifest dev _ rd deps s4 hdeps hke
          rcases hc with ⟨e, _, _, hs3⟩ | ⟨reason, _, _, hs3⟩ | ⟨_, _, _, hs3⟩ |
            ⟨_, hooks, e, s5, _, hpre, _, hs3⟩ | ⟨_, hooks, s5, _, hpre, hfiles⟩
          · rw [hs3]; exact hk4
          · rw [hs3]; exact hk4
          · rw [hs3]; exact hk4
          · have hfr5 := executeHooks_frame w manifest.Hooks hooks.PreInstall
              (installTempDir w packageName) s4
            rw [hpre] at hfr5
            rw [hs3, hfr5]; exact hk4
          · have hfr5 := executeHooks_frame w manifest.Hooks hooks.PreInstall
              (installTempDir w packageName) s4
            rw [hpre] at hfr5
            simp only at hfr5
            have hk5 : P s5.installedPackages := by rw [hfr5]; exact hk4
            have hs3 : s3 = (installFiles w packageName global force manifest hooks deps
                (installTempDir w packageName) s5).2 := by rw [← hfiles]
            rcases installFiles_cases w packageName global force manifest hooks deps
              (installTempDir w packageName) s5 with
              ⟨i, _, hreg, _⟩ | ⟨key, e, _, _, hreg⟩
            · rw [hs3, hreg]
              exact hP _ _ _ hk5
            · rw [hs3, hreg]
              exact hk5

theorem mapSet_keys_nodup {α : Type} (m : List (String × α)) (k : String) (v : α)
    (h : (m.map Prod.fst).Nodup) : ((mapSet m k v).map Prod.fst).Nodup := by
  have hkeys : ∀ (m : List (String × α)) (x : String),
      x ∈ (mapSet m k v).map Prod.fst → x = k ∨ x ∈ m.map Prod.fst := by
    intro m
    induction m with
    | nil => intro x hx; simp [mapSet] at hx; exact Or.inl hx
    | cons e rest ih =>
      obtain ⟨k1, v1⟩ := e
      intro x hx
      by_cases h1 : k1 = k
      · simp only [mapSet, h1, if_true, List.map_cons, List.mem_cons] at hx ⊢
        rcases hx with hx | hx
        · exact Or.inl hx
        · exact Or.inr (Or.inr hx)
      · simp only [mapSet, h1, if_false, List.map_cons, List.mem_cons] at hx ⊢
        rcases hx with hx | hx
        · exact Or.inr (Or.inl hx)
        · rcases ih x hx with hx | hx
          · exact Or.inl hx
          · exact Or.inr (Or.inr hx)
  induction m with
  | nil => simp [mapSet]
  | cons e rest ih =>
    obtain ⟨k1, v1⟩ := e
    simp only [List.map_cons, List.nodup_cons] at h
    by_cases h1 : k1 = k
    · simp only [mapSet, h1, if_true, List.map_cons, List.nodup_cons]
      rw [h1] at h
      exact h
    · simp only [mapSet, h1, if_false, List.map_cons, List.nodup_cons]
      refine ⟨?_, ih h.2⟩
      intro hmem
      rcases hkeys rest k1 hmem with hx | hx
      · exact h1 hx
      · exact h.1 hx

theorem mapGet_unique {α : Type} (m : List (String × α)) (k : String) (v v' : α)
    (hnodup : (m.map Prod.fst).Nodup) (hget : mapGet m k = some v) (hmem : (k, v') ∈ m) :
    v' = v := by
  induction m with
  | nil => cases hmem
  | cons e rest ih =>
    obtain ⟨k1, v1⟩ := e
    simp only [List.map_cons, List.nodup_cons] at hnodup
    by_cases h1 : k1 = k
    · subst h1
      simp only [mapGet, if_true, Option.some.injEq] at hget
      simp only [List.mem_cons, Prod.mk.injEq, true_and] at hmem
      rcases hmem with hmem | hmem
      · rw [hmem, hget]
      · exact absurd (List.mem_map_of_mem Prod.fst hmem) hnodup.1
    · simp only [mapGet, h1, if_false] at hget
      simp only [List.mem_cons, Prod.mk.injEq] at hmem
      rcases hmem with hmem | hmem
      · exact absurd hmem.1.symm h1
      · exact ih hnodup.2 hget hmem

/-- C10, amended: the registry holds one entry per package name,
whatever the scope. A request without `force` to install a name in one scope,
while the registry has an entry of the other scope for it (and no version or
the installed version is requested), returns success and changes nothing.
Every other successful install, started from a registry with one entry per
key, leaves a registry with one entry per key in which the single entry
stored for the name has the scope of that install: it is in the listing of
that scope and not in the listing of the other scope, every entry the other
scope lists is stored under another name, and where the records carry their
registry keys as names the other scope lists no entry of that name. -/
theorem InstallPackage_registry_keyed_by_name (w : World) (hsort : SortContract w)
    (hrange : RangeContract w) (packageName : String) (global : Bool) :
    (∀ (fuel : Nat) (version : String) (dev : Bool) (arch osName : String) (s : State)
        (info : PackageInfo),
      getInstalledPackage s packageName = some info → info.Global = !global →
      (version = "" ∨ info.Version = version) →
      InstallPackage w (fuel + 1) packageName version global false dev arch osName s =
        some (.ok, s)) ∧
    (∀ (fuel : Nat) (version : String) (force dev : Bool) (arch osName : String)
        (s s' : State),
      (s.installedPackages.map Prod.fst).Nodup →
      InstallPackage w fuel packageName version global force dev arch osName s =
        some (.ok, s') →
      (force = true ∨ alreadyInstalled s packageName version = false) →
      ∃ info, getInstalledPackage s' packageName = some info ∧ info.Global = global ∧
        (s'.installedPackages.map Prod.fst).Nodup ∧
        (∀ i, (packageName, i) ∈ s'.installedPackages → i = info) ∧
        info ∈ (ListPackages w global false s').1 ∧
        info ∉ (ListPackages w (!global) false s').1 ∧
        (∀ i ∈ (ListPackages w (!global) false s').1,
          ∃ k, k ≠ packageName ∧ (k, i) ∈ s'.installedPackages) ∧
        ((∀ k i, (k, i) ∈ s'.installedPackages → i.Name = k) →
          ∀ i ∈ (ListPackages w (!global) false s').1, i.Name ≠ packageName)) := by
  constructor
  · intro fuel version dev arch osName s info hinst _ hver
    exact InstallPackage_short_circuit w fuel packageName version global dev arch osName s info
      hinst hver
  · intro fuel version force dev arch osName s s' hnodup h hrun
    obtain ⟨info, hget, hglobal, _⟩ :=
      InstallPackage_ok_entry w fuel packageName version global force dev arch osName s s' h hrun
    have hnodup' : (s'.installedPackages.map Prod.fst).Nodup :=
      InstallPackage_registry_invariant w (fun m => (m.map Prod.fst).Nodup)
        (fun m k v hm => mapSet_keys_nodup m k v hm) fuel packageName version global force dev
        arch osName s .ok s' h hnodup
    have hsingle : ∀ i, (packageName, i) ∈ s'.installedPackages → i = info :=
      fun i hi => mapGet_unique _ _ _ _ hnodup' hget hi
    have hother : ∀ i ∈ (ListPackages w (!global) false s').1,
        ∃ k, k ≠ packageName ∧ (k, i) ∈ s'.installedPackages := by
      intro i hi
      rw [mem_ListPackages w hsort hrange] at hi
      obtain ⟨k, hmem, hg⟩ := hi
      refine ⟨k, ?_, hmem⟩
      intro hk
      rw [hk] at hmem
      rw [hsingle i hmem, hglobal] at hg
      cases global <;> cases hg
    refine ⟨info, hget, hglobal, hnodup', hsingle, ?_, ?_, hother, ?_⟩
    · rw [mem_ListPackages w hsort hrange]
      exact ⟨packageName, mapGet_mem _ _ _ hget, hglobal⟩
    · rw [mem_ListPackages w hsort hrange]
      rintro ⟨_, _, hg⟩
      rw [hglobal] at hg
      cases global <;> cases hg
    · intro hnamed i hi hname
      obtain ⟨k, hne, hmem⟩ := hother i hi
      exact hne ((hnamed k i hmem).symm.trans hname)

/-- C10 amended, on the sample state in which `foo` is installed in the
local scope: the global install without `force` changes nothing; the forced
global install leaves a single entry of `foo`, which is global, and the local
scope lists nothing stored under `foo`. -/
theorem InstallPackage_registry_keyed_by_name_witness :
    InstallPackage sampleWorld 1 "foo" "" true false false "" "" sampleFooState =
        some (.ok, sampleFooState) ∧
      ∃ info,
        getInstalledPackage
            (stateAfter
              (InstallPackage sampleWorld 1 "foo" "" true true false "" "" sampleFooState))
            "foo" = some info ∧
        info.Global = true ∧
        ((stateAfter
          (InstallPackage sampleWorld 1 "foo" "" true true false "" ""
            sampleFooState)).installedPackages.map Prod.fst).Nodup ∧
        (∀ i, ("foo", i) ∈ (stateAfter
          (InstallPackage sampleWorld 1 "foo" "" true true false "" ""
            sampleFooState)).installedPackages → i = info) ∧
        info ∈ (ListPackages sampleWorld true false
          (stateAfter
            (InstallPackage sampleWorld 1 "foo" "" true true false "" "" sampleFooState))).1 ∧
        info ∉ (ListPackages sampleWorld (!true) false
          (stateAfter
            (InstallPackage sampleWorld 1 "foo" "" true true false "" "" sampleFooState))).1 ∧
        (∀ i ∈ (ListPackages sampleWorld (!true) false
          (stateAfter
            (InstallPackage sampleWorld 1 "foo" "" true true false "" "" sampleFooState))).1,
          ∃ k, k ≠ "foo" ∧ (k, i) ∈ (stateAfter
            (InstallPackage sampleWorld 1 "foo" "" true true false "" ""
              sampleFooState)).installedPackages) ∧
        ((∀ k i, (k, i) ∈ (stateAfter
            (InstallPackage sampleWorld 1 "foo" "" true true false "" ""
              sampleFooState)).installedPackages → i.Name = k) →
          ∀ i ∈ (ListPackages sampleWorld (!true) false
            (stateAfter
              (InstallPackage sampleWorld 1 "foo" "" true true false "" ""
                sampleFooState))).1, i.Name ≠ "foo") :=
  ⟨(InstallPackage_registry_keyed_by_name sampleWorld sampleWorld_sortContract
      sampleWorld_rangeContract "foo" true).1 0 "" false "" "" sampleFooState sampleFooInfo
      (by decide) (by decide) (Or.inl rfl),
    (InstallPackage_registry_keyed_by_name sampleWorld sampleWorld_sortContract
      sampleWorld_rangeContract "foo" true).2 1 "" true false "" "" sampleFooState
      (stateAfter (InstallPackage sampleWorld 1 "foo" "" true true false "" "" sampleFooState))
      (by decide) (by decide) (Or.inl rfl)⟩

/-! ### The package records on disk -/

theorem diskRecords_mkdirEach : ∀ (l : List Path) (fs : FS),
    diskRecords (mkdirEach fs l).2 = diskRecords fs := by
  intro l
  induction l with
  | nil => intro fs; rfl
  | cons q rest ih =>
    intro fs
    unfold mkdirEach
    split
    · rw [ih]; simp [diskRecords, List.filter_append, isRecord]
    · exact ih fs
    · rfl

theorem diskRecords_osMkdirAll (w : World) (p : Path) (fs : FS) :
    diskRecords (osMkdirAll w p fs).2 = diskRecords fs := by
  unfold osMkdirAll
  split
  · rfl
  · exact diskRecords_mkdirEach _ fs

theorem diskRecords_fsWrite (fs : FS) (p : Path) (n : Node) (hn : isRecord n = false)
    (hfree : ∀ e ∈ diskRecords fs, e.1 ≠ p) :
    diskRecords (fsWrite fs p n) = diskRecords fs := by
  induction fs with
  | nil => simp [fsWrite, diskRecords, hn]
  | cons x rest ih =>
    obtain ⟨q, m⟩ := x
    have hrest : ∀ e ∈ diskRecords rest, e.1 ≠ p := by
      intro e he
      apply hfree
      simp only [diskRecords, List.mem_filter] at he ⊢
      exact ⟨List.mem_cons_of_mem _ he.1, he.2⟩
    by_cases hq : q = p
    · have hm : isRecord m = false := by
        cases hrec : isRecord m with
        | false => rfl
        | true =>
          exfalso
          refine hfree (q, m) ?_ hq
          simp [diskRecords, hrec]
      simp [fsWrite, hq, diskRecords, hn, hm]
    · have := ih hrest
      simp only [diskRecords] at this
      simp only [fsWrite, hq, if_false, diskRecords, List.filter_cons]
      rw [this]

theorem diskRecords_filter (fs : FS) (keep : Path × Node → Bool)
    (hkeep : ∀ e ∈ diskRecords fs, keep e = true) :
    diskRecords (fs.filter keep) = diskRecords fs := by
  unfold diskRecords at *
  rw [List.filter_filter]
  apply List.filter_congr
  intro e he
  cases hrec : isRecord e.2 with
  | false => simp
  | true =>
    have := hkeep e (List.mem_filter.mpr ⟨he, hrec⟩)
    simp [this]

theorem fsLookup_none (fs : FS) (p : Path) (h : fsLookup fs p = none) :
    ∀ e ∈ fs, e.1 ≠ p := by
  induction fs with
  | nil => intro e he; cases he
  | cons x rest ih =>
    obtain ⟨q, m⟩ := x
    by_cases hq : q = p
    · simp [fsLookup, hq] at h
    · simp only [fsLookup, hq, if_false] at h
      intro e he
      rcases List.mem_cons.mp he with rfl | he
      · exact hq
      · exact ih h e he

theorem diskRecords_osWriteFile (w : World) (p : Path) (n : Node) (fs : FS)
    (hn : isRecord n = false) (hfree : ∀ e ∈ diskRecords fs, e.1 ≠ p) :
    diskRecords (osWriteFile w p n fs).2 = diskRecords fs := by
  unfold osWriteFile
  split
  · rfl
  · split
    · rfl
    · exact diskRecords_fsWrite fs p n hn hfree

theorem diskRecords_downloadPackage (w : World) (url name version : String) (s : State) :
    diskRecords (downloadPackage w url name version s).2.fs = diskRecords s.fs := by
  unfold downloadPackage
  simp only
  split
  · next e fs1 hmk =>
    have := diskRecords_osMkdirAll w (w.GetCachePath name version) s.fs
    rw [hmk] at this
    exact this
  · next fs1 hmk =>
    have hfs1 : diskRecords fs1 = diskRecords s.fs := by
      have := diskRecords_osMkdirAll w (w.GetCachePath name version) s.fs
      rw [hmk] at this
      exact this
    split
    · exact hfs1
    · next hlook =>
      have hfree : ∀ e ∈ diskRecords fs1,
          e.1 ≠ w.GetCachePath name version ++ ["package.tar.zst"] := by
        intro e he
        exact fsLookup_none fs1 _ hlook e (List.mem_filter.mp he).1
      split
      · exact hfs1
      · exact hfs1
      · split
        · exact hfs1
        · split
          · next e fs2 hwr =>
            have := diskRecords_osWriteFile w
              (w.GetCachePath name version ++ ["package.tar.zst"]) (Node.file "") fs1 rfl hfree
            rw [hwr] at this
            simp only
            rw [this, hfs1]
          · next fs2 hwr =>
            have h2 : diskRecords fs2 = diskRecords fs1 := by
              have := diskRecords_osWriteFile w
                (w.GetCachePath name version ++ ["package.tar.zst"]) (Node.file "") fs1 rfl
                hfree
              rw [hwr] at this
              exact this
            have h3 : ∀ (bytes : String), diskRecords
                (fsWrite fs2 (w.GetCachePath name version ++ ["package.tar.zst"])
                  (Node.file bytes)) = diskRecords s.fs := by
              intro bytes
              rw [diskRecords_fsWrite fs2 (w.GetCachePath name version ++ ["package.tar.zst"])
                (Node.file bytes) rfl (by rw [h2]; exact hfree), h2, hfs1]
            split
            · exact h3 _
            · exact h3 _

theorem isPrefixOf_append (a b : Path) : a.isPrefixOf (a ++ b) = true := by
  rw [List.isPrefixOf_iff_prefix]
  exact List.prefix_append a b

theorem diskRecords_foldl_write (dest : Path) :
    ∀ (entries : List (Path × Option String)) (fs : FS),
      (∀ x ∈ diskRecords fs, dest.isPrefixOf x.1 = false) →
      diskRecords
          (entries.foldl
            (fun acc e =>
              fsWrite acc (dest ++ e.1)
                (match e.2 with
                 | none => Node.dir
                 | some bytes => Node.file bytes))
            fs) = diskRecords fs := by
  intro entries
  induction entries with
  | nil => intro fs _; rfl
  | cons e rest ih =>
    intro fs hfree
    simp only [List.foldl_cons]
    have hstep : diskRecords
        (fsWrite fs (dest ++ e.1)
          (match e.2 with
           | none => Node.dir
           | some bytes => Node.file bytes)) = diskRecords fs := by
      apply diskRecords_fsWrite
      · cases e.2 <;> rfl
      · intro x hx hxp
        have := hfree x hx
        rw [hxp, isPrefixOf_append] at this
        cases this
    rw [ih _ (by rw [hstep]; exact hfree), hstep]

theorem diskRecords_extractArchive (w : World) (archivePath tempDir : Path) (s : State)
    (hfree : ∀ x ∈ diskRecords s.fs, tempDir.isPrefixOf x.1 = false) :
    diskRecords (extractArchive w archivePath tempDir s).2.fs = diskRecords s.fs := by
  unfold extractArchive writeExtracted
  exact diskRecords_foldl_write tempDir _ s.fs hfree

theorem extractArchive_installed (w : World) (archivePath tempDir : Path) (s : State) :
    (extractArchive w archivePath tempDir s).2.installedPackages = s.installedPackages := rfl

theorem diskRecords_fsRemoveTree (fs : FS) (p : Path)
    (hfree : ∀ x ∈ diskRecords fs, p.isPrefixOf x.1 = false) :
    diskRecords (fsRemoveTree fs p) = diskRecords fs := by
  unfold fsRemoveTree
  split
  · rfl
  · apply diskRecords_filter
    intro e he
    simp [hfree e he]

theorem diskRecords_osRemove (w : World) (fs : FS) (p : Path)
    (hfree : ∀ x ∈ diskRecords fs, x.1 ≠ p) :
    diskRecords (osRemove w p fs).2 = diskRecords fs := by
  unfold osRemove
  split
  · rfl
  · split
    · rfl
    · split
      · rfl
      · apply diskRecords_filter
        intro e he
        simp [hfree e he]

theorem diskRecords_osRemoveAll (w : World) (fs : FS) (p : Path)
    (hfree : ∀ x ∈ diskRecords fs, p.isPrefixOf x.1 = false) :
    diskRecords (osRemoveAll w p fs).2 = diskRecords fs := by
  unfold osRemoveAll
  split
  · rfl
  · split
    · exact diskRecords_fsRemoveTree fs p hfree
    · apply diskRecords_filter
      intro e he
      simp [hfree e he]

theorem diskRecords_installCleanup (w : World) (archivePath tempDir : Path) (s : State)
    (htemp : ∀ x ∈ diskRecords s.fs, tempDir.isPrefixOf x.1 = false)
    (harch : ∀ x ∈ diskRecords s.fs, x.1 ≠ archivePath) :
    diskRecords (installCleanup w archivePath tempDir s).fs = diskRecords s.fs := by
  unfold installCleanup
  simp only
  rw [diskRecords_osRemove _ _ _ (by rw [diskRecords_osRemoveAll _ _ _ htemp]; exact harch),
    diskRecords_osRemoveAll _ _ _ htemp]

theorem downloadPackage_path (w : World) (url name version : String) (s s2 : State)
    (archivePath : Path) (h : downloadPackage w url name version s = (.ok archivePath, s2)) :
    archivePath = w.GetCachePath name version ++ ["package.tar.zst"] := by
  unfold downloadPackage at h
  simp only at h
  split at h
  · cases h
  · split at h
    · simp only [Prod.mk.injEq, Except.ok.injEq] at h
      exact h.1.symm
    · split at h
      · cases h
      · cases h
      · split at h
        · cases h
        · split at h
          · cases h
          · split at h
            · cases h
            · simp only [Prod.mk.injEq, Except.ok.injEq] at h
              exact h.1.symm

/-! ### Install: failures -/

/-- C6 refuted on the sample environment: `app` depends on `lib` and has
a failing pre-install hook. The install of `app` fails at step 8, yet the
registry then holds `lib` and the record of `lib` is on disk. -/
theorem InstallPackage_failure_keeps_dependency :
    resultOf (InstallPackage sampleWorld 2 "app" "" false false false "" "" emptyState) =
        some (.error (.wrapped "error_pre_install_hooks" (.hookFailed "false"))) ∧
      getInstalledPackage emptyState "lib" = none ∧
      (getInstalledPackage
          (stateAfter
            (InstallPackage sampleWorld 2 "app" "" false false false "" "" emptyState))
          "lib").isSome = true ∧
      diskRecords emptyState.fs = [] ∧
      (diskRecords
          (stateAfter
            (InstallPackage sampleWorld 2 "app" "" false false false "" ""
              emptyState)).fs).map (fun e => e.1) =
        [infoPath (sampleWorld.GetInstallPath "lib" false)] := by
  decide

/-- C6, amended: when `InstallPackage` fails at steps 3 to 6 (resolve,
download, extract, manifest load) the in-memory registry and the package
records on disk are what they were before the call (no record being kept in
a temp directory or at a cache archive path); when it fails at steps 7 to 9
(dependency check, pre-install hooks, removal of the old install path) the
failing call itself adds no entry: the in-memory registry is what the
dependency check, with its nested installs, left. -/
theorem InstallPackage_failure_registry (w : World) (fuel : Nat) (packageName version : String)
    (global force dev : Bool) (arch osName : String) (s : State) (key : String) (e : Error)
    (s' : State)
    (hlayout : ∀ x ∈ diskRecords s.fs,
      (∀ label, (w.GetTempPath label).isPrefixOf x.1 = false) ∧
        (∀ n v, x.1 ≠ w.GetCachePath n v ++ ["package.tar.zst"]))
    (h : InstallPackage w fuel packageName version global force dev arch osName s =
      some (.error (.wrapped key e), s')) :
    ((key = "error_failed_to_find" ∨ key = "error_failed_to_download" ∨
        key = "error_failed_to_extract" ∨ key = "error_failed_to_load") →
      s'.installedPackages = s.installedPackages ∧ diskRecords s'.fs = diskRecords s.fs) ∧
    ((key = "error_dependency_check" ∨ key = "error_pre_install_hooks" ∨
        key = "error_failed_to_remove") →
      ∃ fuel' manifest s1 rd deps s2, fuel = fuel' + 1 ∧
        s1.installedPackages = s.installedPackages ∧
        checkDependencies w (nestedInstall w fuel') manifest dev s1 = some (rd, deps, s2) ∧
        s'.installedPackages = s2.installedPackages) := by
  obtain ⟨fuel', hfuel, hcases⟩ :=
    InstallPackage_cases w fuel packageName version global force dev arch osName s _ s' h
  rcases hcases with ⟨_, _, hr, _⟩ | ⟨e1, s1, hfind, hr, hs'⟩ | ⟨pinfo, url, s1, hfind, hrest⟩
  · cases hr
  · simp only [Result.error.injEq, Error.wrapped.injEq] at hr
    obtain ⟨hk, _⟩ := hr
    subst hk
    have hfr := findPackage_frame w packageName version (effectiveArch w arch)
      (effectiveOS w osName) s
    rw [hfind] at hfr
    refine ⟨fun _ => ⟨by rw [hs']; exact hfr.2, by rw [hs']; exact congrArg diskRecords hfr.1⟩,
      fun hk => ?_⟩
    rcases hk with hk | hk | hk <;> exact absurd hk (by decide)
  · have hfr := findPackage_frame w packageName version (effectiveArch w arch)
      (effectiveOS w osName) s
    rw [hfind] at hfr
    simp only at hfr
    rcases hrest with ⟨e2, s2, hdl, hr, hs'⟩ | ⟨archivePath, s2, s3, hdl, hsteps, hs'⟩
    · simp only [Result.error.injEq, Error.wrapped.injEq] at hr
      obtain ⟨hk, _⟩ := hr
      subst hk
      have hdi := downloadPackage_installed w url packageName pinfo.Version s1
      have hdr := diskRecords_downloadPackage w url packageName pinfo.Version s1
      rw [hdl] at hdi hdr
      simp only at hdi hdr
      refine ⟨fun _ => ⟨by rw [hs', hdi, hfr.2], by rw [hs', hdr, hfr.1]⟩, fun hk => ?_⟩
      rcases hk with hk | hk | hk <;> exact absurd hk (by decide)
    · have hdi := downloadPackage_installed w url packageName pinfo.Version s1
      have hdr := diskRecords_downloadPackage w url packageName pinfo.Version s1
      rw [hdl] at hdi hdr
      simp only at hdi hdr
      have hpath := downloadPackage_path w url packageName pinfo.Version s1 s2 archivePath hdl
      have hinst2 : s2.installedPackages = s.installedPackages := by rw [hdi, hfr.2]
      have hrec2 : diskRecords s2.fs = diskRecords s.fs := by rw [hdr, hfr.1]
      have htemp2 : ∀ x ∈ diskRecords s2.fs,
          (installTempDir w packageName).isPrefixOf x.1 = false := by
        intro x hx
        rw [hrec2] at hx
        exact (hlayout x hx).1 _
      have harch2 : ∀ x ∈ diskRecords s2.fs, x.1 ≠ archivePath := by
        intro x hx
        rw [hrec2] at hx
        rw [hpath]
        exact (hlayout x hx).2 _ _
      have hrec3 := diskRecords_extractArchive w archivePath (installTempDir w packageName) s2
        htemp2
      have hclean : diskRecords
          (installCleanup w archivePath (installTempDir w packageName)
            (extractArchive w archivePath (installTempDir w packageName) s2).2).fs =
          diskRecords s.fs := by
        rw [diskRecords_installCleanup _ _ _ _ (by rw [hrec3]; exact htemp2)
          (by rw [hrec3]; exact harch2), hrec3, hrec2]
      have hc := installSteps_cases w _ packageName global force dev archivePath _ s2 _ s3 hsteps
      rcases hc with ⟨_, hr, hs3⟩ | ⟨e3, _, hr, hs3⟩ | ⟨manifest, rd, deps, s4, _, hdeps, hc⟩
      · simp only [Result.error.injEq, Error.wrapped.injEq] at hr
        obtain ⟨hk, _⟩ := hr
        subst hk
        refine ⟨fun _ => ⟨?_, ?_⟩, fun hk => ?_⟩
        · rw [hs', installCleanup_installed, hs3, extractArchive_installed, hinst2]
        · rw [hs', hs3]; exact hclean
        · rcases hk with hk | hk | hk <;> exact absurd hk (by decide)
      · simp only [Result.error.injEq, Error.wrapped.injEq] at hr
        obtain ⟨hk, _⟩ := hr
        subst hk
        refine ⟨fun _ => ⟨?_, ?_⟩, fun hk => ?_⟩
        · rw [hs', installCleanup_installed, hs3, extractArchive_installed, hinst2]
        · rw [hs', hs3]; exact hclean
        · rcases hk with hk | hk | hk <;> exact absurd hk (by decide)
      · have hwit : ∀ s5 : State, s5.installedPackages = s4.installedPackages → s3 = s5 →
            ∃ fuel' manifest s1 rd deps s2, fuel = fuel' + 1 ∧
              s1.installedPackages = s.installedPackages ∧
              checkDependencies w (nestedInstall w fuel') manifest dev s1 =
                some (rd, deps, s2) ∧
              s'.installedPackages = s2.installedPackages := by
          intro s5 h5 h35
          refine ⟨fuel', manifest, _, rd, deps, s4, hfuel, ?_, hdeps, ?_⟩
          · rw [extractArchive_installed, hinst2]
          · rw [hs', installCleanup_installed, h35, h5]
        rcases hc with ⟨e4, _, hr, hs3⟩ | ⟨reason, _, hr, _⟩ | ⟨_, _, hr, _⟩ |
          ⟨_, hooks, e5, s5, _, hpre, hr, hs3⟩ | ⟨_, hooks, s5, _, hpre, hfiles⟩
        · simp only [Result.error.injEq, Error.wrapped.injEq] at hr
          obtain ⟨hk, _⟩ := hr
          subst hk
          refine ⟨fun hk => ?_, fun _ => hwit s4 rfl hs3⟩
          rcases hk with hk | hk | hk | hk <;> exact absurd hk (by decide)
        · cases hr
        · cases hr
        · simp only [Result.error.injEq, Error.wrapped.injEq] at hr
          obtain ⟨hk, _⟩ := hr
          subst hk
          have hfrm := executeHooks_frame w manifest.Hooks hooks.PreInstall
            (installTempDir w packageName) s4
          rw [hpre] at hfrm
          refine ⟨fun hk => ?_, fun _ => hwit s5 hfrm hs3⟩
          rcases hk with hk | hk | hk | hk <;> exact absurd hk (by decide)
        · have hfrm := executeHooks_frame w manifest.Hooks hooks.PreInstall
            (installTempDir w packageName) s4
          rw [hpre] at hfrm
          simp only at hfrm
          rcases installFiles_cases w packageName global force manifest hooks deps
            (installTempDir w packageName) s5 with
            ⟨info, hok, _⟩ | ⟨key2, e6, herr, hkeys, hreg⟩
          · rw [← hfiles] at hok
            cases hok
          · rw [← hfiles] at herr hreg
            simp only [Result.error.injEq, Error.wrapped.injEq] at herr
            obtain ⟨hk, _⟩ := herr
            subst hk
            simp only at hreg
            refine ⟨fun hk => ?_, fun _ => ?_⟩
            · rcases hkeys with h2 | h2 | h2 | h2 <;> subst h2 <;>
                rcases hk with hk | hk | hk | hk <;> exact absurd hk (by decide)
            · refine ⟨fuel', manifest, _, rd, deps, s4, hfuel, ?_, hdeps, ?_⟩
              · rw [extractArchive_installed, hinst2]
              · rw [hs', installCleanup_installed, hreg, hfrm]

/-- C6 amended, on the sample environment: the install of a package no
registry holds fails at step 3 and leaves registry and records as they were;
the install of `app` fails at step 8 and leaves the registry as its
dependency check left it. -/
theorem InstallPackage_failure_registry_witness :
    ((stateAfter
          (InstallPackage sampleWorld 1 "nosuch" "" false false false "" ""
            sampleFooState)).installedPackages = sampleFooState.installedPackages ∧
      diskRecords
          (stateAfter
            (InstallPackage sampleWorld 1 "nosuch" "" false false false "" ""
              sampleFooState)).fs = diskRecords sampleFooState.fs) ∧
    ∃ fuel' manifest s1 rd deps s2, 2 = fuel' + 1 ∧
      s1.installedPackages = emptyState.installedPackages ∧
      checkDependencies sampleWorld (nestedInstall sampleWorld fuel') manifest false s1 =
        some (rd, deps, s2) ∧
      (stateAfter
          (InstallPackage sampleWorld 2 "app" "" false false false "" ""
            emptyState)).installedPackages = s2.installedPackages :=
  ⟨(InstallPackage_failure_registry sampleWorld 1 "nosuch" "" false false false "" ""
      sampleFooState "error_failed_to_find" (.packageNotFound "nosuch")
      (stateAfter
        (InstallPackage sampleWorld 1 "nosuch" "" false false false "" "" sampleFooState))
      (by
        intro x hx
        have hx2 : x = (["local", "foo", ".criage", "package.json"],
            Node.record sampleFooInfo) := by
          have : diskRecords sampleFooState.fs =
              [(["local", "foo", ".criage", "package.json"], Node.record sampleFooInfo)] := by
            decide
          rw [this] at hx
          simpa using hx
        subst hx2
        refine ⟨fun label => ?_, fun n v => ?_⟩
        · simp [sampleWorld, List.isPrefixOf]
        · simp [sampleWorld])
      (by decide)).1 (Or.inl rfl),
    (InstallPackage_failure_registry sampleWorld 2 "app" "" false false false "" ""
      emptyState "error_pre_install_hooks" (.hookFailed "false")
      (stateAfter (InstallPackage sampleWorld 2 "app" "" false false false "" "" emptyState))
      (by intro x hx; cases hx)
      (by decide)).2 (Or.inr (Or.inl rfl))⟩

theorem fsLookup_eq_none_iff (fs : FS) (p : Path) :
    fsLookup fs p = none ↔ ∀ e ∈ fs, e.1 ≠ p := by
  constructor
  · exact fsLookup_none fs p
  · intro h
    induction fs with
    | nil => rfl
    | cons x rest ih =>
      obtain ⟨q, m⟩ := x
      have hq : q ≠ p := h (q, m) (List.mem_cons_self _ _)
      simp only [fsLookup, hq, if_false]
      exact ih (fun e he => h e (List.mem_cons_of_mem _ he))

theorem fsLookup_filter_keep (fs : FS) (keep : Path × Node → Bool) (p : Path)
    (hkeep : ∀ n, keep (p, n) = true) :
    fsLookup (fs.filter keep) p = fsLookup fs p := by
  induction fs with
  | nil => rfl
  | cons x rest ih =>
    obtain ⟨q, m⟩ := x
    by_cases hq : q = p
    · subst hq
      simp [List.filter_cons, hkeep, fsLookup]
    · cases hk : keep (q, m) with
      | true => simp [List.filter_cons, hk, fsLookup, hq, ih]
      | false => simp [List.filter_cons, hk, fsLookup, hq, ih]

theorem fsLookup_filter_drop (fs : FS) (keep : Path × Node → Bool) (p : Path)
    (hdrop : ∀ n, keep (p, n) = false) :
    fsLookup (fs.filter keep) p = none := by
  rw [fsLookup_eq_none_iff]
  intro e he hep
  obtain ⟨q, m⟩ := e
  simp only at hep
  subst hep
  have := (List.mem_filter.mp he).2
  rw [hdrop m] at this
  cases this

theorem mapGet_none {α : Type} (m : List (String × α)) (k : String) (h : mapGet m k = none) :
    ∀ e ∈ m, e.1 ≠ k := by
  induction m with
  | nil => intro e he; cases he
  | cons x rest ih =>
    obtain ⟨k1, v1⟩ := x
    by_cases hk : k1 = k
    · simp [mapGet, hk] at h
    · simp only [mapGet, hk, if_false] at h
      intro e he
      rcases List.mem_cons.mp he with rfl | he
      · exact hk
      · exact ih h e he

theorem prefix_apart (a b p : Path) (hapart : pathsApart a b = true)
    (hb : b.isPrefixOf p = true) : a.isPrefixOf p = false := by
  cases ha : a.isPrefixOf p with
  | false => rfl
  | true =>
    exfalso
    rw [List.isPrefixOf_iff_prefix] at ha hb
    simp only [pathsApart, Bool.and_eq_true, Bool.not_eq_true'] at hapart
    rcases Nat.le_total a.length b.length with hle | hle
    · have := List.prefix_of_prefix_length_le ha hb hle
      rw [← List.isPrefixOf_iff_prefix] at this
      rw [this] at hapart
      exact absurd hapart.1 (by simp)
    · have := List.prefix_of_prefix_length_le hb ha hle
      rw [← List.isPrefixOf_iff_prefix] at this
      rw [this] at hapart
      exact absurd hapart.2 (by simp)

theorem osRemoveAll_lookup_kept (w : World) (fs : FS) (root p : Path)
    (h : root.isPrefixOf p = false) :
    fsLookup (osRemoveAll w root fs).2 p = fsLookup fs p := by
  unfold osRemoveAll
  split
  · rfl
  · split
    · unfold fsRemoveTree
      split
      · rfl
      · exact fsLookup_filter_keep _ _ p (fun n => by simp [h])
    · exact fsLookup_filter_keep _ _ p (fun n => by simp [h])

theorem osRemove_lookup_kept (w : World) (fs : FS) (q p : Path) (h : p ≠ q) :
    fsLookup (osRemove w q fs).2 p = fsLookup fs p := by
  unfold osRemove
  split
  · rfl
  · split
    · rfl
    · split
      · rfl
      · exact fsLookup_filter_keep _ _ p (fun n => by simp [h])

theorem osRemove_lookup_none (w : World) (fs : FS) (q p : Path) (h : fsLookup fs p = none) :
    fsLookup (osRemove w q fs).2 p = none := by
  unfold osRemove
  split
  · exact h
  · split
    · exact h
    · split
      · exact h
      · rw [fsLookup_eq_none_iff] at h ⊢
        intro e he
        exact h e (List.mem_filter.mp he).1

theorem installCleanup_lookup_kept (w : World) (archivePath tempDir p : Path) (s : State)
    (htemp : tempDir.isPrefixOf p = false) (harch : p ≠ archivePath) :
    fsLookup (installCleanup w archivePath tempDir s).fs p = fsLookup s.fs p := by
  unfold installCleanup
  simp only
  rw [osRemove_lookup_kept w _ archivePath p harch, osRemoveAll_lookup_kept w _ tempDir p htemp]

theorem installCleanup_lookup_temp (w : World) (archivePath tempDir p : Path) (s : State)
    (hne : tempDir ≠ []) (hok : w.removeAllFault tempDir = none)
    (htemp : tempDir.isPrefixOf p = true) :
    fsLookup (installCleanup w archivePath tempDir s).fs p = none := by
  have h1 : fsLookup (osRemoveAll w tempDir s.fs).2 p = none := by
    unfold osRemoveAll
    rw [if_neg hne, hok]
    unfold fsRemoveTree
    rw [if_neg hne]
    exact fsLookup_filter_drop _ _ p (fun n => by simp [htemp])
  unfold installCleanup
  simp only
  exact osRemove_lookup_none w _ archivePath p h1

/-- C7 refuted on the sample environment: `cyc` is not installed and its
latest version 2.0.0 has a failing pre-install hook; its dependency `hub`
depends on `cyc` 1.0.0, which the dependency check installs. The install of
`cyc` returns the hook error, yet afterwards `cyc` is listed and its install
path exists. -/
theorem InstallPackage_hook_failure_after_nested_install :
    getInstalledPackage emptyState "cyc" = none ∧
      fsLookup emptyState.fs (sampleWorld.GetInstallPath "cyc" false) = none ∧
      resultOf (InstallPackage sampleWorld 3 "cyc" "" false false false "" "" emptyState) =
        some (.error (.wrapped "error_pre_install_hooks" (.hookFailed "false"))) ∧
      getInstalledPackage
          (stateAfter
            (InstallPackage sampleWorld 3 "cyc" "" false false false "" "" emptyState))
          "cyc" = some sampleCycInfo ∧
      sampleCycInfo ∈ (ListPackages sampleWorld false false
          (stateAfter
            (InstallPackage sampleWorld 3 "cyc" "" false false false "" "" emptyState))).1 ∧
      fsLookup
          (stateAfter
            (InstallPackage sampleWorld 3 "cyc" "" false false false "" "" emptyState)).fs
          (sampleWorld.GetInstallPath "cyc" false) = some Node.dir := by
  refine ⟨by decide, by decide, by decide, by decide, ?_, by decide⟩
  rw [mem_ListPackages sampleWorld sampleWorld_sortContract sampleWorld_rangeContract]
  exact ⟨"cyc", by decide, rfl⟩

/-- The dependency `veil` of `mask` carries the name `mask` in its manifest:
when the pre-install hook of `mask` fails, the registry has no entry under
the key `mask` and the install path of `mask` does not exist, yet the listing
shows an entry named `mask`, the record of `veil`. -/
theorem InstallPackage_hook_failure_lists_namesake :
    resultOf (InstallPackage extraWorld 2 "mask" "" false false false "" "" emptyState) =
        some (.error (.wrapped "error_pre_install_hooks" (.hookFailed "false"))) ∧
      getInstalledPackage
          (stateAfter
            (InstallPackage extraWorld 2 "mask" "" false false false "" "" emptyState))
          "mask" = none ∧
      (stateAfter
          (InstallPackage extraWorld 2 "mask" "" false false false "" ""
            emptyState)).installedPackages.map (fun e => (e.1, e.2.Name, e.2.Version)) =
        [("veil", "mask", "9.9.9")] ∧
      fsLookup
          (stateAfter
            (InstallPackage extraWorld 2 "mask" "" false false false "" "" emptyState)).fs
          (extraWorld.GetInstallPath "mask" false) = none := by
  decide

/-- Where `os.RemoveAll` fails on the temp extraction directory, the deferred
cleanup, which ignores the error, leaves the directory on disk after the
pre-install hook of `app` has failed. -/
theorem InstallPackage_hook_failure_keeps_temp_dir_on_fault :
    resultOf (InstallPackage stuckWorld 2 "app" "" false false false "" "" emptyState) =
        some (.error (.wrapped "error_pre_install_hooks" (.hookFailed "false"))) ∧
      fsLookup
          (stateAfter
            (InstallPackage stuckWorld 2 "app" "" false false false "" "" emptyState)).fs
          (installTempDir stuckWorld "app") = some Node.dir ∧
      fsLookup
          (stateAfter
            (InstallPackage sampleWorld 2 "app" "" false false false "" "" emptyState)).fs
          (installTempDir sampleWorld "app") = none := by
  decide

/-- C7, amended: for a package that is not installed, when the run reaches
the pre-install hooks and a hook command fails, and the steps up to that
failure (the nested installs of the dependency check and the hook commands
that ran) have left the registry without an entry for the package, under its
name as key or with its name recorded, and have left the install path as it
was, then `InstallPackage` returns the hook error, nothing at or below the
install path has been created, modified or deleted (whatever `force` is), the
registry has no entry for the package and `ListPackages` returns none, by key
or by recorded name; and when the deferred removal of the temp extraction
directory succeeds, nothing is left at or below it. -/
theorem InstallPackage_pre_install_hook_failure (w : World) (hsort : SortContract w)
    (hrange : RangeContract w) (fuel : Nat) (packageName version : String)
    (global force dev : Bool) (arch osName : String) (s : State)
    (packageInfo : PackageInfo) (url : String) (s1 : State) (archivePath : Path) (s2 : State)
    (manifest : PackageManifest) (deps : GoMap) (s4 : State) (hooks : PackageHooks)
    (e : Error) (s5 : State)
    (hnot : getInstalledPackage s packageName = none)
    (hfind : findPackage w packageName version (effectiveArch w arch) (effectiveOS w osName) s =
      (.ok (packageInfo, url), s1))
    (hdl : downloadPackage w url packageName packageInfo.Version s1 = (.ok archivePath, s2))
    (hext : (extractArchive w archivePath (installTempDir w packageName) s2).1 = true)
    (hman : loadManifestFromDir w (installTempDir w packageName)
      (extractArchive w archivePath (installTempDir w packageName) s2).2.fs = .ok manifest)
    (hdeps : checkDependencies w (nestedInstall w fuel) manifest dev
      (extractArchive w archivePath (installTempDir w packageName) s2).2 = some (.ok, deps, s4))
    (hhooks : manifest.Hooks = some hooks)
    (hpre : executeHooks w manifest.Hooks hooks.PreInstall (installTempDir w packageName) s4 =
      (some e, s5))
    (hkept : getInstalledPackage s4 packageName = none)
    (hnames : ∀ k info, (k, info) ∈ s4.installedPackages → info.Name ≠ packageName)
    (hpathkept : ∀ p, (w.GetInstallPath packageName global).isPrefixOf p = true →
      fsLookup s5.fs p = fsLookup s.fs p)
    (hapart : pathsApart (installTempDir w packageName)
      (w.GetInstallPath packageName global) = true)
    (harch : (w.GetInstallPath packageName global).isPrefixOf archivePath = false) :
    ∃ s', InstallPackage w (fuel + 1) packageName version global force dev arch osName s =
        some (.error (.wrapped "error_pre_install_hooks" e), s') ∧
      (∀ p, (w.GetInstallPath packageName global).isPrefixOf p = true →
        fsLookup s'.fs p = fsLookup s.fs p) ∧
      getInstalledPackage s' packageName = none ∧
      (∀ g, ∀ info ∈ (ListPackages w g false s').1,
        info.Name ≠ packageName ∧
          ∃ k, k ≠ packageName ∧ (k, info) ∈ s'.installedPackages) ∧
      (w.removeAllFault (installTempDir w packageName) = none →
        ∀ p, (installTempDir w packageName).isPrefixOf p = true → fsLookup s'.fs p = none) := by
  have hshort : alreadyInstalled s packageName version = false := by
    simp [alreadyInstalled, hnot]
  have hfind' : findPackage w packageName version (if arch = "" then w.GOARCH else arch)
      (if osName = "" then w.GOOS else osName) s = (.ok (packageInfo, url), s1) := hfind
  have hext' : extractArchive w archivePath (installTempDir w packageName) s2 =
      (true, (extractArchive w archivePath (installTempDir w packageName) s2).2) := by
    rw [← hext]
  have hdeps' : checkDependencies w
      (fun depName depVersion st =>
        InstallPackage w fuel depName depVersion false false false "" "" st) manifest dev
      (extractArchive w archivePath (installTempDir w packageName) s2).2 =
      some (.ok, deps, s4) := hdeps
  have hsteps : installSteps w
      (fun depName depVersion st =>
        InstallPackage w fuel depName depVersion false false false "" "" st)
      packageName global force dev archivePath (installTempDir w packageName) s2 =
      some (.error (.wrapped "error_pre_install_hooks" e), s5) := by
    unfold installSteps
    rw [hext']
    simp only [hman, hdeps', hhooks]
    rw [hhooks] at hpre
    rw [hpre]
  have hrun : InstallPackage w (fuel + 1) packageName version global force dev arch osName s =
      some (.error (.wrapped "error_pre_install_hooks" e),
        installCleanup w archivePath (installTempDir w packageName) s5) := by
    unfold InstallPackage
    simp only [hshort, Bool.and_false, Bool.false_eq_true, if_false, hfind', hdl, hsteps]
  have hfrm := executeHooks_frame w manifest.Hooks hooks.PreInstall
    (installTempDir w packageName) s4
  rw [hpre] at hfrm
  simp only at hfrm
  have hne : installTempDir w packageName ≠ [] := by
    intro h0
    rw [h0] at hapart
    simp [pathsApart, List.isPrefixOf] at hapart
  have hregs : (installCleanup w archivePath (installTempDir w packageName) s5).installedPackages =
      s4.installedPackages := by
    rw [installCleanup_installed, hfrm]
  have hreg : getInstalledPackage
      (installCleanup w archivePath (installTempDir w packageName) s5) packageName = none := by
    unfold getInstalledPackage
    rw [hregs]
    exact hkept
  refine ⟨_, hrun, ?_, hreg, ?_, ?_⟩
  · intro p hp
    have htemp := prefix_apart _ _ p hapart hp
    have hpa : p ≠ archivePath := by
      intro h0
      rw [h0, harch] at hp
      cases hp
    rw [installCleanup_lookup_kept w archivePath _ p s5 htemp hpa]
    exact hpathkept p hp
  · intro g info hinfo
    obtain ⟨k, hk, _⟩ := (mem_ListPackages w hsort hrange g _ info).1 hinfo
    refine ⟨hnames k info (by rw [← hregs]; exact hk), k, ?_, hk⟩
    exact fun h0 => mapGet_none _ _ hreg (k, info) hk h0
  · intro hremoved p hp
    exact installCleanup_lookup_temp w archivePath _ p s5 hne hremoved hp

theorem fsLookup_none_of_apart (fs : FS) (root : Path)
    (h : ∀ e ∈ fs, root.isPrefixOf e.1 = false) (p : Path) (hp : root.isPrefixOf p = true) :
    fsLookup fs p = none := by
  rw [fsLookup_eq_none_iff]
  intro e he hep
  have := h e he
  rw [hep, hp] at this
  cases this

/-- C7 amended, on the sample environment: `app` is not installed, its
dependency `lib` installs, its pre-install hook fails; the call returns the
hook error, nothing is at or below the install path of `app`, the registry
has no entry for `app`, and nothing is left of the temp directory. -/
theorem InstallPackage_pre_install_hook_failure_witness :
    ∃ s', InstallPackage sampleWorld 2 "app" "" false true false "" "" emptyState =
        some (.error (.wrapped "error_pre_install_hooks" (.hookFailed "false")), s') ∧
      (∀ p, (sampleWorld.GetInstallPath "app" false).isPrefixOf p = true →
        fsLookup s'.fs p = fsLookup emptyState.fs p) ∧
      getInstalledPackage s' "app" = none ∧
      (∀ g, ∀ info ∈ (ListPackages sampleWorld g false s').1,
        info.Name ≠ "app" ∧ ∃ k, k ≠ "app" ∧ (k, info) ∈ s'.installedPackages) ∧
      (sampleWorld.removeAllFault (installTempDir sampleWorld "app") = none →
        ∀ p, (installTempDir sampleWorld "app").isPrefixOf p = true →
          fsLookup s'.fs p = none) :=
  InstallPackage_pre_install_hook_failure sampleWorld sampleWorld_sortContract
    sampleWorld_rangeContract 1 "app" "" false true false "" "" emptyState
    sampleAppInfo "http://mid/api/v1/download/app/1.0.0/app-1.0.0.tar.zst"
    (findPackage sampleWorld "app" "" "amd64" "linux" emptyState).2
    ["cache", "app", "1.0.0", "package.tar.zst"] sampleAppDownloaded
    sampleAppManifest (some [("lib", "1.0.0")]) sampleAppChecked ⟨["false"], [], [], []⟩
    (.hookFailed "false")
    (executeHooks sampleWorld sampleAppManifest.Hooks ["false"]
      (installTempDir sampleWorld "app") sampleAppChecked).2
    (by decide) (by decide) (by decide) (by decide) (by decide) (by decide) (by decide)
    (by decide) (by decide)
    (fun k info hk => by
      have hreg : sampleAppChecked.installedPackages =
          [("lib", { sampleFooInfo with
            Name := "lib", Version := "1.0.0", InstallPath := ["local", "lib"] })] := by
        decide
      rw [hreg] at hk
      simp only [List.mem_singleton, Prod.mk.injEq] at hk
      rw [hk.2]
      decide)
    (fun p hp => by
      rw [fsLookup_none_of_apart
        (executeHooks sampleWorld sampleAppManifest.Hooks ["false"]
          (installTempDir sampleWorld "app") sampleAppChecked).2.fs ["local", "app"]
        (by decide) p hp]
      rfl)
    (by decide) (by decide)

/-! ### Uninstall never completes -/

theorem removePackageInfo_after_removal (w : World) (packageName : String) (s1 : State)
    (info : PackageInfo) (hinst : getInstalledPackage s1 packageName = some info)
    (hpath : info.InstallPath ≠ []) :
    ∃ e, (removePackageInfo w packageName
        { s1 with fs := fsRemoveTree s1.fs info.InstallPath }).1 = some e := by
  have hget : getInstalledPackage { s1 with fs := fsRemoveTree s1.fs info.InstallPath }
      packageName = some info := hinst
  have hgone : fsLookup (fsRemoveTree s1.fs info.InstallPath) (infoPath info.InstallPath) =
      none := by
    unfold fsRemoveTree
    rw [if_neg hpath]
    exact fsLookup_filter_drop _ _ _ (fun n => by simp [infoPath, isPrefixOf_append])
  unfold removePackageInfo
  rw [hget]
  simp only
  unfold osRemove
  cases w.removeFault (infoPath info.InstallPath) with
  | some e => exact ⟨e, rfl⟩
  | none =>
    simp only
    rw [hgone]
    exact ⟨_, rfl⟩

theorem uninstallSteps_not_ok (w : World) (packageName : String) (info : PackageInfo)
    (hooks : Option PackageHooks) (s1 : State)
    (hinst : getInstalledPackage s1 packageName = some info)
    (hpath : info.InstallPath ≠ []) :
    (uninstallSteps w packageName info hooks s1).1 ≠ .ok := by
  unfold uninstallSteps osRemoveAll
  rw [if_neg hpath]
  cases hfault : w.removeAllFault info.InstallPath with
  | some x =>
    obtain ⟨e, keep⟩ := x
    simp
  | none =>
    simp only
    obtain ⟨e, he⟩ := removePackageInfo_after_removal w packageName s1 info hinst hpath
    cases hrem : removePackageInfo w packageName
        { s1 with fs := fsRemoveTree s1.fs info.InstallPath } with
    | mk r s3 =>
      rw [hrem] at he
      simp only at he
      subst he
      simp

theorem UninstallPackage_not_ok (w : World) (packageName : String) (global purge : Bool)
    (s : State) (info : PackageInfo) (hinst : getInstalledPackage s packageName = some info)
    (hpath : info.InstallPath ≠ []) :
    (UninstallPackage w packageName global purge s).1 ≠ .ok := by
  unfold UninstallPackage
  rw [hinst]
  simp only
  apply uninstallSteps_not_ok _ _ _ _ _ _ hpath
  split
  · unfold getInstalledPackage
    rw [executeHooks_frame w _ _ _ s]
    exact hinst
  · exact hinst

/-! ### Uninstall of a package that is not installed -/

/-- C11: when the registry has no entry for the name, `UninstallPackage`
returns the not-installed error and leaves the whole state as it is (no
event, so no hook is run; no filesystem change; no registry change),
whatever `global` and `purge` are. -/
theorem UninstallPackage_not_installed (w : World) (packageName : String)
    (global purge : Bool) (s : State)
    (h : getInstalledPackage s packageName = none) :
    UninstallPackage w packageName global purge s =
      (.error (.notInstalled packageName), s) := by
  unfold UninstallPackage
  rw [h]

/-- C11, on the sample state in which only `foo` is installed: the
uninstall of `lib` fails and changes nothing. -/
theorem UninstallPackage_not_installed_witness :
    getInstalledPackage sampleFooState "lib" = none ∧
      UninstallPackage sampleWorld "lib" true true sampleFooState =
        (.error (.notInstalled "lib"), sampleFooState) :=
  ⟨by decide, UninstallPackage_not_installed sampleWorld "lib" true true sampleFooState
    (by decide)⟩

/-! ### Rate limiter -/

/-- C13, evaluated in logical time: five consecutive `Wait` calls on a
fresh `NewRateLimiter(100)` take no time, and three consecutive `Wait` calls
on a fresh `NewRateLimiter(2)` take 500 ms (two permits are in the buffer,
the third comes with the first tick), which is less than one second. -/
theorem RateLimiter_three_waits_take_half_a_second :
    elapsedNanos 100 5 = some 0 ∧
      elapsedNanos 2 3 = some 500000000 ∧
      (500000000 : Nat) < 1000000000 := by
  decide

/-- C14: `NewRateLimiter` replaces a non-positive rate by 10 and so promises
a limiter for every `n`, but at two thousand million requests per second the
refill interval `time.Second / 2000000000` is zero, `time.NewTicker` panics,
and no limiter is built: `construct(n)` has no state to start from. -/
theorem NewRateLimiter_panics_above_one_per_nanosecond :
    NewRateLimiter 2000000000 = none := by
  decide

/-- The rates at which no limiter is built are exactly those above one
thousand million requests per second. -/
theorem NewRateLimiter_none_iff (n : Int) : NewRateLimiter n = none ↔ 1000000000 < n := by
  have hpos : (0 : Int) < (if n ≤ 0 then 10 else n) := by
    split <;> omega
  constructor
  · intro h
    by_contra hle
    have hle' : (if n ≤ 0 then (10 : Int) else n) ≤ 1000000000 := by
      split <;> omega
    have : (1 : Int) ≤ 1000000000 / (if n ≤ 0 then 10 else n) :=
      (Int.le_ediv_iff_mul_le hpos).mpr (by omega)
    have hint : ¬ ((1000000000 : Int) / (if n ≤ 0 then 10 else n) ≤ 0) := by omega
    simp [NewRateLimiter, hint] at h
  · intro h
    have hn : ¬ n ≤ 0 := by omega
    have hz : (1000000000 : Int) / n = 0 := Int.ediv_eq_zero_of_lt (by omega) h
    simp [NewRateLimiter, hn, hz]

theorem reachable_invariant (start : RateLimiter) (hstart : start.count ≤ start.capacity) :
    ∀ rl, Reachable start rl → rl.count ≤ rl.capacity ∧ rl.capacity = start.capacity := by
  intro rl hr
  induction hr with
  | construct => exact ⟨hstart, rfl⟩
  | tick _ ih =>
    unfold tick
    split
    · exact ⟨by simp only; omega, ih.2⟩
    · exact ih
  | wait _ hw ih =>
    unfold Wait at hw
    split at hw
    · simp only [Option.some.injEq] at hw
      subst hw
      exact ⟨by simp only; omega, ih.2⟩
    · cases hw

/-- The permit count model where the limiter is built: for every `n` up to
one thousand million, `NewRateLimiter(n)` builds a limiter that starts with count = capacity, where capacity = n if
n > 0 and 10 otherwise; in every state reachable by ticks and waits the count
is at most the capacity, which does not change; a tick adds exactly one
permit when count < capacity and leaves the state unchanged when count =
capacity; a wait proceeds iff count > 0 and then removes exactly one permit. -/
theorem RateLimiter_permit_invariant (n : Int) (hn : n ≤ 1000000000) :
    ∃ start, NewRateLimiter n = some start ∧
      start.count = start.capacity ∧
      (start.capacity : Int) = (if n > 0 then n else 10) ∧
      (∀ rl, Reachable start rl → rl.count ≤ rl.capacity ∧ rl.capacity = start.capacity) ∧
      (∀ rl, rl.count < rl.capacity → tick rl = { rl with count := rl.count + 1 }) ∧
      (∀ rl, rl.count = rl.capacity → tick rl = rl) ∧
      (∀ rl, (Wait rl).isSome = true ↔ 0 < rl.count) ∧
      (∀ rl rl', Wait rl = some rl' →
        rl' = { rl with count := rl.count - 1 } ∧ rl'.count + 1 = rl.count) := by
  have hpos : (0 : Int) < (if n ≤ 0 then 10 else n) := by
    split <;> omega
  have hle : (if n ≤ 0 then (10 : Int) else n) ≤ 1000000000 := by
    split <;> omega
  have hint : ¬ ((1000000000 : Int) / (if n ≤ 0 then 10 else n) ≤ 0) := by
    have : (1 : Int) ≤ 1000000000 / (if n ≤ 0 then 10 else n) :=
      (Int.le_ediv_iff_mul_le hpos).mpr (by omega)
    omega
  refine ⟨{ capacity := (if n ≤ 0 then (10 : Int) else n).toNat
            count := (if n ≤ 0 then (10 : Int) else n).toNat
            interval := ((1000000000 : Int) / (if n ≤ 0 then 10 else n)).toNat }, ?_, rfl, ?_,
    ?_, ?_, ?_, ?_, ?_⟩
  · simp only [NewRateLimiter, hint, if_false]
  · simp only
    rw [Int.toNat_of_nonneg (le_of_lt hpos)]
    by_cases h0 : n ≤ 0
    · have : ¬ n > 0 := by omega
      simp [h0, this]
    · have : n > 0 := by omega
      simp [h0, this]
  · exact reachable_invariant _ (le_refl _)
  · intro rl h
    simp [tick, h]
  · intro rl h
    have : ¬ rl.count < rl.capacity := by omega
    simp [tick, this]
  · intro rl
    unfold Wait
    split <;> simp_all
  · intro rl rl' h
    unfold Wait at h
    split at h
    · simp only [Option.some.injEq] at h
      subst h
      exact ⟨rfl, by simp only; omega⟩
    · cases h

/-- The permit count model at five requests per second, the rate the
package manager asks for: the limiter starts with five permits of five; after five waits a
sixth blocks, and a tick lets one more through. -/
theorem RateLimiter_permit_invariant_witness :
    (∃ start, NewRateLimiter 5 = some start ∧ start.count = start.capacity ∧
      (start.capacity : Int) = (if (5 : Int) > 0 then 5 else 10)) ∧
    NewRateLimiter 5 = some ⟨5, 5, 200000000⟩ ∧
    Wait ⟨5, 0, 200000000⟩ = none ∧
    Wait (tick ⟨5, 0, 200000000⟩) = some ⟨5, 0, 200000000⟩ := by
  refine ⟨?_, by decide, by decide, by decide⟩
  obtain ⟨start, h1, h2, h3, _⟩ := RateLimiter_permit_invariant 5 (by decide)
  exact ⟨start, h1, h2, h3⟩

/-! ### Update -/

/-- C20: `UpdatePackage` fails when the name has no registry entry; fails
when resolving the latest version for the running platform fails; returns
success with registry and filesystem unchanged when the resolved version
string equals the installed one; and otherwise is exactly
`InstallPackage(name, latestVersion, global of the entry, force=true,
dev=false, "", "")`, run after the lookup requests. -/
theorem UpdatePackage_spec (w : World) (fuel : Nat) (packageName : String) (s : State) :
    (getInstalledPackage s packageName = none →
      UpdatePackage w fuel packageName s =
        some (.error (.updateNotInstalled packageName), s)) ∧
    (∀ info e s1, getInstalledPackage s packageName = some info →
      findPackage w packageName "" w.GOARCH w.GOOS s = (.error e, s1) →
      UpdatePackage w fuel packageName s = some (.error (.findLatest e), s1) ∧
        s1.installedPackages = s.installedPackages ∧ s1.fs = s.fs) ∧
    (∀ info latest url s1, getInstalledPackage s packageName = some info →
      findPackage w packageName "" w.GOARCH w.GOOS s = (.ok (latest, url), s1) →
      latest.Version = info.Version →
      UpdatePackage w fuel packageName s = some (.ok, s1) ∧
        s1.installedPackages = s.installedPackages ∧ s1.fs = s.fs) ∧
    (∀ info latest url s1, getInstalledPackage s packageName = some info →
      findPackage w packageName "" w.GOARCH w.GOOS s = (.ok (latest, url), s1) →
      latest.Version ≠ info.Version →
      UpdatePackage w fuel packageName s =
        InstallPackage w fuel packageName latest.Version info.Global true false "" "" s1) := by
  have hfr := findPackage_frame w packageName "" w.GOARCH w.GOOS s
  refine ⟨?_, ?_, ?_, ?_⟩
  · intro h
    simp [UpdatePackage, h]
  · intro info e s1 h hfind
    rw [hfind] at hfr
    exact ⟨by simp [UpdatePackage, h, hfind], hfr.2, hfr.1⟩
  · intro info latest url s1 h hfind hv
    rw [hfind] at hfr
    exact ⟨by simp [UpdatePackage, h, hfind, hv], hfr.2, hfr.1⟩
  · intro info latest url s1 h hfind hv
    simp [UpdatePackage, h, hfind, hv]

/-- C20, on the sample registry whose latest `foo` is 2.0.0: with 2.0.0
installed the update is a success that changes neither registry nor
filesystem; with 1.0.0 installed it is the forced install of 2.0.0, after
which 2.0.0 is the installed version. -/
theorem UpdatePackage_spec_witness :
    (resultOf (UpdatePackage sampleWorld 1 "foo" sampleFooState) = some .ok ∧
      (stateAfter (UpdatePackage sampleWorld 1 "foo" sampleFooState)).installedPackages =
        sampleFooState.installedPackages ∧
      (stateAfter (UpdatePackage sampleWorld 1 "foo" sampleFooState)).fs =
        sampleFooState.fs) ∧
    UpdatePackage sampleWorld 1 "foo" sampleFooOldState =
      InstallPackage sampleWorld 1 "foo" "2.0.0" false true false "" ""
        (findPackage sampleWorld "foo" "" "amd64" "linux" sampleFooOldState).2 ∧
    (getInstalledPackage sampleFooOldState "foo").map (fun i => i.Version) = some "1.0.0" ∧
    (getInstalledPackage (stateAfter (UpdatePackage sampleWorld 1 "foo" sampleFooOldState))
      "foo").map (fun i => i.Version) = some "2.0.0" :=
  ⟨by decide,
    (UpdatePackage_spec sampleWorld 1 "foo" sampleFooOldState).2.2.2
      { sampleFooInfo with Version := "1.0.0" }
      (sampleVersionInfo) "http://mid/api/v1/download/foo/2.0.0/foo-2.0.0.tar.zst"
      (findPackage sampleWorld "foo" "" "amd64" "linux" sampleFooOldState).2
      (by decide) (by decide) (by decide),
    by decide, by decide⟩

/-! ### Listing a scope -/

/-- C12: `ListPackages(g, false)` changes nothing and sends no request; its
result is a rearrangement of the installed entries whose `Global` flag equals
`g` (so each of them once, and no entry of the other scope); and in the
result no entry comes before one with a smaller name, names being compared
as strings, character by character (which for UTF-8 is the byte order). -/
theorem ListPackages_scope_sorted (w : World) (hsort : SortContract w)
    (hrange : RangeContract w) (global : Bool) (s : State) :
    (ListPackages w global false s).2 = s ∧
    (ListPackages w global false s).1.Perm
      ((s.installedPackages.map Prod.snd).filter (fun i => i.Global == global)) ∧
    (∀ i ∈ (ListPackages w global false s).1, i.Global = global) ∧
    List.Pairwise (fun a b : PackageInfo => a.Name ≤ b.Name)
      (ListPackages w global false s).1 := by
  have hperm : (ListPackages w global false s).1.Perm
      ((s.installedPackages.map Prod.snd).filter (fun i => i.Global == global)) := by
    unfold ListPackages
    simp only
    rw [listLoop_plain]
    refine ((hsort PackageInfo _ _).1).trans ?_
    exact ((hrange PackageInfo s.installedPackages).map Prod.snd).filter _
  refine ⟨?_, hperm, ?_, ?_⟩
  · unfold ListPackages
    simp only
    rw [listLoop_plain]
  · intro i hi
    have := (hperm.mem_iff).1 hi
    simpa using (List.mem_filter.mp this).2
  · unfold ListPackages
    simp only
    have h := (hsort PackageInfo (fun a b => decide (a.Name < b.Name))
      (listLoop w global false (w.rangeOrder s.installedPackages) s).1).2
      (by
        intro a b c hab hbc
        simp only [decide_eq_false_iff_not, not_lt] at *
        exact le_trans hbc hab)
      (by
        intro a b hab
        simp only [decide_eq_true_eq, decide_eq_false_iff_not] at *
        exact lt_asymm hab)
    refine h.imp ?_
    intro a b hab
    simpa using hab

theorem sampleMixedState_local :
    (ListPackages sampleWorld false false sampleMixedState).1 =
      [sampleInfo "Zed" false, sampleInfo "apple" false] := by
  simp [ListPackages, listLoop, sampleWorld, stableSort, sampleMixedState, sampleInfo,
    List.insertionSort, List.orderedInsert]
  decide

/-- C12, on the sample registry with `apple` and `Zed` local and `glob`
global: the local listing is `Zed`, `apple` (upper case sorts first) and
does not hold `glob`. -/
theorem ListPackages_scope_sorted_witness :
    ((ListPackages sampleWorld false false sampleMixedState).2 = sampleMixedState ∧
      (ListPackages sampleWorld false false sampleMixedState).1.Perm
        ((sampleMixedState.installedPackages.map Prod.snd).filter
          (fun i => i.Global == false)) ∧
      (∀ i ∈ (ListPackages sampleWorld false false sampleMixedState).1, i.Global = false) ∧
      List.Pairwise (fun a b : PackageInfo => a.Name ≤ b.Name)
        (ListPackages sampleWorld false false sampleMixedState).1) ∧
    (ListPackages sampleWorld false false sampleMixedState).1.map (fun i => i.Name) =
      ["Zed", "apple"] :=
  ⟨ListPackages_scope_sorted sampleWorld sampleWorld_sortContract sampleWorld_rangeContract
      false sampleMixedState,
    by rw [sampleMixedState_local]; rfl⟩

/-! ### Registry calls and the rate limiter -/

theorem registry_requests_sent_directly (w : World) (s : State) (repo : Repository)
    (name version arch osName query url token : String) :
    (findInRepository w repo name version arch osName s).2.trace =
        s.trace ++ lookupRequests w repo name ∧
      (searchInRepository w repo query s).2.trace =
        s.trace ++ requestsSent
          (w.httpJSON "GET" (repo.URL ++ "/api/v1/search?q=" ++ query) (bearer repo.AuthToken)
            none)
          (Event.http "GET" (repo.URL ++ "/api/v1/search?q=" ++ query)
            (bearer repo.AuthToken)) ∧
      (GetRepositoryInfo w url s).2.trace =
        s.trace ++ requestsSent (w.httpJSON "GET" (url ++ "/api/v1/") "" none)
          (Event.http "GET" (url ++ "/api/v1/") "") ∧
      (GetRepositoryStats w url s).2.trace =
        s.trace ++ requestsSent (w.httpJSON "GET" (url ++ "/api/v1/stats") "" none)
          (Event.http "GET" (url ++ "/api/v1/stats") "") ∧
      (RefreshRepositoryIndex w url token s).2.trace =
        s.trace ++ requestsSent
          (w.httpJSON "POST" (url ++ "/api/v1/refresh") (bearer token) none)
          (Event.http "POST" (url ++ "/api/v1/refresh") (bearer token)) :=
  ⟨rfl, rfl, rfl, rfl, rfl⟩

/-- C15, evaluated: the install of `foo` on a fresh manager sends three
requests (two package lookups and the download), a search, a server info
request and an index refresh send one each, and no `Wait` on the rate limiter
comes before any of them: the trace holds no wait at all. -/
theorem requests_sent_without_wait :
    (stateAfter
        (InstallPackage sampleWorld 1 "foo" "" false false false "" "" emptyState)).trace =
      [Event.http "GET" "http://high/api/v1/packages/foo" "",
        Event.http "GET" "http://mid/api/v1/packages/foo" "Bearer token",
        Event.http "GET" "http://mid/api/v1/download/foo/2.0.0/foo-2.0.0.tar.zst" ""] ∧
    (searchInRepository troubledWorld (sampleServer "up") "foo" emptyState).2.trace =
      [Event.http "GET" "http://up/api/v1/search?q=foo" "Bearer token"] ∧
    (GetRepositoryInfo troubledWorld "http://up" emptyState).2.trace =
      [Event.http "GET" "http://up/api/v1/" ""] ∧
    (RefreshRepositoryIndex troubledWorld "http://up" "token" emptyState).2.trace =
      [Event.http "POST" "http://up/api/v1/refresh" "Bearer token"] ∧
    Event.wait ∉
      (stateAfter
        (InstallPackage sampleWorld 1 "foo" "" false false false "" "" emptyState)).trace := by
  decide

/-! ### Registry calls: the envelope and the status -/

/-- C16 refuted on the sample servers: the server `down` answers the
package lookup with status 404 and the search with status 500, both with an
envelope with success=false and an error text; the calls fail with the
reason of the status, not with the error text of the envelope. -/
theorem lookup_reports_status_not_envelope_error :
    troubledWorld.httpDo "GET" (lookupURL (sampleServer "down") "foo")
        (bearer (sampleServer "down").AuthToken) =
      .response 404 ⟨some ⟨false, "", .notObject, "package is withdrawn"⟩, "", false⟩ ∧
    (findInRepository troubledWorld (sampleServer "down") "foo" "" "amd64" "linux"
        emptyState).1 = .error .notFoundInRepository ∧
    troubledWorld.httpJSON "GET" "http://down/api/v1/search?q=foo" "Bearer token" none =
      .response 500 (some (sampleRefusal "database is down")) ∧
    (searchInRepository troubledWorld (sampleServer "down") "foo" emptyState).1 =
      .error (.searchStatus 500) := by
  decide

/-- C16, amended: for every registry call and every response whose body
decodes to an envelope with success=false and error text `text`, the call
fails; its reason is the error text when the status is the one the call
expects (200, and 201 for upload), and otherwise the reason of the status
(with 401 reported as an invalid token by upload and index refresh). -/
theorem registry_calls_on_refusal (w : World) (s : State) (text : String) (status : Nat) :
    (∀ repo name version arch osName body (env : ApiResponse),
      w.httpDo "GET" (lookupURL repo name) (bearer repo.AuthToken) = .response status body →
      body.envelope = some env → env.Success = false → env.Error = text →
      (findInRepository w repo name version arch osName s).1 =
        if status = 200 then .error (.apiError text) else .error .notFoundInRepository) ∧
    (∀ repo query (env : JsonEnvelope),
      w.httpJSON "GET" (repo.URL ++ "/api/v1/search?q=" ++ query) (bearer repo.AuthToken)
        none = .response status (some env) →
      env.Success = false → env.Error = text →
      (searchInRepository w repo query s).1 =
        if status = 200 then .error (.apiError text) else .error (.searchStatus status)) ∧
    (∀ registryURL token archivePath manifest file (env : JsonEnvelope),
      fsLookup s.fs archivePath = some file → file ≠ Node.dir →
      w.httpJSON "POST" (registryURL ++ "/api/v1/upload") (bearer token) (some file) =
        .response status (some env) →
      env.Success = false → env.Error = text →
      (uploadPackage w registryURL token archivePath manifest s).1 =
        if status = 401 then some .invalidToken
        else if status = 201 then some (.uploadFailed text) else some (.uploadStatus status)) ∧
    (∀ repositoryURL (env : JsonEnvelope),
      w.httpJSON "GET" (repositoryURL ++ "/api/v1/") "" none = .response status (some env) →
      env.Success = false → env.Error = text →
      (GetRepositoryInfo w repositoryURL s).1 =
        if status = 200 then .error (.operationFailed text)
        else .error (.serverError status)) ∧
    (∀ repositoryURL (env : JsonEnvelope),
      w.httpJSON "GET" (repositoryURL ++ "/api/v1/stats") "" none =
        .response status (some env) →
      env.Success = false → env.Error = text →
      (GetRepositoryStats w repositoryURL s).1 =
        if status = 200 then .error (.operationFailed text)
        else .error (.serverError status)) ∧
    (∀ repositoryURL authToken (env : JsonEnvelope),
      w.httpJSON "POST" (repositoryURL ++ "/api/v1/refresh") (bearer authToken) none =
        .response status (some env) →
      env.Success = false → env.Error = text →
      (RefreshRepositoryIndex w repositoryURL authToken s).1 =
        if status = 401 then some .invalidToken
        else if status = 200 then some (.operationFailed text)
        else some (.serverError status)) := by
  refine ⟨?_, ?_, ?_, ?_, ?_, ?_⟩
  · intro repo name version arch osName body env hresp henv hfail htext
    by_cases hs : status = 200
    · simp [findInRepository, lookupResult, decodeLookup, hresp, henv, hfail, htext, hs]
    · simp [findInRepository, lookupResult, decodeLookup, hresp, hs]
  · intro repo query env hresp hfail htext
    by_cases hs : status = 200
    · simp [searchInRepository, decodeSearch, hresp, hfail, htext, hs]
    · simp [searchInRepository, decodeSearch, hresp, hs]
  · intro registryURL token archivePath manifest file env hfile hnd hresp hfail htext
    have hup : (uploadPackage w registryURL token archivePath manifest s).1 =
        decodeUpload (.response status (some env)) := by
      unfold uploadPackage
      rw [hfile]
      cases file with
      | dir => exact absurd rfl hnd
      | file bytes => simp only [hresp]
      | record info => simp only [hresp]
    rw [hup]
    by_cases h401 : status = 401
    · simp [decodeUpload, h401]
    · by_cases h201 : status = 201
      · simp [decodeUpload, h201, hfail, htext]
      · simp [decodeUpload, h401, h201]
  · intro repositoryURL env hresp hfail htext
    by_cases hs : status = 200
    · simp [GetRepositoryInfo, decodeInfo, hresp, hfail, htext, hs]
    · simp [GetRepositoryInfo, decodeInfo, hresp, hs]
  · intro repositoryURL env hresp hfail htext
    by_cases hs : status = 200
    · simp [GetRepositoryStats, decodeStats, hresp, hfail, htext, hs]
    · simp [GetRepositoryStats, decodeStats, hresp, hs]
  · intro repositoryURL authToken env hresp hfail htext
    by_cases h401 : status = 401
    · simp [RefreshRepositoryIndex, decodeRefresh, hresp, h401]
    · by_cases hs : status = 200
      · simp [RefreshRepositoryIndex, decodeRefresh, hresp, hfail, htext, hs]
      · simp [RefreshRepositoryIndex, decodeRefresh, hresp, h401, hs]

/-- C16 amended, on the sample servers: `soft` answers the search with
status 200 and the upload with status 201, each with success=false and the
text `quota exceeded`, and both calls fail with that text; `down` answers the
server info request with status 500 and the call fails with the status. -/
theorem registry_calls_on_refusal_witness :
    (searchInRepository troubledWorld (sampleServer "soft") "foo" emptyState).1 =
        .error (.apiError "quota exceeded") ∧
      (uploadPackage troubledWorld "http://soft" "token" ["pkg.tar.zst"] sampleUploadManifest
        sampleArchiveState).1 = some (.uploadFailed "quota exceeded") ∧
      (GetRepositoryInfo troubledWorld "http://down" emptyState).1 =
        .error (.serverError 500) :=
  ⟨(registry_calls_on_refusal troubledWorld emptyState "quota exceeded" 200).2.1
      (sampleServer "soft") "foo" (sampleRefusal "quota exceeded") (by decide) rfl rfl,
    (registry_calls_on_refusal troubledWorld sampleArchiveState "quota exceeded" 201).2.2.1
      "http://soft" "token" ["pkg.tar.zst"] sampleUploadManifest (Node.file "archive")
      (sampleRefusal "quota exceeded") (by decide) (by decide) (by decide) rfl rfl,
    (registry_calls_on_refusal troubledWorld emptyState "database is down" 500).2.2.2.1
      "http://down" (sampleRefusal "database is down") (by decide) rfl rfl⟩

/-- C17 refuted on the sample server `auth`, which answers every request
with status 401: the server info request and the stats request fail with
`server error: 401`, the package lookup with `package not found in
repository` and the search with `search failed: HTTP 401`; none of them
reports an invalid authorization token. -/
theorem unauthorized_not_reported_by_every_call :
    troubledWorld.httpJSON "GET" "http://auth/api/v1/" "" none =
      .response 401 (some (sampleRefusal "token rejected")) ∧
    (GetRepositoryInfo troubledWorld "http://auth" emptyState).1 =
      .error (.serverError 401) ∧
    (GetRepositoryStats troubledWorld "http://auth" emptyState).1 =
      .error (.serverError 401) ∧
    (findInRepository troubledWorld (sampleServer "auth") "foo" "" "amd64" "linux"
      emptyState).1 = .error .notFoundInRepository ∧
    (searchInRepository troubledWorld (sampleServer "auth") "foo" emptyState).1 =
      .error (.searchStatus 401) := by
  decide

/-- C17, amended: a response with HTTP status 401 makes upload and index
refresh fail with `invalid authorization token`, whatever the body; server
info and stats, which send no token, fail on it with `server error: 401`
like on any other status that is not 200. -/
theorem unauthorized_response (w : World) (s : State) (envelope : Option JsonEnvelope) :
    (∀ registryURL token archivePath manifest file,
      fsLookup s.fs archivePath = some file → file ≠ Node.dir →
      w.httpJSON "POST" (registryURL ++ "/api/v1/upload") (bearer token) (some file) =
        .response 401 envelope →
      (uploadPackage w registryURL token archivePath manifest s).1 = some .invalidToken) ∧
    (∀ repositoryURL authToken,
      w.httpJSON "POST" (repositoryURL ++ "/api/v1/refresh") (bearer authToken) none =
        .response 401 envelope →
      (RefreshRepositoryIndex w repositoryURL authToken s).1 = some .invalidToken) ∧
    (∀ repositoryURL,
      w.httpJSON "GET" (repositoryURL ++ "/api/v1/") "" none = .response 401 envelope →
      (GetRepositoryInfo w repositoryURL s).1 = .error (.serverError 401)) ∧
    (∀ repositoryURL,
      w.httpJSON "GET" (repositoryURL ++ "/api/v1/stats") "" none = .response 401 envelope →
      (GetRepositoryStats w repositoryURL s).1 = .error (.serverError 401)) := by
  refine ⟨?_, ?_, ?_, ?_⟩
  · intro registryURL token archivePath manifest file hfile hnd hresp
    unfold uploadPackage
    rw [hfile]
    cases file with
    | dir => exact absurd rfl hnd
    | file bytes => simp [hresp, decodeUpload]
    | record info => simp [hresp, decodeUpload]
  · intro repositoryURL authToken hresp
    simp [RefreshRepositoryIndex, decodeRefresh, hresp]
  · intro repositoryURL hresp
    simp [GetRepositoryInfo, decodeInfo, hresp]
  · intro repositoryURL hresp
    simp [GetRepositoryStats, decodeStats, hresp]

/-- C17 amended, on the sample server `auth`: upload and index refresh
report the invalid token. -/
theorem unauthorized_response_witness :
    (uploadPackage troubledWorld "http://auth" "token" ["pkg.tar.zst"] sampleUploadManifest
        sampleArchiveState).1 = some .invalidToken ∧
      (RefreshRepositoryIndex troubledWorld "http://auth" "token" sampleArchiveState).1 =
        some .invalidToken :=
  ⟨(unauthorized_response troubledWorld sampleArchiveState
      (some (sampleRefusal "token rejected"))).1
      "http://auth" "token" ["pkg.tar.zst"] sampleUploadManifest (Node.file "archive")
      (by decide) (by decide) (by decide),
    (unauthorized_response troubledWorld sampleArchiveState
      (some (sampleRefusal "token rejected"))).2.1 "http://auth" "token" (by decide)⟩

/-! ### Upload -/

/-- C18: for every response to the upload request, `uploadPackage` returns
no error iff the status is 201 and the body decodes to an envelope with
success=true. -/
theorem uploadPackage_succeeds_iff (w : World) (registryURL token : String)
    (archivePath : Path) (manifest : PackageManifest) (s : State) (file : Node)
    (status : Nat) (envelope : Option JsonEnvelope)
    (hfile : fsLookup s.fs archivePath = some file) (hnd : file ≠ Node.dir)
    (hresp : w.httpJSON "POST" (registryURL ++ "/api/v1/upload") (bearer token) (some file) =
      .response status envelope) :
    (uploadPackage w registryURL token archivePath manifest s).1 = none ↔
      status = 201 ∧ ∃ env, envelope = some env ∧ env.Success = true := by
  have hup : (uploadPackage w registryURL token archivePath manifest s).1 =
      decodeUpload (.response status envelope) := by
    unfold uploadPackage
    rw [hfile]
    cases file with
    | dir => exact absurd rfl hnd
    | file bytes => simp only [hresp]
    | record info => simp only [hresp]
  rw [hup]
  unfold decodeUpload
  by_cases h401 : status = 401
  · simp [h401]
  · by_cases h201 : status = 201
    · cases envelope with
      | none => simp [h201]
      | some env =>
        cases hsucc : env.Success <;> simp [h201, hsucc]
    · simp [h401, h201]

/-- C18, on the sample servers: the upload to `up` (201, success=true)
succeeds; the upload to `soft` (201, success=false) and the upload to `down`
(500) fail. -/
theorem uploadPackage_succeeds_iff_witness :
    ((uploadPackage troubledWorld "http://up" "token" ["pkg.tar.zst"] sampleUploadManifest
        sampleArchiveState).1 = none ↔
      (201 : Nat) = 201 ∧ ∃ env, some sampleAccept = some env ∧ env.Success = true) ∧
    (uploadPackage troubledWorld "http://up" "token" ["pkg.tar.zst"] sampleUploadManifest
      sampleArchiveState).1 = none ∧
    (uploadPackage troubledWorld "http://soft" "token" ["pkg.tar.zst"] sampleUploadManifest
      sampleArchiveState).1 ≠ none ∧
    (uploadPackage troubledWorld "http://down" "token" ["pkg.tar.zst"] sampleUploadManifest
      sampleArchiveState).1 ≠ none :=
  ⟨uploadPackage_succeeds_iff troubledWorld "http://up" "token" ["pkg.tar.zst"]
      sampleUploadManifest sampleArchiveState (Node.file "archive") 201 (some sampleAccept)
      (by decide) (by decide) (by decide),
    by decide, by decide, by decide⟩

/-! ### What the caller of the resolve step sees -/

theorem findPackage_error (w : World) (name version arch osName : String) (s : State)
    (e : Error) (h : (findPackage w name version arch osName s).1 = .error e) :
    e = .packageNotFound name := by
  obtain ⟨tried, skipped, _, _, hcase⟩ :=
    findPackageLoop_spec w name version arch osName
      (w.sortSlice priorityLess w.GetRepositories) s
  unfold findPackage at h
  rcases hcase with ⟨_, _, found, _, _, _, hresult⟩ | ⟨_, _, hresult⟩
  · rw [hresult] at h; cases h
  · rw [hresult] at h; cases h; rfl

/-- C19 refuted on the sample registry, which holds `foo` in the versions
1.0.0, 1.1.0 and 2.0.0 for linux/amd64 only. The lookup in the repository
fails with version-not-found for version 9.9.9 and with file-not-found for
the platform plan9/amd64; `findPackage` reports both to its caller as the
same failure, package-not-found, and so does `InstallPackage`. -/
theorem findPackage_reports_one_failure :
    lookupResult sampleWorld sampleRepoMid "foo" "9.9.9" "amd64" "linux" =
      .error (.versionNotFound "9.9.9") ∧
    lookupResult sampleWorld sampleRepoMid "foo" "" "amd64" "plan9" =
      .error (.fileNotFound "plan9" "amd64") ∧
    (findPackage sampleWorld "foo" "9.9.9" "amd64" "linux" emptyState).1 =
      .error (.packageNotFound "foo") ∧
    (findPackage sampleWorld "foo" "" "amd64" "plan9" emptyState).1 =
      .error (.packageNotFound "foo") ∧
    resultOf (InstallPackage sampleWorld 1 "foo" "9.9.9" false false false "" "" emptyState) =
      some (.error (.wrapped "error_failed_to_find" (.packageNotFound "foo"))) ∧
    resultOf (InstallPackage sampleWorld 1 "foo" "" false false false "" "plan9" emptyState) =
      some (.error (.wrapped "error_failed_to_find" (.packageNotFound "foo"))) := by
  decide

/-- C19, amended: the lookup in one repository distinguishes the cases (a
status other than 200 is package-not-found-in-repository; a package entry
without the requested version is version-not-found; a selected version
without a file for the requested platform is file-not-found; the three are
different failures), but `findPackage` reports every failure to its caller
as package-not-found with the package name, so that `InstallPackage` and
`UpdatePackage` fail in the same way in all three cases. -/
theorem resolve_failure_cases (w : World) (name version arch osName : String) (s : State) :
    (∀ repo status body, status ≠ 200 →
      w.httpDo "GET" (lookupURL repo name) (bearer repo.AuthToken) = .response status body →
      (findInRepository w repo name version arch osName s).1 =
        .error .notFoundInRepository) ∧
    (∀ repo body (apiResp : ApiResponse) entry,
      w.httpDo "GET" (lookupURL repo name) (bearer repo.AuthToken) = .response 200 body →
      body.envelope = some apiResp → apiResp.Success = true →
      apiResp.Data = .object (some entry) →
      (selectVersion entry.Versions version = none →
        (findInRepository w repo name version arch osName s).1 =
          .error (.versionNotFound version)) ∧
      (∀ v, selectVersion entry.Versions version = some v →
        selectFile v.Files osName arch = none →
        (findInRepository w repo name version arch osName s).1 =
          .error (.fileNotFound osName arch))) ∧
    (Error.notFoundInRepository ≠ Error.versionNotFound version ∧
      Error.notFoundInRepository ≠ Error.fileNotFound osName arch ∧
      Error.versionNotFound version ≠ Error.fileNotFound osName arch) ∧
    (∀ e, (findPackage w name version arch osName s).1 = .error e →
      e = .packageNotFound name) ∧
    (∀ fuel global force dev e s1, (force = true ∨ alreadyInstalled s name version = false) →
      findPackage w name version (effectiveArch w arch) (effectiveOS w osName) s =
        (.error e, s1) →
      InstallPackage w (fuel + 1) name version global force dev arch osName s =
        some (.error (.wrapped "error_failed_to_find" (.packageNotFound name)), s1)) ∧
    (∀ fuel info e s1, getInstalledPackage s name = some info →
      findPackage w name "" w.GOARCH w.GOOS s = (.error e, s1) →
      UpdatePackage w fuel name s = some (.error (.findLatest (.packageNotFound name)), s1)) := by
  refine ⟨?_, ?_, ⟨by simp, by simp, by simp⟩, ?_, ?_, ?_⟩
  · intro repo status body hs hresp
    simp [findInRepository, lookupResult, decodeLookup, hresp, hs]
  · intro repo body apiResp entry hresp henv hok hdata
    have hdec := findInRepository_decoded w repo name version arch osName s body apiResp entry
      hresp henv hok hdata
    rw [hdec]
    constructor
    · intro hsel
      simp [resolveEntry, hsel]
    · intro v hsel hfile
      simp [resolveEntry, hsel, resolveFile, hfile]
  · exact fun e h => findPackage_error w name version arch osName s e h
  · intro fuel global force dev e s1 hrun hfind
    have he : e = .packageNotFound name :=
      findPackage_error w name version (effectiveArch w arch) (effectiveOS w osName) s e
        (by rw [hfind])
    subst he
    have hfind' : findPackage w name version (if arch = "" then w.GOARCH else arch)
        (if osName = "" then w.GOOS else osName) s =
        (.error (.packageNotFound name), s1) := hfind
    have hshort : (!force && alreadyInstalled s name version) = false := by
      rcases hrun with h | h <;> simp [h]
    unfold InstallPackage
    simp only [hshort, Bool.false_eq_true, if_false, hfind']
  · intro fuel info e s1 hinst hfind
    have he : e = .packageNotFound name :=
      findPackage_error w name "" w.GOARCH w.GOOS s e (by rw [hfind])
    subst he
    simp [UpdatePackage, hinst, hfind]

/-- C19 amended, on the sample registry: the install of version 9.9.9 of
`foo`, which no repository has, fails with package-not-found. -/
theorem resolve_failure_cases_witness :
    InstallPackage sampleWorld 1 "foo" "9.9.9" false false false "" "" emptyState =
      some (.error (.wrapped "error_failed_to_find" (.packageNotFound "foo")),
        (findPackage sampleWorld "foo" "9.9.9" "amd64" "linux" emptyState).2) :=
  (resolve_failure_cases sampleWorld "foo" "9.9.9" "" "" emptyState).2.2.2.2.1
    0 false false false (.packageNotFound "foo")
    (findPackage sampleWorld "foo" "9.9.9" "amd64" "linux" emptyState).2
    (Or.inr (by decide)) (by decide)

/-! ### Localization -/

/-- C27: `Localization.Get` returns the key itself, without applying the
arguments, when the table in use has no entry for the key; when it has one,
`Get` returns that translation unchanged if no argument is given and
`fmt.Sprintf` of the translation and the arguments if at least one is given.
The table in use is the table of the current language when there is one and
the English table when there is none; `T` is `Get` on the global instance. -/
theorem Localization_Get_spec {α : Type} (sprintf : String → List α → String)
    (l : Localization) (key : String) (args : List α) :
    (mapGet l.tableInUse key = none → l.Get sprintf key args = key) ∧
    (∀ translation, mapGet l.tableInUse key = some translation →
      (args = [] → l.Get sprintf key args = translation) ∧
      (args ≠ [] → l.Get sprintf key args = sprintf translation args)) ∧
    (∀ table, mapGet l.translations l.currentLanguage = some table → l.tableInUse = table) ∧
    (mapGet l.translations l.currentLanguage = none →
      ∀ table, mapGet l.translations DefaultLanguage = some table → l.tableInUse = table) ∧
    T sprintf l key args = l.Get sprintf key args := by
  refine ⟨?_, ?_, ?_, ?_, rfl⟩
  · intro h
    simp [Localization.Get, h]
  · intro translation h
    constructor
    · intro hargs
      simp [Localization.Get, h, hargs]
    · intro hargs
      have hlen : args.length > 0 := List.length_pos.mpr hargs
      simp [Localization.Get, h, hlen]
  · intro table h
    simp [Localization.tableInUse, h]
  · intro hnone table h
    simp [Localization.tableInUse, hnone, h]

/-! ### Search across the repositories -/

theorem decodeSearch_tagged (repo : Repository) (reply : JsonReply) (rs : List SearchResult)
    (h : decodeSearch repo reply = .ok rs) : ∀ r ∈ rs, r.Repository = repo.Name := by
  unfold decodeSearch at h
  split at h
  · cases h
  · cases h
  · split at h
    · cases h
    · split at h
      · cases h
      · split at h
        · cases h
        · split at h
          · cases h
          · cases h
          · simp only [Except.ok.injEq] at h
            subst h
            intro r hr
            simp only [List.mem_map] at hr
            obtain ⟨x, _, rfl⟩ := hr
            rfl

theorem searchLoop_spec (w : World) (query : String) :
    ∀ (l : List Repository) (s : State),
      (searchLoop w query l s).1 =
        (l.filter (fun r => r.Enabled)).flatMap (fun repo =>
          match (searchInRepository w repo query s).1 with
          | .ok repoResults => repoResults
          | .error _ => []) := by
  intro l
  induction l with
  | nil => intro s; simp [searchLoop]
  | cons repo rest ih =>
    intro s
    cases hen : repo.Enabled with
    | false => simpa [searchLoop, hen] using ih s
    | true =>
      cases hres : decodeSearch repo
          (w.httpJSON "GET" (repo.URL ++ "/api/v1/search?q=" ++ query) (bearer repo.AuthToken)
            none) with
      | error e =>
        have := ih (searchInRepository w repo query s).2
        simp only [searchInRepository] at this
        simp [searchLoop, hen, searchInRepository, hres, List.filter_cons, this]
      | ok rs =>
        have := ih (searchInRepository w repo query s).2
        simp only [searchInRepository] at this
        simp [searchLoop, hen, searchInRepository, hres, List.filter_cons, this]

/-- C22: `SearchPackages` returns a list (it has no error result) that is a
rearrangement of the concatenation, over the enabled repositories whose
search succeeds, of their result lists; disabled repositories and
repositories whose search fails contribute nothing; every returned result
carries the name of an enabled repository whose search returned it; and the
list is ordered by score, highest first. -/
theorem SearchPackages_spec (w : World) (hsort : SortContract w) (query : String) (s : State) :
    (SearchPackages w query s).1.Perm
      ((w.GetRepositories.filter (fun r => r.Enabled)).flatMap (fun repo =>
        match (searchInRepository w repo query s).1 with
        | .ok repoResults => repoResults
        | .error _ => [])) ∧
    List.Pairwise (fun a b : SearchResult => a.Score ≥ b.Score) (SearchPackages w query s).1 ∧
    (∀ r ∈ (SearchPackages w query s).1, ∃ repo ∈ w.GetRepositories, repo.Enabled = true ∧
      r.Repository = repo.Name ∧
      ∃ repoResults, (searchInRepository w repo query s).1 = .ok repoResults ∧
        r ∈ repoResults) := by
  have hperm : (SearchPackages w query s).1.Perm
      ((w.GetRepositories.filter (fun r => r.Enabled)).flatMap (fun repo =>
        match (searchInRepository w repo query s).1 with
        | .ok repoResults => repoResults
        | .error _ => [])) := by
    unfold SearchPackages
    simp only
    rw [← searchLoop_spec]
    exact (hsort SearchResult _ _).1
  refine ⟨hperm, ?_, ?_⟩
  · unfold SearchPackages
    simp only
    have hsorted := (hsort SearchResult (fun a b => decide (a.Score > b.Score))
      (searchLoop w query w.GetRepositories s).1).2
      (by
        intro a b c hab hbc
        simp only [gt_iff_lt, decide_eq_false_iff_not, not_lt] at hab hbc ⊢
        exact le_trans hab hbc)
      (by
        intro a b hab
        simp only [gt_iff_lt, decide_eq_true_eq, decide_eq_false_iff_not, not_lt] at hab ⊢
        exact le_of_lt hab)
    refine hsorted.imp ?_
    intro a b hab
    simp only [gt_iff_lt, decide_eq_false_iff_not, not_lt] at hab
    exact hab
  · intro r hr
    have hmem := hperm.mem_iff.1 hr
    simp only [List.mem_flatMap, List.mem_filter] at hmem
    obtain ⟨repo, ⟨hrepo, hen⟩, hin⟩ := hmem
    refine ⟨repo, hrepo, hen, ?_⟩
    cases hres : (searchInRepository w repo query s).1 with
    | error e => rw [hres] at hin; simp at hin
    | ok rs =>
      rw [hres] at hin
      exact ⟨decodeSearch_tagged repo _ rs hres r hin, rs, rfl, hin⟩

/-- C22 on the search sample: the disabled registry `off` and the failing
registry `bad` contribute nothing, the malformed item of `one` is dropped,
and the three results come back with the highest score first. -/
theorem SearchPackages_spec_witness :
    (SearchPackages searchWorld "tool" emptyState).1.map
        (fun r => (r.Name, r.Repository)) =
      [("tool", "one"), ("tooling", "two"), ("toolbox", "one")] ∧
    List.Pairwise (fun a b : SearchResult => a.Score ≥ b.Score)
      (SearchPackages searchWorld "tool" emptyState).1 :=
  ⟨by decide,
    (SearchPackages_spec searchWorld (fun _ less l => stableSort_contract less l) "tool"
      emptyState).2.1⟩

/-! ### Listing the outdated packages -/

theorem findPackageLoop_result (w : World) (name version arch osName : String) :
    ∀ (l : List Repository) (s s' : State),
      (findPackageLoop w name version arch osName l s).1 =
        (findPackageLoop w name version arch osName l s').1 := by
  intro l
  induction l with
  | nil => intro s s'; rfl
  | cons repo rest ih =>
    intro s s'
    cases hen : repo.Enabled with
    | false => simpa [findPackageLoop, hen] using ih s s'
    | true =>
      cases hres : lookupResult w repo name version arch osName with
      | ok found => simp [findPackageLoop, hen, findInRepository, hres]
      | error e =>
        simp only [findPackageLoop, hen, findInRepository, hres]
        simpa using ih _ _

theorem findPackage_result (w : World) (name version arch osName : String) (s s' : State) :
    (findPackage w name version arch osName s).1 =
      (findPackage w name version arch osName s').1 :=
  findPackageLoop_result w name version arch osName _ s s'

theorem listLoop_outdated (w : World) (global : Bool) (s0 : State) :
    ∀ (l : List (String × PackageInfo)) (s : State),
      (listLoop w global true l s).1 =
        (l.map Prod.snd).filter (fun pkg =>
          (pkg.Global == global) &&
            match (findPackage w pkg.Name "" w.GOARCH w.GOOS s0).1 with
            | .ok (latestInfo, _) => decide (latestInfo.Version ≠ pkg.Version)
            | .error _ => false) := by
  intro l
  induction l with
  | nil => intro s; simp [listLoop]
  | cons e rest ih =>
    intro s
    obtain ⟨k, pkg⟩ := e
    have hres := findPackage_result w pkg.Name "" w.GOARCH w.GOOS s s0
    cases hfind : findPackage w pkg.Name "" w.GOARCH w.GOOS s with
    | mk r s1 =>
      rw [hfind] at hres
      simp only at hres
      cases r with
      | error e =>
        cases global <;> cases hp : pkg.Global <;>
          simp [listLoop, hp, hfind, ← hres, ih]
      | ok found =>
        obtain ⟨latestInfo, url⟩ := found
        by_cases hv : latestInfo.Version = pkg.Version
        · cases global <;> cases hp : pkg.Global <;>
            simp [listLoop, hp, hfind, ← hres, ih, hv]
        · cases global <;> cases hp : pkg.Global <;>
            simp [listLoop, hp, hfind, ← hres, ih, hv]

/-- C23: `ListPackages(g, true)` returns a list (it has no error result)
holding exactly the registry entries of scope `g` for which the lookup of
the latest version of the recorded name succeeds and yields a version string
different from the installed one: the list is a rearrangement of the
registry entries that pass this test, so an entry whose lookup fails or whose
latest version equals the installed version is left out. -/
theorem ListPackages_outdated (w : World) (hsort : SortContract w) (hrange : RangeContract w)
    (global : Bool) (s : State) :
    (ListPackages w global true s).1.Perm
      ((s.installedPackages.map Prod.snd).filter (fun pkg =>
        (pkg.Global == global) &&
          match (findPackage w pkg.Name "" w.GOARCH w.GOOS s).1 with
          | .ok (latestInfo, _) => decide (latestInfo.Version ≠ pkg.Version)
          | .error _ => false)) ∧
    (∀ info, info ∈ (ListPackages w global true s).1 ↔
      ∃ k, (k, info) ∈ s.installedPackages ∧ info.Global = global ∧
        ∃ latestInfo url,
          (findPackage w info.Name "" w.GOARCH w.GOOS s).1 = .ok (latestInfo, url) ∧
          latestInfo.Version ≠ info.Version) := by
  have hperm : (ListPackages w global true s).1.Perm
      ((s.installedPackages.map Prod.snd).filter (fun pkg =>
        (pkg.Global == global) &&
          match (findPackage w pkg.Name "" w.GOARCH w.GOOS s).1 with
          | .ok (latestInfo, _) => decide (latestInfo.Version ≠ pkg.Version)
          | .error _ => false)) := by
    unfold ListPackages
    simp only
    refine ((hsort PackageInfo _ _).1).trans ?_
    rw [listLoop_outdated w global s]
    exact ((hrange PackageInfo s.installedPackages).map Prod.snd).filter _
  refine ⟨hperm, fun info => ?_⟩
  rw [hperm.mem_iff, List.mem_filter, List.mem_map]
  constructor
  · rintro ⟨⟨⟨k, i⟩, hmem, hi⟩, htest⟩
    simp only at hi
    subst hi
    simp only [Bool.and_eq_true, beq_iff_eq] at htest
    refine ⟨k, hmem, htest.1, ?_⟩
    cases hres : (findPackage w i.Name "" w.GOARCH w.GOOS s).1 with
    | error e => rw [hres] at htest; simp at htest
    | ok found =>
      obtain ⟨latestInfo, url⟩ := found
      rw [hres] at htest
      exact ⟨latestInfo, url, rfl, by simpa using htest.2⟩
  · rintro ⟨k, hmem, hg, latestInfo, url, hres, hv⟩
    refine ⟨⟨(k, info), hmem, rfl⟩, ?_⟩
    simp only [Bool.and_eq_true, beq_iff_eq]
    refine ⟨hg, ?_⟩
    rw [hres]
    simpa using hv

/-- C23 on the sample states: with version 1.0.0 of `foo` installed and
2.0.0 the latest, the record of `foo` is listed as outdated; with 2.0.0
installed it is not. -/
theorem ListPackages_outdated_witness :
    ({ sampleFooInfo with Version := "1.0.0" } : PackageInfo) ∈
        (ListPackages sampleWorld false true sampleFooOldState).1 ∧
      sampleFooInfo ∉ (ListPackages sampleWorld false true sampleFooState).1 :=
  ⟨((ListPackages_outdated sampleWorld sampleWorld_sortContract sampleWorld_rangeContract false
      sampleFooOldState).2 _).2
    ⟨"foo", by decide, by decide, sampleVersionInfo,
      "http://mid/api/v1/download/foo/2.0.0/foo-2.0.0.tar.zst", by decide, by decide⟩,
   fun hmem => by
    obtain ⟨_, _, _, latestInfo, url, hres, hv⟩ :=
      ((ListPackages_outdated sampleWorld sampleWorld_sortContract sampleWorld_rangeContract
        false sampleFooState).2 _).1 hmem
    have hfound : (findPackage sampleWorld "foo" "" "amd64" "linux" sampleFooState).1 =
        .ok (sampleVersionInfo, "http://mid/api/v1/download/foo/2.0.0/foo-2.0.0.tar.zst") := by
      decide
    rw [show sampleFooInfo.Name = "foo" from rfl, show sampleWorld.GOARCH = "amd64" from rfl,
      show sampleWorld.GOOS = "linux" from rfl, hfound] at hres
    cases hres
    exact hv rfl⟩

/-! ### The dependency check -/

theorem mapGet_mapSet_ne {α : Type} (m : List (String × α)) (k k' : String) (v : α)
    (h : k' ≠ k) : mapGet (mapSet m k v) k' = mapGet m k' := by
  induction m with
  | nil => simp [mapSet, mapGet, Ne.symm h]
  | cons e rest ih =>
    obtain ⟨k1, v1⟩ := e
    by_cases h1 : k1 = k
    · subst h1
      simp [mapSet, mapGet, Ne.symm h]
    · by_cases h2 : k1 = k'
      · subst h2
        simp [mapSet, mapGet, h]
      · simp [mapSet, mapGet, h1, h2, ih]

theorem installMissing_keeps
    (install : String → String → State → Option (Result × State))
    (hinstall : ∀ name version st r st', install name version st = some (r, st') →
      ∀ k info, k ≠ name → getInstalledPackage st k = some info →
        getInstalledPackage st' k = some info) :
    ∀ (deps : List (String × String)) (s : State) (r : Result) (s' : State),
      installMissing install deps s = some (r, s') →
      ∀ k info, getInstalledPackage s k = some info → getInstalledPackage s' k = some info := by
  intro deps
  induction deps with
  | nil =>
    intro s r s' h k info hk
    simp only [installMissing, Option.some.injEq, Prod.mk.injEq] at h
    rw [← h.2]; exact hk
  | cons d rest ih =>
    intro s r s' h k info hk
    obtain ⟨depName, depVersion⟩ := d
    unfold installMissing at h
    cases hget : getInstalledPackage s depName with
    | some i =>
      rw [hget] at h
      exact ih s r s' h k info hk
    | none =>
      rw [hget] at h
      have hne : k ≠ depName := by
        intro hkd
        rw [hkd, hget] at hk
        cases hk
      cases hin : install depName depVersion s with
      | none => rw [hin] at h; cases h
      | some out =>
        obtain ⟨r1, s1⟩ := out
        rw [hin] at h
        have hk1 := hinstall depName depVersion s r1 s1 hin k info hne hk
        cases r1 with
        | ok => exact ih s1 r s' h k info hk1
        | error e =>
          simp only [Option.some.injEq, Prod.mk.injEq] at h
          rw [← h.2]; exact hk1
        | panic reason =>
          simp only [Option.some.injEq, Prod.mk.injEq] at h
          rw [← h.2]; exact hk1

theorem checkDependencies_keeps (w : World)
    (install : String → String → State → Option (Result × State))
    (hinstall : ∀ name version st r st', install name version st = some (r, st') →
      ∀ k info, k ≠ name → getInstalledPackage st k = some info →
        getInstalledPackage st' k = some info)
    (manifest : PackageManifest) (dev : Bool) (s : State) (r : Result) (deps : GoMap)
    (s' : State) (h : checkDependencies w install manifest dev s = some (r, deps, s')) :
    ∀ k info, getInstalledPackage s k = some info → getInstalledPackage s' k = some info := by
  unfold checkDependencies at h
  simp only at h
  split at h
  · simp only [Option.some.injEq, Prod.mk.injEq] at h
    intro k info hk
    rw [← h.2.2]; exact hk
  · next dependencies _ =>
    cases hm : installMissing install (rangeMap w dependencies) s with
    | none => rw [hm] at h; cases h
    | some out =>
      obtain ⟨r1, s1⟩ := out
      rw [hm] at h
      simp only [Option.some.injEq, Prod.mk.injEq] at h
      intro k info hk
      rw [← h.2.2]
      exact installMissing_keeps install hinstall _ s r1 s1 hm k info hk

theorem InstallPackage_keeps_others (w : World) :
    ∀ (fuel : Nat) (packageName version : String) (global force dev : Bool)
      (arch osName : String) (s : State) (r : Result) (s' : State),
      InstallPackage w fuel packageName version global force dev arch osName s = some (r, s') →
      ∀ k info, k ≠ packageName → getInstalledPackage s k = some info →
        getInstalledPackage s' k = some info := by
  intro fuel
  induction fuel with
  | zero =>
    intro packageName version global force dev arch osName s r s' h
    simp [InstallPackage] at h
  | succ n ih =>
    intro packageName version global force dev arch osName s r s' h k info hne hk
    obtain ⟨fuel', hfuel, hcases⟩ :=
      InstallPackage_cases w (n + 1) packageName version global force dev arch osName s r s' h
    have hn : fuel' = n := by omega
    subst hn
    have hnested : ∀ name version st r st', nestedInstall w fuel' name version st = some (r, st') →
        ∀ k info, k ≠ name → getInstalledPackage st k = some info →
          getInstalledPackage st' k = some info := by
      intro name version st r st' hcall
      exact ih name version false false false "" "" st r st' hcall
    rcases hcases with ⟨_, _, _, hs'⟩ | ⟨e, s1, hfind, _, hs'⟩ | ⟨pinfo, url, s1, hfind, hrest⟩
    · rw [hs']; exact hk
    · have hfr := findPackage_frame w packageName version (effectiveArch w arch)
        (effectiveOS w osName) s
      rw [hfind] at hfr
      rw [hs']
      unfold getInstalledPackage at hk ⊢
      rw [hfr.2]; exact hk
    · have hfr := findPackage_frame w packageName version (effectiveArch w arch)
        (effectiveOS w osName) s
      rw [hfind] at hfr
      simp only at hfr
      have hk1 : getInstalledPackage s1 k = some info := by
        unfold getInstalledPackage at hk ⊢
        rw [hfr.2]; exact hk
      rcases hrest with ⟨e, s2, hdl, _, hs'⟩ | ⟨archivePath, s2, s3, hdl, hsteps, hs'⟩
      · have hdi := downloadPackage_installed w url packageName pinfo.Version s1
        rw [hdl] at hdi
        rw [hs']
        unfold getInstalledPackage at hk1 ⊢
        rw [hdi]; exact hk1
      · have hdi := downloadPackage_installed w url packageName pinfo.Version s1
        rw [hdl] at hdi
        simp only at hdi
        have hk2 : getInstalledPackage s2 k = some info := by
          unfold getInstalledPackage at hk1 ⊢
          rw [hdi]; exact hk1
        have hke : getInstalledPackage
            (extractArchive w archivePath (installTempDir w packageName) s2).2 k = some info := hk2
        suffices hk3 : getInstalledPackage s3 k = some info by
          rw [hs']; exact hk3
        have hc := installSteps_cases w _ packageName global force dev archivePath _ s2 r s3 hsteps
        rcases hc with ⟨_, _, hs3⟩ | ⟨e, _, _, hs3⟩ | ⟨manifest, rd, deps, s4, _, hdeps, hc⟩
        · rw [hs3]; exact hke
        · rw [hs3]; exact hke
        · have hk4 := checkDependencies_keeps w _ hnested manifest dev _ rd deps s4 hdeps k info hke
          rcases hc with ⟨e, _, _, hs3⟩ | ⟨reason, _, _, hs3⟩ | ⟨_, _, _, hs3⟩ |
            ⟨_, hooks, e, s5, _, hpre, _, hs3⟩ | ⟨_, hooks, s5, _, hpre, hfiles⟩
          · rw [hs3]; exact hk4
          · rw [hs3]; exact hk4
          · rw [hs3]; exact hk4
          · have hfr5 := executeHooks_frame w manifest.Hooks hooks.PreInstall
              (installTempDir w packageName) s4
            rw [hpre] at hfr5
            rw [hs3]
            unfold getInstalledPackage at hk4 ⊢
            rw [hfr5]; exact hk4
          · have hfr5 := executeHooks_frame w manifest.Hooks hooks.PreInstall
              (installTempDir w packageName) s4
            rw [hpre] at hfr5
            simp only at hfr5
            have hk5 : getInstalledPackage s5 k = some info := by
              unfold getInstalledPackage at hk4 ⊢
              rw [hfr5]; exact hk4
            have hs3 : s3 = (installFiles w packageName global force manifest hooks deps
                (installTempDir w packageName) s5).2 := by rw [← hfiles]
            rcases installFiles_cases w packageName global force manifest hooks deps
              (installTempDir w packageName) s5 with
              ⟨i, _, hreg, _⟩ | ⟨key, e, _, _, hreg⟩
            · unfold getInstalledPackage at hk5 ⊢
              rw [hs3, hreg, mapGet_mapSet_ne _ _ _ _ hne]
              exact hk5
            · unfold getInstalledPackage at hk5 ⊢
              rw [hs3, hreg]
              exact hk5

theorem installMissing_append
    (install : String → String → State → Option (Result × State))
    (rest : List (String × String)) :
    ∀ (pre : List (String × String)) (s s1 : State),
      installMissing install pre s = some (.ok, s1) →
      installMissing install (pre ++ rest) s = installMissing install rest s1 := by
  intro pre
  induction pre with
  | nil =>
    intro s s1 h
    simp only [installMissing, Option.some.injEq, Prod.mk.injEq, true_and] at h
    rw [h]; rfl
  | cons d pre ih =>
    intro s s1 h
    obtain ⟨depName, depVersion⟩ := d
    simp only [List.cons_append]
    unfold installMissing at h
    cases hget : getInstalledPackage s depName with
    | some i =>
      rw [hget] at h
      conv_lhs => rw [installMissing, hget]
      exact ih s s1 h
    | none =>
      rw [hget] at h
      simp only at h
      cases hin : install depName depVersion s with
      | none => rw [hin] at h; cases h
      | some out =>
        obtain ⟨r1, s2⟩ := out
        rw [hin] at h
        conv_lhs => rw [installMissing, hget]
        simp only [hin]
        cases r1 with
        | ok => exact ih s2 s1 h
        | error e => simp at h
        | panic reason => simp at h

/-- C21: `checkDependencies` visits the entries of the dependency map one by
one. When an entry is visited (`s1` is the state then, the earlier entries
having been satisfied or installed): if its name has a registry entry,
whatever its version and whatever version is asked for, nothing is installed
and the check goes on from the same state; if its name has none, the call
`InstallPackage(name, version, false, false, false, "", "")` is made, on its
success the check goes on from the state it leaves, and on its failure the
check stops at once and returns that error, wrapped with the name. No registry
entry that exists before the check is replaced or removed by it. -/
theorem checkDependencies_installs_missing (w : World) (fuel : Nat)
    (manifest : PackageManifest) (dev : Bool) (s : State) (dependencies : GoMap)
    (pre post : List (String × String)) (depName depVersion : String) (s1 : State)
    (hmap : (if dev then mergeDevDeps manifest.Dependencies (rangeMap w manifest.DevDeps)
      else some manifest.Dependencies) = some dependencies)
    (hvisit : rangeMap w dependencies = pre ++ (depName, depVersion) :: post)
    (hpre : installMissing (nestedInstall w fuel) pre s = some (.ok, s1)) :
    (∀ info, getInstalledPackage s1 depName = some info →
      checkDependencies w (nestedInstall w fuel) manifest dev s =
        (installMissing (nestedInstall w fuel) post s1).map
          (fun x => (x.1, dependencies, x.2))) ∧
    (getInstalledPackage s1 depName = none →
      (∀ s2, InstallPackage w fuel depName depVersion false false false "" "" s1 =
          some (.ok, s2) →
        checkDependencies w (nestedInstall w fuel) manifest dev s =
          (installMissing (nestedInstall w fuel) post s2).map
            (fun x => (x.1, dependencies, x.2))) ∧
      (∀ e s2, InstallPackage w fuel depName depVersion false false false "" "" s1 =
          some (.error e, s2) →
        checkDependencies w (nestedInstall w fuel) manifest dev s =
          some (.error (.dependency depName e), dependencies, s2))) ∧
    (∀ r deps s', checkDependencies w (nestedInstall w fuel) manifest dev s =
        some (r, deps, s') →
      ∀ k info, getInstalledPackage s k = some info →
        getInstalledPackage s' k = some info) := by
  have hcheck : checkDependencies w (nestedInstall w fuel) manifest dev s =
      (installMissing (nestedInstall w fuel) ((depName, depVersion) :: post) s1).map
        (fun x => (x.1, dependencies, x.2)) := by
    unfold checkDependencies
    simp only [hmap, hvisit]
    rw [installMissing_append _ _ pre s s1 hpre]
    cases installMissing (nestedInstall w fuel) ((depName, depVersion) :: post) s1 with
    | none => rfl
    | some out => rfl
  refine ⟨?_, ?_, ?_⟩
  · intro info hget
    rw [hcheck]
    simp only [installMissing, hget]
  · intro hget
    constructor
    · intro s2 hcall
      rw [hcheck]
      simp only [installMissing, hget, nestedInstall, hcall]
    · intro e s2 hcall
      rw [hcheck]
      simp only [installMissing, hget, nestedInstall, hcall, Option.map_some']
  · intro r deps s' h
    refine checkDependencies_keeps w _ ?_ manifest dev s r deps s' h
    intro name version st r1 st' hcall
    exact InstallPackage_keeps_others w fuel name version false false false "" "" st r1 st' hcall

/-- C21 on the sample environment: `tool` depends on `lib` and on `foo`
2.0.0 while `foo` 1.0.0 is installed. The check installs `lib`, and when it
visits `foo` it installs nothing: it ends in the state the install of `lib`
left, in which `foo` is still at 1.0.0. -/
theorem checkDependencies_installs_missing_witness :
    checkDependencies extraWorld (nestedInstall extraWorld 1) sampleToolManifest false
        sampleFooOldState =
      some (.ok, some [("lib", "1.0.0"), ("foo", "2.0.0")],
        stateAfter (nestedInstall extraWorld 1 "lib" "1.0.0" sampleFooOldState)) ∧
    getInstalledPackage
        (stateAfter (nestedInstall extraWorld 1 "lib" "1.0.0" sampleFooOldState)) "foo" =
      some { sampleFooInfo with Version := "1.0.0" } :=
  ⟨(checkDependencies_installs_missing extraWorld 1 sampleToolManifest false sampleFooOldState
      (some [("lib", "1.0.0"), ("foo", "2.0.0")]) [("lib", "1.0.0")] [] "foo" "2.0.0"
      (stateAfter (nestedInstall extraWorld 1 "lib" "1.0.0" sampleFooOldState))
      rfl rfl (by decide)).1 { sampleFooInfo with Version := "1.0.0" } (by decide),
    by decide⟩

/-! ### Install: the post-install hooks -/

/-- A hook command cannot be started in a working directory that is not on
the disk: the hooks fail at their first command, which is not run. -/
theorem executeHooks_fails_in_missing_directory :
    executeHooks sampleWorld (some ⟨["true"], [], [], []⟩) ["true"] ["nowhere"] emptyState =
        (some (.hookFailed "true"), emptyState) ∧
      (executeHooks sampleWorld (some ⟨["true"], [], [], []⟩) ["true"] [] emptyState).1 =
        none := by
  decide

theorem runHooks_error (w : World) (workDir : Path) :
    ∀ (commands : List String) (s : State) (e : Error),
      (runHooks w workDir commands s).1 = some e →
      ∃ pre command post, commands = pre ++ command :: post ∧ e = .hookFailed command ∧
        (runHooks w workDir pre s).1 = none ∧
        (canStartIn workDir (runHooks w workDir pre s).2.fs = false ∨
          (canStartIn workDir (runHooks w workDir pre s).2.fs = true ∧
            (w.runCommand command (if workDir = [] then none else some workDir)
              (runHooks w workDir pre s).2.fs).1 = false ∧
            Event.hook command (if workDir = [] then none else some workDir) ∈
              (runHooks w workDir commands s).2.trace)) := by
  intro commands
  induction commands with
  | nil => intro s e h; simp [runHooks] at h
  | cons c rest ih =>
    intro s e h
    by_cases hc : canStartIn workDir s.fs = true
    · by_cases hr : (w.runCommand c (if workDir = [] then none else some workDir) s.fs).1 = true
      · have hstep : ∀ l, runHooks w workDir (c :: l) s = runHooks w workDir l
            { s with fs := (w.runCommand c (if workDir = [] then none else some workDir) s.fs).2
                     trace := s.trace ++
                       [Event.hook c (if workDir = [] then none else some workDir)] } := by
          intro l
          conv_lhs => unfold runHooks
          simp only [hc, hr, if_true]
        rw [hstep] at h
        obtain ⟨pre, command, post, hsplit, he, hnone, hcase⟩ := ih _ e h
        refine ⟨c :: pre, command, post, by rw [hsplit]; rfl, he, ?_, ?_⟩
        · rw [hstep]; exact hnone
        · rw [hstep, hstep]; exact hcase
      · have hstep : runHooks w workDir (c :: rest) s = (some (.hookFailed c),
            { s with fs := (w.runCommand c (if workDir = [] then none else some workDir) s.fs).2
                     trace := s.trace ++
                       [Event.hook c (if workDir = [] then none else some workDir)] }) := by
          conv_lhs => unfold runHooks
          simp only [hc, hr, if_true, Bool.false_eq_true, if_false]
        rw [hstep] at h
        simp only [Option.some.injEq] at h
        refine ⟨[], c, rest, rfl, h.symm, rfl, Or.inr ⟨hc, ?_, ?_⟩⟩
        · simpa [runHooks] using hr
        · rw [hstep]; simp
    · have hstep : runHooks w workDir (c :: rest) s = (some (.hookFailed c), s) := by
        conv_lhs => unfold runHooks
        simp only [hc, Bool.false_eq_true, if_false]
      rw [hstep] at h
      simp only [Option.some.injEq] at h
      refine ⟨[], c, rest, rfl, h.symm, rfl, Or.inl ?_⟩
      simpa [runHooks] using hc

theorem executeHooks_error (w : World) (hooks : Option PackageHooks) (commands : List String)
    (workDir : Path) (s : State) (e : Error)
    (h : (executeHooks w hooks commands workDir s).1 = some e) :
    ∃ pre command post, commands = pre ++ command :: post ∧ e = .hookFailed command ∧
      (runHooks w workDir pre s).1 = none ∧
      (canStartIn workDir (runHooks w workDir pre s).2.fs = false ∨
        (canStartIn workDir (runHooks w workDir pre s).2.fs = true ∧
          (w.runCommand command (if workDir = [] then none else some workDir)
            (runHooks w workDir pre s).2.fs).1 = false ∧
          Event.hook command (if workDir = [] then none else some workDir) ∈
            (executeHooks w hooks commands workDir s).2.trace)) := by
  cases hooks with
  | none => simp [executeHooks] at h
  | some hk =>
    by_cases hc : commands = []
    · simp [executeHooks, hc] at h
    · simp only [executeHooks, hc, if_false] at h ⊢
      exact runHooks_error w workDir commands s e h

theorem installCleanup_trace (w : World) (archivePath tempDir : Path) (s : State) :
    (installCleanup w archivePath tempDir s).trace = s.trace := rfl

/-- C24: when a run of `InstallPackage` gets through every step up to and
including the write of the package record, and the post-install hooks then
fail, the failure is that of the first post-install hook command that fails:
the commands before it ran without error, and it either was run in the
install directory and exited with an error, or could not be started because
the install directory was gone from the disk the earlier commands left;
nevertheless `InstallPackage` returns success and the registry holds the new
entry of the package. -/
theorem InstallPackage_post_install_hook_failure (w : World) (fuel : Nat)
    (packageName version : String) (global force dev : Bool) (arch osName : String) (s : State)
    (packageInfo : PackageInfo) (url : String) (s1 : State) (archivePath : Path) (s2 : State)
    (manifest : PackageManifest) (deps : GoMap) (s4 : State) (hooks : PackageHooks)
    (s5 : State) (fs1 fs2 fs3 fs4 : FS) (info : PackageInfo) (e : Error)
    (hrun : force = true ∨ alreadyInstalled s packageName version = false)
    (hfind : findPackage w packageName version (effectiveArch w arch) (effectiveOS w osName) s =
      (.ok (packageInfo, url), s1))
    (hdl : downloadPackage w url packageName packageInfo.Version s1 = (.ok archivePath, s2))
    (hext : (extractArchive w archivePath (installTempDir w packageName) s2).1 = true)
    (hman : loadManifestFromDir w (installTempDir w packageName)
      (extractArchive w archivePath (installTempDir w packageName) s2).2.fs = .ok manifest)
    (hdeps : checkDependencies w (nestedInstall w fuel) manifest dev
      (extractArchive w archivePath (installTempDir w packageName) s2).2 = some (.ok, deps, s4))
    (hhooks : manifest.Hooks = some hooks)
    (hpre : executeHooks w manifest.Hooks hooks.PreInstall (installTempDir w packageName) s4 =
      (none, s5))
    (hremove : (if force then osRemoveAll w (w.GetInstallPath packageName global) s5.fs
      else (none, s5.fs)) = (none, fs1))
    (hcreate : osMkdirAll w (w.GetInstallPath packageName global) fs1 = (none, fs2))
    (hcopy : copyFiles w (installTempDir w packageName) (w.GetInstallPath packageName global)
      manifest.Files fs2 = (none, fs3))
    (hinfo : info =
      { Name := manifest.Name
        Version := manifest.Version
        Description := manifest.Description
        Author := manifest.Author
        InstallDate := w.now
        InstallPath := w.GetInstallPath packageName global
        Global := global
        Dependencies := deps
        Size := calculateDirSize w (w.GetInstallPath packageName global) fs3
        Files := manifest.Files
        Scripts := manifest.Scripts })
    (hsave : savePackageInfo w info fs3 = (none, fs4))
    (hpost : (executeHooks w manifest.Hooks hooks.PostInstall
      (w.GetInstallPath packageName global)
      { s5 with fs := fs4
                installedPackages := mapSet s5.installedPackages packageName info }).1 =
      some e) :
    ∃ s', InstallPackage w (fuel + 1) packageName version global force dev arch osName s =
        some (.ok, s') ∧
      getInstalledPackage s' packageName = some info ∧
      ∃ pre command post, hooks.PostInstall = pre ++ command :: post ∧
        e = .hookFailed command ∧
        (runHooks w (w.GetInstallPath packageName global) pre
          { s5 with fs := fs4
                    installedPackages := mapSet s5.installedPackages packageName info }).1 =
          none ∧
        (canStartIn (w.GetInstallPath packageName global)
            (runHooks w (w.GetInstallPath packageName global) pre
              { s5 with fs := fs4
                        installedPackages :=
                          mapSet s5.installedPackages packageName info }).2.fs = false ∨
          (canStartIn (w.GetInstallPath packageName global)
              (runHooks w (w.GetInstallPath packageName global) pre
                { s5 with fs := fs4
                          installedPackages :=
                            mapSet s5.installedPackages packageName info }).2.fs = true ∧
            (w.runCommand command
              (if w.GetInstallPath packageName global = [] then none
                else some (w.GetInstallPath packageName global))
              (runHooks w (w.GetInstallPath packageName global) pre
                { s5 with fs := fs4
                          installedPackages :=
                            mapSet s5.installedPackages packageName info }).2.fs).1 = false ∧
            Event.hook command
              (if w.GetInstallPath packageName global = [] then none
                else some (w.GetInstallPath packageName global)) ∈ s'.trace)) := by
  have hshort : (!force && alreadyInstalled s packageName version) = false := by
    rcases hrun with hf | ha
    · simp [hf]
    · simp [ha]
  have hfind' : findPackage w packageName version (if arch = "" then w.GOARCH else arch)
      (if osName = "" then w.GOOS else osName) s = (.ok (packageInfo, url), s1) := hfind
  have hext' : extractArchive w archivePath (installTempDir w packageName) s2 =
      (true, (extractArchive w archivePath (installTempDir w packageName) s2).2) := by
    rw [← hext]
  have hdeps' : checkDependencies w
      (fun depName depVersion st =>
        InstallPackage w fuel depName depVersion false false false "" "" st) manifest dev
      (extractArchive w archivePath (installTempDir w packageName) s2).2 =
      some (.ok, deps, s4) := hdeps
  have hfiles : installFiles w packageName global force manifest hooks deps
      (installTempDir w packageName) s5 =
      (.ok, (executeHooks w (some hooks) hooks.PostInstall (w.GetInstallPath packageName global)
        { s5 with fs := fs4
                  installedPackages := mapSet s5.installedPackages packageName info }).2) := by
    unfold installFiles
    simp only [hremove, hcreate, hcopy, ← hinfo, hsave]
  have hsteps : installSteps w
      (fun depName depVersion st =>
        InstallPackage w fuel depName depVersion false false false "" "" st)
      packageName global force dev archivePath (installTempDir w packageName) s2 =
      some (.ok, (executeHooks w (some hooks) hooks.PostInstall
        (w.GetInstallPath packageName global)
        { s5 with fs := fs4
                  installedPackages := mapSet s5.installedPackages packageName info }).2) := by
    unfold installSteps
    rw [hext']
    simp only [hman, hdeps', hhooks]
    rw [hhooks] at hpre
    rw [hpre]
    simp only [hfiles]
  have hcall : InstallPackage w (fuel + 1) packageName version global force dev arch osName s =
      some (.ok, installCleanup w archivePath (installTempDir w packageName)
        (executeHooks w (some hooks) hooks.PostInstall (w.GetInstallPath packageName global)
          { s5 with fs := fs4
                    installedPackages := mapSet s5.installedPackages packageName info }).2) := by
    unfold InstallPackage
    simp only [hshort, Bool.false_eq_true, if_false, hfind', hdl, hsteps]
  rw [hhooks] at hpost
  obtain ⟨pre, command, post, hsplit, he, hnone, hcase⟩ :=
    executeHooks_error w _ _ _ _ e hpost
  refine ⟨_, hcall, ?_, pre, command, post, hsplit, he, hnone, ?_⟩
  · unfold getInstalledPackage
    rw [installCleanup_installed, executeHooks_frame w _ _ _ _]
    exact mapGet_mapSet_self _ _ _
  · rcases hcase with hgone | ⟨hthere, hfail, hev⟩
    · exact Or.inl hgone
    · exact Or.inr ⟨hthere, hfail, by rw [installCleanup_trace]; exact hev⟩

/-- C24 on the sample environment: the post-install hook of `post` is the
command `false`; it is run in the install directory and fails, the install of
`post` returns success and the registry holds the record of `post`. -/
theorem InstallPackage_post_install_hook_failure_witness :
    ∃ s', InstallPackage extraWorld 1 "post" "" false false false "" "" emptyState =
        some (.ok, s') ∧
      getInstalledPackage s' "post" = some samplePostRecord ∧
      ∃ pre command post, ["false"] = pre ++ command :: post ∧
        Error.hookFailed "false" = .hookFailed command ∧
        (runHooks extraWorld (extraWorld.GetInstallPath "post" false) pre
          { samplePostExtracted with
            fs := (savePackageInfo extraWorld samplePostRecord samplePostCopied).2
            installedPackages :=
              mapSet samplePostExtracted.installedPackages "post" samplePostRecord }).1 =
          none ∧
        (canStartIn (extraWorld.GetInstallPath "post" false)
            (runHooks extraWorld (extraWorld.GetInstallPath "post" false) pre
              { samplePostExtracted with
                fs := (savePackageInfo extraWorld samplePostRecord samplePostCopied).2
                installedPackages :=
                  mapSet samplePostExtracted.installedPackages "post"
                    samplePostRecord }).2.fs = false ∨
          (canStartIn (extraWorld.GetInstallPath "post" false)
              (runHooks extraWorld (extraWorld.GetInstallPath "post" false) pre
                { samplePostExtracted with
                  fs := (savePackageInfo extraWorld samplePostRecord samplePostCopied).2
                  installedPackages :=
                    mapSet samplePostExtracted.installedPackages "post"
                      samplePostRecord }).2.fs = true ∧
            (extraWorld.runCommand command
              (if extraWorld.GetInstallPath "post" false = [] then none
                else some (extraWorld.GetInstallPath "post" false))
              (runHooks extraWorld (extraWorld.GetInstallPath "post" false) pre
                { samplePostExtracted with
                  fs := (savePackageInfo extraWorld samplePostRecord samplePostCopied).2
                  installedPackages :=
                    mapSet samplePostExtracted.installedPackages "post"
                      samplePostRecord }).2.fs).1 = false ∧
            Event.hook command
              (if extraWorld.GetInstallPath "post" false = [] then none
                else some (extraWorld.GetInstallPath "post" false)) ∈ s'.trace)) :=
  InstallPackage_post_install_hook_failure extraWorld 0 "post" "" false false false "" ""
    emptyState samplePostInfo "http://mid/api/v1/download/post/1.0.0/post-1.0.0.tar.zst"
    (findPackage extraWorld "post" "" "amd64" "linux" emptyState).2
    ["cache", "post", "1.0.0", "package.tar.zst"]
    (downloadPackage extraWorld "http://mid/api/v1/download/post/1.0.0/post-1.0.0.tar.zst"
      "post" "1.0.0" (findPackage extraWorld "post" "" "amd64" "linux" emptyState).2).2
    samplePostManifest (some []) samplePostExtracted ⟨[], ["false"], [], []⟩
    samplePostExtracted samplePostExtracted.fs
    (osMkdirAll extraWorld ["local", "post"] samplePostExtracted.fs).2
    samplePostCopied
    (savePackageInfo extraWorld samplePostRecord samplePostCopied).2
    samplePostRecord (.hookFailed "false")
    (Or.inr (by decide)) (by decide) (by decide) (by decide) (by decide) (by decide)
    (by decide) (by decide) (by decide) (by decide) (by decide) (by decide) (by decide)
    (by decide)

/-! ### Cyclic dependencies -/

theorem downloadPackage_fs (w : World) (url name version : String) (s s' : State)
    (h : s.fs = s'.fs) :
    (downloadPackage w url name version s).1 = (downloadPackage w url name version s').1 ∧
      (downloadPackage w url name version s).2.fs =
        (downloadPackage w url name version s').2.fs := by
  unfold downloadPackage
  simp only [h]
  cases osMkdirAll w (w.GetCachePath name version) s'.fs with
  | mk r fs1 =>
    cases r with
    | some e => simp
    | none =>
      simp only
      cases fsLookup fs1 (w.GetCachePath name version ++ ["package.tar.zst"]) with
      | some n => simp
      | none =>
        simp only
        cases w.httpDo "GET" url "" with
        | invalidRequest reason => simp
        | transportError reason => simp
        | response status body =>
          simp only
          by_cases hst : status = 200
          · simp only [hst, ne_eq, not_true_eq_false, if_false]
            cases osWriteFile w (w.GetCachePath name version ++ ["package.tar.zst"])
                (Node.file "") fs1 with
            | mk r2 fs2 =>
              cases r2 with
              | some e => simp
              | none =>
                simp only
                cases body.copyFails <;> simp
          · simp [hst]

theorem extractArchive_fs (w : World) (archivePath tempDir : Path) (s s' : State)
    (h : s.fs = s'.fs) :
    (extractArchive w archivePath tempDir s).1 = (extractArchive w archivePath tempDir s').1 ∧
      (extractArchive w archivePath tempDir s).2.fs =
        (extractArchive w archivePath tempDir s').2.fs := by
  simp [extractArchive, h]

theorem dependencyCheckPoint_fs (w : World) (name version arch osName : String) (s s' : State)
    (h : s.fs = s'.fs) :
    (dependencyCheckPoint w name version arch osName s).map (fun x => (x.1, x.2.1, x.2.2.fs)) =
      (dependencyCheckPoint w name version arch osName s').map
        (fun x => (x.1, x.2.1, x.2.2.fs)) := by
  unfold dependencyCheckPoint
  have hres := findPackage_result w name version (effectiveArch w arch) (effectiveOS w osName) s s'
  have hf := findPackage_frame w name version (effectiveArch w arch) (effectiveOS w osName) s
  have hf' := findPackage_frame w name version (effectiveArch w arch) (effectiveOS w osName) s'
  cases hfind : findPackage w name version (effectiveArch w arch) (effectiveOS w osName) s with
  | mk r s1 =>
    cases hfind' : findPackage w name version (effectiveArch w arch) (effectiveOS w osName) s' with
    | mk r' s1' =>
      rw [hfind] at hres hf
      rw [hfind'] at hres hf'
      simp only at hres hf hf'
      subst hres
      cases r with
      | error e => rfl
      | ok found =>
        obtain ⟨packageInfo, url⟩ := found
        simp only
        have hfs1 : s1.fs = s1'.fs := by rw [hf.1, hf'.1, h]
        have hd := downloadPackage_fs w url name packageInfo.Version s1 s1' hfs1
        cases hdl : downloadPackage w url name packageInfo.Version s1 with
        | mk rd s2 =>
          cases hdl' : downloadPackage w url name packageInfo.Version s1' with
          | mk rd' s2' =>
            rw [hdl, hdl'] at hd
            simp only at hd
            obtain ⟨hrd, hfs2⟩ := hd
            subst hrd
            cases rd with
            | error e => rfl
            | ok archivePath =>
              have he := extractArchive_fs w archivePath (installTempDir w name) s2 s2' hfs2
              cases hex : extractArchive w archivePath (installTempDir w name) s2 with
              | mk okay s3 =>
                cases hex' : extractArchive w archivePath (installTempDir w name) s2' with
                | mk okay' s3' =>
                  rw [hex, hex'] at he
                  simp only at he
                  obtain ⟨hok, hfs3⟩ := he
                  subst hok
                  simp only [hex, hex']
                  cases okay with
                  | false => rfl
                  | true =>
                    simp only [hfs3]
                    cases loadManifestFromDir w (installTempDir w name) s3'.fs with
                    | error e => rfl
                    | ok manifest => simp [hfs3]

theorem dependencyCheckPoint_cases (w : World) (name version arch osName : String)
    (s : State) (archivePath : Path) (manifest : PackageManifest) (s3 : State)
    (h : dependencyCheckPoint w name version arch osName s = some (archivePath, manifest, s3)) :
    ∃ packageInfo url s1 s2,
      findPackage w name version (effectiveArch w arch) (effectiveOS w osName) s =
        (.ok (packageInfo, url), s1) ∧
      downloadPackage w url name packageInfo.Version s1 = (.ok archivePath, s2) ∧
      extractArchive w archivePath (installTempDir w name) s2 = (true, s3) ∧
      loadManifestFromDir w (installTempDir w name) s3.fs = .ok manifest := by
  unfold dependencyCheckPoint at h
  split at h
  · cases h
  · next packageInfo url s1 hfind =>
    split at h
    · cases h
    · next archivePath' s2 hdl =>
      split at h
      · cases h
      · next s3' hext =>
        split at h
        · cases h
        · next manifest' hman =>
          simp only [Option.some.injEq, Prod.mk.injEq] at h
          obtain ⟨h1, h2, h3⟩ := h
          subst h1 h2 h3
          exact ⟨packageInfo, url, s1, s2, hfind, hdl, hext, hman⟩

theorem dependencyCheckPoint_registry (w : World) (name version arch osName : String)
    (s : State) (archivePath : Path) (manifest : PackageManifest) (s3 : State)
    (h : dependencyCheckPoint w name version arch osName s = some (archivePath, manifest, s3)) :
    s3.installedPackages = s.installedPackages := by
  obtain ⟨packageInfo, url, s1, s2, hfind, hdl, hext, _⟩ :=
    dependencyCheckPoint_cases w name version arch osName s archivePath manifest s3 h
  have h1 := (findPackage_frame w name version (effectiveArch w arch) (effectiveOS w osName) s).2
  have h2 := downloadPackage_installed w url name packageInfo.Version s1
  have h3 := extractArchive_installed w archivePath (installTempDir w name) s2
  rw [hfind] at h1
  rw [hdl] at h2
  rw [hext] at h3
  simp only at h1 h2 h3
  rw [h3, h2, h1]

theorem installMissing_skip (install : String → String → State → Option (Result × State))
    (rest : List (String × String)) (s : State) :
    ∀ (pre : List (String × String)), (∀ d ∈ pre, getInstalledPackage s d.1 ≠ none) →
      installMissing install (pre ++ rest) s = installMissing install rest s := by
  intro pre
  induction pre with
  | nil => intro _; rfl
  | cons d pre ih =>
    intro h
    obtain ⟨depName, depVersion⟩ := d
    have hd := h (depName, depVersion) (List.mem_cons_self _ _)
    simp only [List.cons_append]
    cases hget : getInstalledPackage s depName with
    | none => exact absurd hget hd
    | some i =>
      conv_lhs => rw [installMissing, hget]
      exact ih (fun d hmem => h d (List.mem_cons_of_mem _ hmem))

theorem InstallPackage_stuck (w : World) (fuel : Nat) (name version : String)
    (global force dev : Bool) (arch osName other otherVersion : String) (s s3 : State)
    (hnot : getInstalledPackage s name = none)
    (hdep : DependsOn w name version dev arch osName other otherVersion s s3)
    (hnested : InstallPackage w fuel other otherVersion false false false "" "" s3 = none) :
    InstallPackage w (fuel + 1) name version global force dev arch osName s = none := by
  obtain ⟨archivePath, manifest, dependencies, pre, post, hcp, hmap, hvisit, hpre, hother⟩ := hdep
  obtain ⟨packageInfo, url, s1, s2, hfind, hdl, hext, hman⟩ :=
    dependencyCheckPoint_cases w name version arch osName s archivePath manifest s3 hcp
  have hshort : alreadyInstalled s name version = false := by
    simp [alreadyInstalled, hnot]
  have hfind' : findPackage w name version (if arch = "" then w.GOARCH else arch)
      (if osName = "" then w.GOOS else osName) s = (.ok (packageInfo, url), s1) := hfind
  have hcheck : checkDependencies w
      (fun depName depVersion st =>
        InstallPackage w fuel depName depVersion false false false "" "" st) manifest dev s3 =
      none := by
    unfold checkDependencies
    simp only [hmap, hvisit]
    rw [installMissing_skip _ _ s3 pre hpre]
    simp only [installMissing, hother, hnested]
  unfold InstallPackage
  simp only [hshort, Bool.and_false, Bool.false_eq_true, if_false, hfind', hdl]
  unfold installSteps
  simp only [hext, hman, hcheck]

theorem DependsOn_of_disk (w : World) (name version other otherVersion : String)
    (disk disk' : FS) (archivePath : Path) (manifest : PackageManifest)
    (hcp : (dependencyCheckPoint w name version "" "" ⟨[], disk, []⟩).map
      (fun x => (x.1, x.2.1, x.2.2.fs)) = some (archivePath, manifest, disk'))
    (hdeps : rangeMap w manifest.Dependencies = [(other, otherVersion)])
    (st : State) (hreg : st.installedPackages = []) (hfs : st.fs = disk) :
    getInstalledPackage st name = none ∧
      ∃ st3, DependsOn w name version false "" "" other otherVersion st st3 ∧
        st3.installedPackages = [] ∧ st3.fs = disk' := by
  have hsame := dependencyCheckPoint_fs w name version "" "" st ⟨[], disk, []⟩ hfs
  rw [hcp] at hsame
  obtain ⟨x, hx, hproj⟩ := Option.map_eq_some'.1 hsame
  obtain ⟨a, m, st3⟩ := x
  simp only [Prod.mk.injEq] at hproj
  obtain ⟨ha, hm, hdisk⟩ := hproj
  subst ha hm
  have hreg3 : st3.installedPackages = [] := by
    rw [dependencyCheckPoint_registry w name version "" "" st a m st3 hx, hreg]
  refine ⟨by simp [getInstalledPackage, hreg, mapGet], st3, ?_, hreg3, hdisk⟩
  refine ⟨a, m, m.Dependencies, [], [], hx, rfl, hdeps, ?_, ?_⟩
  · intro d hd; cases hd
  · simp [getInstalledPackage, hreg3, mapGet]

/-- C28 refuted on the sample environment: `tick` and `tock` are not
installed, each lists the other as a dependency, and for each the resolution,
the download, the extraction and the manifest load succeed; but `tick` also
lists `gone`, which no registry holds, and its dependency check visits `gone`
first: the install of `tick` returns an error at the depth bound 2, at the
depth bound 50 and at every depth bound from 2 on, after the lookups of `gone`
and without a request for `tock`. -/
theorem InstallPackage_cycle_returns_on_missing_dependency :
    getInstalledPackage emptyState "tick" = none ∧
      getInstalledPackage emptyState "tock" = none ∧
      (dependencyCheckPoint extraWorld "tick" "" "" "" emptyState).map
          (fun x => x.2.1.Dependencies) =
        some (some [("gone", "1.0.0"), ("tock", "1.0.0")]) ∧
      (dependencyCheckPoint extraWorld "tock" "1.0.0" "" "" emptyState).map
          (fun x => x.2.1.Dependencies) =
        some (some [("tick", "1.0.0")]) ∧
      resultOf (InstallPackage extraWorld 2 "tick" "" false false false "" "" emptyState) =
        some (.error (.wrapped "error_dependency_check" (.dependency "gone"
          (.wrapped "error_failed_to_find" (.packageNotFound "gone"))))) ∧
      resultOf (InstallPackage extraWorld 50 "tick" "" false false false "" "" emptyState) =
        some (.error (.wrapped "error_dependency_check" (.dependency "gone"
          (.wrapped "error_failed_to_find" (.packageNotFound "gone"))))) ∧
      (stateAfter
          (InstallPackage extraWorld 50 "tick" "" false false false "" "" emptyState)).trace =
        [Event.http "GET" "http://high/api/v1/packages/tick" "",
         Event.http "GET" "http://mid/api/v1/packages/tick" "Bearer token",
         Event.http "GET" "http://mid/api/v1/download/tick/1.0.0/tick-1.0.0.tar.zst" "",
         Event.http "GET" "http://high/api/v1/packages/gone" "",
         Event.http "GET" "http://mid/api/v1/packages/gone" "Bearer token",
         Event.http "GET" "http://low/api/v1/packages/gone" ""] ∧
      ∀ fuel : Nat,
        resultOf
            (InstallPackage extraWorld (fuel + 2) "tick" "" false false false "" "" emptyState) =
          some (.error (.wrapped "error_dependency_check" (.dependency "gone"
            (.wrapped "error_failed_to_find" (.packageNotFound "gone"))))) := by
  refine ⟨by decide, by decide, by decide, by decide, by decide, by decide, by decide, ?_⟩
  intro fuel
  rfl

/-- C28, amended: let the packages `nameA` and `nameB` be such that, in every state
the recursion can reach (`InvA` for the states in which an install of `nameA`
starts, `InvB` for `nameB`), the package that is installed has no registry
entry, its resolution, download, extraction and manifest load succeed, and
the first dependency its check finds missing is the other package. Then an
install of `nameA` whose dependency check asks for `nameB` returns at no depth
bound; the registry is unchanged when the nested call for `nameB` is made; and
every nested call, for `nameB` and for `nameA` in turn, reaches its own
dependency check with the registry unchanged, asks for the other package, and
returns at no depth bound either. -/
theorem InstallPackage_cycle_never_returns (w : World)
    (nameA versionA nameB versionB : String) (InvA InvB : State → Prop)
    (hA : ∀ st, InvA st → getInstalledPackage st nameA = none ∧
      ∃ st3, DependsOn w nameA versionA false "" "" nameB versionB st st3 ∧ InvB st3)
    (hB : ∀ st, InvB st → getInstalledPackage st nameB = none ∧
      ∃ st3, DependsOn w nameB versionB false "" "" nameA versionA st st3 ∧ InvA st3)
    (version : String) (global force dev : Bool) (arch osName : String) (s s3 : State)
    (hnot : getInstalledPackage s nameA = none)
    (htop : DependsOn w nameA version dev arch osName nameB versionB s s3)
    (hinv : InvB s3) :
    (∀ fuel, InstallPackage w fuel nameA version global force dev arch osName s = none) ∧
    s3.installedPackages = s.installedPackages ∧
    (∀ st, InvB st → ∃ st3,
      DependsOn w nameB versionB false "" "" nameA versionA st st3 ∧
      st3.installedPackages = st.installedPackages ∧ InvA st3 ∧
      ∀ fuel, InstallPackage w fuel nameB versionB false false false "" "" st = none) ∧
    (∀ st, InvA st → ∃ st3,
      DependsOn w nameA versionA false "" "" nameB versionB st st3 ∧
      st3.installedPackages = st.installedPackages ∧ InvB st3 ∧
      ∀ fuel, InstallPackage w fuel nameA versionA false false false "" "" st = none) := by
  have key : ∀ fuel : Nat,
      (∀ st, InvA st →
        InstallPackage w fuel nameA versionA false false false "" "" st = none) ∧
      (∀ st, InvB st →
        InstallPackage w fuel nameB versionB false false false "" "" st = none) := by
    intro fuel
    induction fuel with
    | zero => exact ⟨fun _ _ => rfl, fun _ _ => rfl⟩
    | succ n ih =>
      constructor
      · intro st hst
        obtain ⟨hn, st3, hdep, hst3⟩ := hA st hst
        exact InstallPackage_stuck w n nameA versionA false false false "" "" nameB versionB
          st st3 hn hdep (ih.2 st3 hst3)
      · intro st hst
        obtain ⟨hn, st3, hdep, hst3⟩ := hB st hst
        exact InstallPackage_stuck w n nameB versionB false false false "" "" nameA versionA
          st st3 hn hdep (ih.1 st3 hst3)
  have hreg : ∀ name version dev arch osName other otherVersion st st3,
      DependsOn w name version dev arch osName other otherVersion st st3 →
      st3.installedPackages = st.installedPackages := by
    intro name version dev arch osName other otherVersion st st3 hdep
    obtain ⟨archivePath, manifest, _, _, _, hcp, _⟩ := hdep
    exact dependencyCheckPoint_registry w name version arch osName st archivePath manifest st3 hcp
  refine ⟨?_, hreg _ _ _ _ _ _ _ _ _ htop, ?_, ?_⟩
  · intro fuel
    cases fuel with
    | zero => rfl
    | succ n =>
      exact InstallPackage_stuck w n nameA version global force dev arch osName nameB versionB
        s s3 hnot htop ((key n).2 s3 hinv)
  · intro st hst
    obtain ⟨_, st3, hdep, hst3⟩ := hB st hst
    exact ⟨st3, hdep, hreg _ _ _ _ _ _ _ _ _ hdep, hst3, fun fuel => (key fuel).2 st hst⟩
  · intro st hst
    obtain ⟨_, st3, hdep, hst3⟩ := hA st hst
    exact ⟨st3, hdep, hreg _ _ _ _ _ _ _ _ _ hdep, hst3, fun fuel => (key fuel).1 st hst⟩

/-- C28 on the sample environment: `ping` lists `pong` and `pong` lists
`ping`, neither is installed; the install of `ping` on an empty disk returns
at no depth bound, and the registry is still empty when the nested install of
`pong` is called. -/
theorem InstallPackage_cycle_never_returns_witness :
    (∀ fuel, InstallPackage extraWorld fuel "ping" "" false false false "" "" emptyState =
      none) ∧
    (checkPointState
      (dependencyCheckPoint extraWorld "ping" "" "" "" emptyState)).installedPackages = [] :=
  ⟨(InstallPackage_cycle_never_returns extraWorld "ping" "1.0.0" "pong" "1.0.0"
      (fun st => st.installedPackages = [] ∧ st.fs = samplePongDisk)
      (fun st => st.installedPackages = [] ∧ (st.fs = samplePingDisk ∨ st.fs = samplePongDisk))
      (fun st hst => by
        obtain ⟨hn, st3, hdep, hreg3, hfs3⟩ :=
          DependsOn_of_disk extraWorld "ping" "1.0.0" "pong" "1.0.0" samplePongDisk
            samplePongDisk ["cache", "ping", "1.0.0", "package.tar.zst"] samplePingManifest
            (by decide) rfl st hst.1 hst.2
        exact ⟨hn, st3, hdep, hreg3, Or.inr hfs3⟩)
      (fun st hst => by
        rcases hst.2 with hfs | hfs
        · obtain ⟨hn, st3, hdep, hreg3, hfs3⟩ :=
            DependsOn_of_disk extraWorld "pong" "1.0.0" "ping" "1.0.0" samplePingDisk
              samplePongDisk ["cache", "pong", "1.0.0", "package.tar.zst"] samplePongManifest
              (by decide) rfl st hst.1 hfs
          exact ⟨hn, st3, hdep, hreg3, hfs3⟩
        · obtain ⟨hn, st3, hdep, hreg3, hfs3⟩ :=
            DependsOn_of_disk extraWorld "pong" "1.0.0" "ping" "1.0.0" samplePongDisk
              samplePongDisk ["cache", "pong", "1.0.0", "package.tar.zst"] samplePongManifest
              (by decide) rfl st hst.1 hfs
          exact ⟨hn, st3, hdep, hreg3, hfs3⟩)
      "" false false false "" "" emptyState
      (checkPointState (dependencyCheckPoint extraWorld "ping" "" "" "" emptyState))
      (by decide)
      ⟨["cache", "ping", "1.0.0", "package.tar.zst"], samplePingManifest,
        some [("pong", "1.0.0")], [], [], (by decide), rfl, rfl,
        (by intro d hd; cases hd), (by decide)⟩
      ⟨by decide, Or.inl rfl⟩).1,
   by decide⟩

/-! ### Install: a manifest without hooks, and dev-dependencies without dependencies -/

/-- C29: the manifest of `bare` has no hooks section. `executeHooks` treats
absent hooks as nothing to do, and so does `UninstallPackage`, which tests
`manifest.Hooks != nil` first; but `InstallPackage` reads
`manifest.Hooks.PreInstall` to build the argument of the pre-install step, and
the install of `bare` ends in a nil pointer dereference after the download and
the extraction, with no registry entry and no install directory. -/
theorem InstallPackage_panics_without_hooks :
    (extraWorld.parseManifest "bare@1.0.0").toOption.map (fun m => m.Hooks) = some none ∧
    resultOf (InstallPackage extraWorld 1 "bare" "" false false false "" "" emptyState) =
      some (.panic "nil pointer dereference") ∧
    getInstalledPackage
      (stateAfter (InstallPackage extraWorld 1 "bare" "" false false false "" "" emptyState))
      "bare" = none ∧
    fsLookup
      (stateAfter (InstallPackage extraWorld 1 "bare" "" false false false "" ""
        emptyState)).fs ["local", "bare"] = none ∧
    executeHooks extraWorld none [] (installTempDir extraWorld "bare") emptyState =
      (none, emptyState) := by
  refine ⟨by decide, by decide, by decide, by decide, by decide⟩

/-- C30: the manifest of `kit` declares dev-dependencies and no dependencies,
so its dependency map is nil. With `dev` set, `checkDependencies` assigns the
dev-dependency into the nil map and the install of `kit` ends in a panic with
no registry entry; without `dev` the same install succeeds. The manifest of
`tool` has a dependency map: with `dev` set its record lists the
dev-dependency `foo` 1.0.0 in place of the regular `foo` 2.0.0, without `dev`
it lists the declared dependencies. -/
theorem InstallPackage_dev_panics_on_nil_dependencies :
    (extraWorld.parseManifest "kit@1.0.0").toOption.map
        (fun m => (m.Dependencies, m.DevDeps)) = some (none, some [("foo", "1.0.0")]) ∧
    resultOf (InstallPackage extraWorld 2 "kit" "" false false true "" "" emptyState) =
      some (.panic "assignment to entry in nil map") ∧
    getInstalledPackage
      (stateAfter (InstallPackage extraWorld 2 "kit" "" false false true "" "" emptyState))
      "kit" = none ∧
    resultOf (InstallPackage extraWorld 2 "kit" "" false false false "" "" emptyState) =
      some .ok ∧
    (getInstalledPackage
      (stateAfter (InstallPackage extraWorld 2 "tool" "" false false true "" "" emptyState))
      "tool").map (fun i => i.Dependencies) =
      some (some [("lib", "1.0.0"), ("foo", "1.0.0")]) ∧
    (getInstalledPackage
      (stateAfter (InstallPackage extraWorld 2 "tool" "" false false false "" "" emptyState))
      "tool").map (fun i => i.Dependencies) =
      some (some [("lib", "1.0.0"), ("foo", "2.0.0")]) := by
  refine ⟨by decide, by decide, by decide, by decide, by decide, by decide⟩

/-! ### The dependencies a successful install records -/

theorem installFiles_ok_record (w : World) (packageName : String) (global force : Bool)
    (manifest : PackageManifest) (hooks : PackageHooks) (dependencies : GoMap)
    (tempDir : Path) (s : State)
    (h : (installFiles w packageName global force manifest hooks dependencies tempDir s).1 =
      .ok) :
    ∃ info,
      (installFiles w packageName global force manifest hooks dependencies tempDir
          s).2.installedPackages = mapSet s.installedPackages packageName info ∧
      info.Dependencies = dependencies := by
  unfold installFiles at h ⊢
  dsimp only at h ⊢
  split
  · next heq => rw [heq] at h; cases h
  · next heq =>
    rw [heq] at h
    simp only at h
    split
    · next heq2 => rw [heq2] at h; cases h
    · next heq2 =>
      rw [heq2] at h
      simp only at h
      split
      · next heq3 => rw [heq3] at h; cases h
      · next heq3 =>
        rw [heq3] at h
        simp only at h
        split
        · next heq4 => rw [heq4] at h; cases h
        · apply Exists.intro
          refine ⟨?_, ?_⟩
          · rw [executeHooks_frame w _ _ _ _]
          · rfl

theorem mergeDevDeps_lookup :
    ∀ (devDeps : List (String × String)) (m : List (String × String)) (merged : GoMap),
      mergeDevDeps (some m) devDeps = some merged →
      ∃ mm, merged = some mm ∧
        ∀ k, mapGet mm k =
          match mapGet devDeps.reverse k with
          | some v => some v
          | none => mapGet m k := by
  intro devDeps
  induction devDeps with
  | nil =>
    intro m merged h
    simp only [mergeDevDeps, Option.some.injEq] at h
    exact ⟨m, h.symm, fun k => by simp [mapGet]⟩
  | cons d rest ih =>
    intro m merged h
    obtain ⟨name, version⟩ := d
    simp only [mergeDevDeps] at h
    obtain ⟨mm, hmm, hget⟩ := ih (mapSet m name version) merged h
    refine ⟨mm, hmm, fun k => ?_⟩
    rw [hget k]
    have happ : ∀ (l : List (String × String)) (x : String × String),
        mapGet (l ++ [x]) k =
          match mapGet l k with
          | some v => some v
          | none => if x.1 = k then some x.2 else none := by
      intro l x
      induction l with
      | nil => simp [mapGet]
      | cons e l ihl =>
        obtain ⟨k1, v1⟩ := e
        by_cases hk : k1 = k
        · simp [mapGet, hk]
        · simp [mapGet, hk, ihl]
    rw [List.reverse_cons, happ]
    cases hrest : mapGet rest.reverse k with
    | some v => rfl
    | none =>
      simp only
      by_cases hk : name = k
      · subst hk
        simp [mapGet_mapSet_self]
      · simp only [hk, if_false]
        exact mapGet_mapSet_ne m name k version (Ne.symm hk)

theorem checkDependencies_ok_map (w : World)
    (install : String → String → State → Option (Result × State))
    (manifest : PackageManifest) (dev : Bool) (s : State) (deps : GoMap) (s2 : State)
    (h : checkDependencies w install manifest dev s = some (.ok, deps, s2)) :
    (if dev then mergeDevDeps manifest.Dependencies (rangeMap w manifest.DevDeps)
      else some manifest.Dependencies) = some deps := by
  unfold checkDependencies at h
  simp only at h
  split at h
  · simp at h
  · next dependencies hm =>
    cases hi : installMissing install (rangeMap w dependencies) s with
    | none => rw [hi] at h; cases h
    | some out =>
      rw [hi] at h
      simp only [Option.some.injEq, Prod.mk.injEq] at h
      rw [hm, h.2.1]

/-- The dependencies a successful install records are the dependency map of
the manifest as the dependency check leaves it: with `dev` set, the map with
the dev-dependencies assigned into it; otherwise the declared map. -/
theorem InstallPackage_records_dependencies (w : World) (fuel : Nat)
    (packageName version : String) (global force dev : Bool) (arch osName : String)
    (s s' : State)
    (h : InstallPackage w fuel packageName version global force dev arch osName s =
      some (.ok, s'))
    (hrun : force = true ∨ alreadyInstalled s packageName version = false) :
    ∃ manifest info fs,
      loadManifestFromDir w (installTempDir w packageName) fs = .ok manifest ∧
      getInstalledPackage s' packageName = some info ∧
      (if dev then mergeDevDeps manifest.Dependencies (rangeMap w manifest.DevDeps)
        else some manifest.Dependencies) = some info.Dependencies := by
  obtain ⟨fuel', _, hcases⟩ :=
    InstallPackage_cases w fuel packageName version global force dev arch osName s .ok s' h
  rcases hcases with ⟨hf, hal, _, _⟩ | ⟨e, s1, _, hr, _⟩ | ⟨pinfo, url, s1, _, hrest⟩
  · rcases hrun with hforce | hnot
    · rw [hf] at hforce; cases hforce
    · rw [hal] at hnot; cases hnot
  · cases hr
  · rcases hrest with ⟨e, s2, _, hr, _⟩ | ⟨archivePath, s2, s3, _, hsteps, hs'⟩
    · cases hr
    · have hc := installSteps_cases w _ packageName global force dev archivePath _ s2 .ok s3 hsteps
      rcases hc with ⟨_, hr, _⟩ | ⟨e, _, hr, _⟩ | ⟨manifest, rd, deps, s4, hman, hdeps, hc⟩
      · cases hr
      · cases hr
      · rcases hc with ⟨e, _, hr, _⟩ | ⟨reason, _, hr, _⟩ | ⟨_, _, hr, _⟩ |
          ⟨_, hooks, e, s5, _, _, hr, _⟩ | ⟨hrd, hooks, s5, _, _, hfiles⟩
        · cases hr
        · cases hr
        · cases hr
        · cases hr
        · subst hrd
          have hok : (installFiles w packageName global force manifest hooks deps
              (installTempDir w packageName) s5).1 = .ok := by rw [← hfiles]
          obtain ⟨info, hreg, hdepsrec⟩ := installFiles_ok_record w packageName global force
            manifest hooks deps (installTempDir w packageName) s5 hok
          refine ⟨manifest, info, _, hman, ?_, ?_⟩
          · rw [hs']
            unfold getInstalledPackage
            rw [installCleanup_installed]
            have h2 : s3 = (installFiles w packageName global force manifest hooks deps
                (installTempDir w packageName) s5).2 := by rw [← hfiles]
            rw [h2, hreg]
            exact mapGet_mapSet_self _ _ _
          · rw [hdepsrec]
            exact checkDependencies_ok_map w _ manifest dev _ deps s4 hdeps

/-! ### The JSON encoding of the records -/

theorem decodeString_encodeString (s : GoString) (h : validUTF8 s = true) :
    decodeString (encodeString s) = s := by
  unfold decodeString encodeString
  simp only [List.map_map]
  unfold validUTF8 at h
  induction s with
  | nil => rfl
  | cons r rest ih =>
    simp only [List.all_cons, Bool.and_eq_true] at h
    cases r with
    | rune c => simp [ih h.2]
    | invalid b => simp [GoRune.isValid] at h

theorem validUTF8_decodeString (s : String) : validUTF8 (decodeString s) = true := by
  simp [validUTF8, decodeString, GoRune.isValid]

theorem foldlM_member {α : Type} (store : α → String → Json → Option α) (acc : α)
    (tag : FieldTag) (e : Bool) (j : Json) (rest : List (String × Json)) :
    List.foldlM (fun a (m : String × Json) => store a m.1 m.2) acc (member tag e j ++ rest) =
      (if (tag.omitEmpty && e) = true then some acc else store acc tag.key j).bind
        (fun a => List.foldlM (fun a (m : String × Json) => store a m.1 m.2) a rest) := by
  unfold member
  split <;> simp [List.foldlM]

theorem foldlM_member_last {α : Type} (store : α → String → Json → Option α) (acc : α)
    (tag : FieldTag) (e : Bool) (j : Json) :
    List.foldlM (fun a (m : String × Json) => store a m.1 m.2) acc (member tag e j) =
      (if (tag.omitEmpty && e) = true then some acc else store acc tag.key j) := by
  unfold member
  split <;> simp [List.foldlM]

theorem step_value {α β : Type} (o e : Bool) (acc : α) (set : β → α) (stored : Option β)
    (x zero : β) (hstored : stored = some x) (hzero : set zero = acc)
    (hempty : o = true → e = true → x = zero) :
    (if (o && e) = true then some acc else stored.map set) = some (set x) := by
  subst hstored
  by_cases h : (o && e) = true
  · simp only [h, if_true]
    simp only [Bool.and_eq_true] at h
    rw [hempty h.1 h.2, hzero]
  · simp [h]


theorem goMapSet_new (m : List (GoString × GoString)) (k v : GoString)
    (h : ∀ e ∈ m, e.1 ≠ k) : goMapSet m k v = m ++ [(k, v)] := by
  induction m with
  | nil => rfl
  | cons e rest ih =>
    obtain ⟨k1, v1⟩ := e
    have h1 : k1 ≠ k := h (k1, v1) (List.mem_cons_self _ _)
    simp only [goMapSet, h1, if_false, List.cons_append]
    rw [ih (fun e he => h e (List.mem_cons_of_mem _ he))]

theorem isGoMap_pairwise (l : List (GoString × GoString)) (h : isGoMap l = true) :
    l.Pairwise (fun a b => a.1 ≠ b.1 ∧ bytesLE (goBytes a.1) (goBytes b.1) = true) := by
  induction l with
  | nil => exact List.Pairwise.nil
  | cons a rest ih =>
    simp only [isGoMap, Bool.and_eq_true, List.all_eq_true, decide_eq_true_eq] at h
    exact List.Pairwise.cons (fun b hb => h.1 b hb) (ih h.2)

theorem foldl_goMapSet (entries : List (GoString × GoString)) :
    ∀ acc : List (GoString × GoString),
      entries.Pairwise (fun a b => a.1 ≠ b.1) →
      (∀ a ∈ acc, ∀ b ∈ entries, a.1 ≠ b.1) →
      entries.foldl (fun m e => goMapSet m e.1 e.2) acc = acc ++ entries := by
  induction entries with
  | nil => intro acc _ _; simp
  | cons e rest ih =>
    intro acc hp hacc
    rw [List.pairwise_cons] at hp
    simp only [List.foldl_cons]
    rw [goMapSet_new acc e.1 e.2 (fun a ha => hacc a ha e (List.mem_cons_self _ _))]
    rw [ih (acc ++ [(e.1, e.2)]) hp.2]
    · simp
    · intro a ha b hb
      rcases List.mem_append.1 ha with ha | ha
      · exact hacc a ha b (List.mem_cons_of_mem _ hb)
      · simp only [List.mem_singleton] at ha
        rw [ha]
        exact hp.1 b hb

theorem foldlM_storeEntry_valid (entries : List (GoString × GoString))
    (hvalid : ∀ e ∈ entries, validUTF8 e.1 = true ∧ validUTF8 e.2 = true) :
    ∀ acc : List (GoString × GoString),
      List.foldlM (fun m (e : String × Json) => storeEntry m e.1 e.2) acc
          (entries.map (fun e => (encodeString e.1, Json.str (encodeString e.2)))) =
        some (entries.foldl (fun m e => goMapSet m e.1 e.2) acc) := by
  induction entries with
  | nil => intro acc; rfl
  | cons e rest ih =>
    intro acc
    have he := hvalid e (List.mem_cons_self _ _)
    simp only [List.map_cons, List.foldlM, storeEntry, List.foldl_cons]
    rw [decodeString_encodeString _ he.1, decodeString_encodeString _ he.2]
    exact ih (fun x hx => hvalid x (List.mem_cons_of_mem _ hx)) _

theorem foldlM_storeEntry_some (entries : List (GoString × GoString)) :
    ∀ acc : List (GoString × GoString),
      ∃ m, List.foldlM (fun m (e : String × Json) => storeEntry m e.1 e.2) acc
          (entries.map (fun e => (encodeString e.1, Json.str (encodeString e.2)))) = some m := by
  induction entries with
  | nil => intro acc; exact ⟨acc, rfl⟩
  | cons e rest ih =>
    intro acc
    simp only [List.map_cons, List.foldlM, storeEntry]
    exact ih _

/-- What is read from the JSON of a map is a map, whatever the map was. -/
theorem storeMap_encodeMap_some (old m : GoStringMap) :
    ∃ m', storeMap old (encodeMap m) = some m' := by
  cases m with
  | none => exact ⟨none, rfl⟩
  | some entries =>
    obtain ⟨r, hr⟩ := foldlM_storeEntry_some
      (entries.insertionSort (fun a b => bytesLE (goBytes a.1) (goBytes b.1) = true))
      (old.getD [])
    refine ⟨some r, ?_⟩
    simp only [encodeMap, storeMap]
    rw [hr]
    rfl

/-- A map of valid strings read from its JSON into a nil map is the map. -/
theorem storeMap_encodeMap (m : GoStringMap) (h : validMap m = true) :
    storeMap none (encodeMap m) = some m := by
  cases m with
  | none => rfl
  | some entries =>
    simp only [validMap, Bool.and_eq_true, List.all_eq_true] at h
    have hp := isGoMap_pairwise entries h.1
    have hsorted : (entries.insertionSort
        (fun a b => bytesLE (goBytes a.1) (goBytes b.1) = true)) = entries :=
      List.Sorted.insertionSort_eq (hp.imp (fun hab => hab.2))
    simp only [encodeMap, storeMap, hsorted, Option.getD_none]
    rw [foldlM_storeEntry_valid entries (fun e he => h.2 e he) [],
      foldl_goMapSet entries [] (hp.imp (fun hab => hab.1)) (by intro a ha; cases ha)]
    rfl

theorem mapM_storeElement (items : List GoString) (h : ∀ s ∈ items, validUTF8 s = true) :
    (items.map (fun s => Json.str (encodeString s))).mapM storeElement = some items := by
  induction items with
  | nil => rfl
  | cons s rest ih =>
    simp only [List.map_cons, List.mapM_cons, storeElement]
    rw [decodeString_encodeString s (h s (List.mem_cons_self _ _)),
      ih (fun x hx => h x (List.mem_cons_of_mem _ hx))]
    rfl

/-- A slice of valid strings read from its JSON is the slice. -/
theorem storeStrings_encodeStrings (old l : Option (List GoString))
    (h : validStrings l = true) : storeStrings old (encodeStrings l) = some l := by
  cases l with
  | none => rfl
  | some items =>
    simp only [validStrings, List.all_eq_true] at h
    simp only [encodeStrings, storeStrings]
    rw [mapM_storeElement items h]
    rfl

theorem fieldIndex_exact (lib : Library) (keys : List String) (k : String) (i : Nat)
    (h : position keys k = some i) : fieldIndex lib keys k = some i := by
  simp [fieldIndex, h]

/-- C25, amended: a `PackageInfo` value whose strings are valid UTF-8,
whose maps are listed in ascending key order, whose size is an `int64`, whose
install timestamp has no monotonic clock reading and is written by the `time`
package as a text that it reads back to the same wall clock reading, and
whose empty maps and slices are nil where the field is tagged `omitempty`, is
written by `savePackageInfo` without error, and decoding the JSON as
`loadPackagesFromDir` does yields a `PackageInfo` equal to the original field
for field, whatever distinct keys the tags give the fields. -/
theorem PackageInfo_json_round_trip (lib : Library) (tags : PackageInfoTags)
    (v : GoPackageInfo) (hkeys : tags.keys.Nodup)
    (hname : validUTF8 v.Name = true) (hversion : validUTF8 v.Version = true)
    (hdescription : validUTF8 v.Description = true) (hauthor : validUTF8 v.Author = true)
    (hpath : validUTF8 v.InstallPath = true)
    (hdeps : validMap v.Dependencies = true) (hfiles : validStrings v.Files = true)
    (hscripts : validMap v.Scripts = true) (hsize : inInt64 v.Size = true)
    (hmono : v.InstallDate.monotonic = none)
    (htime : ∃ text, lib.formatTime v.InstallDate.wall = some text ∧
      lib.parseTime text = some v.InstallDate.wall)
    (hkdeps : keepsEmpty tags.Dependencies v.Dependencies = true)
    (hkfiles : keepsEmpty tags.Files v.Files = true)
    (hkscripts : keepsEmpty tags.Scripts v.Scripts = true) :
    ∃ j, marshalPackageInfo lib tags v = some j ∧ unmarshalPackageInfo lib tags j = some v := by
  obtain ⟨text, hformat, hparse⟩ := htime
  simp only [PackageInfoTags.keys, List.nodup_cons, List.mem_cons, List.mem_singleton, not_or,
    List.not_mem_nil, not_false_eq_true, List.nodup_nil, and_true] at hkeys
  obtain ⟨⟨h01, h02, h03, h04, h05, h06, h07, h08, h09, h0a⟩,
    ⟨h12, h13, h14, h15, h16, h17, h18, h19, h1a⟩,
    ⟨h23, h24, h25, h26, h27, h28, h29, h2a⟩,
    ⟨h34, h35, h36, h37, h38, h39, h3a⟩,
    ⟨h45, h46, h47, h48, h49, h4a⟩,
    ⟨h56, h57, h58, h59, h5a⟩,
    ⟨h67, h68, h69, h6a⟩,
    ⟨h78, h79, h7a⟩,
    ⟨h89, h8a⟩,
    h9a⟩ := hkeys
  have i0 : fieldIndex lib tags.keys tags.Name.key = some 0 :=
    fieldIndex_exact _ _ _ _ (by simp [position, PackageInfoTags.keys])
  have i1 : fieldIndex lib tags.keys tags.Version.key = some 1 :=
    fieldIndex_exact _ _ _ _ (by simp [position, PackageInfoTags.keys, h01])
  have i2 : fieldIndex lib tags.keys tags.Description.key = some 2 :=
    fieldIndex_exact _ _ _ _ (by simp [position, PackageInfoTags.keys, h02, h12])
  have i3 : fieldIndex lib tags.keys tags.Author.key = some 3 :=
    fieldIndex_exact _ _ _ _ (by simp [position, PackageInfoTags.keys, h03, h13, h23])
  have i4 : fieldIndex lib tags.keys tags.InstallDate.key = some 4 :=
    fieldIndex_exact _ _ _ _ (by simp [position, PackageInfoTags.keys, h04, h14, h24, h34])
  have i5 : fieldIndex lib tags.keys tags.InstallPath.key = some 5 :=
    fieldIndex_exact _ _ _ _
      (by simp [position, PackageInfoTags.keys, h05, h15, h25, h35, h45])
  have i6 : fieldIndex lib tags.keys tags.Global.key = some 6 :=
    fieldIndex_exact _ _ _ _
      (by simp [position, PackageInfoTags.keys, h06, h16, h26, h36, h46, h56])
  have i7 : fieldIndex lib tags.keys tags.Dependencies.key = some 7 :=
    fieldIndex_exact _ _ _ _
      (by simp [position, PackageInfoTags.keys, h07, h17, h27, h37, h47, h57, h67])
  have i8 : fieldIndex lib tags.keys tags.Size.key = some 8 :=
    fieldIndex_exact _ _ _ _
      (by simp [position, PackageInfoTags.keys, h08, h18, h28, h38, h48, h58, h68, h78])
  have i9 : fieldIndex lib tags.keys tags.Files.key = some 9 :=
    fieldIndex_exact _ _ _ _
      (by simp [position, PackageInfoTags.keys, h09, h19, h29, h39, h49, h59, h69, h79, h89])
  have ia : fieldIndex lib tags.keys tags.Scripts.key = some 10 :=
    fieldIndex_exact _ _ _ _
      (by simp [position, PackageInfoTags.keys, h0a, h1a, h2a, h3a, h4a, h5a, h6a, h7a, h8a,
        h9a])
  have t0 : ∀ acc : GoPackageInfo, acc.Name = [] →
      (if (tags.Name.omitEmpty && v.Name.isEmpty) = true then some acc
        else storePackageInfo lib tags acc tags.Name.key (.str (encodeString v.Name))) =
        some { acc with Name := v.Name } := by
    intro acc hacc
    simp only [storePackageInfo, storeField, packageInfoFields, List.get?, i0]
    exact step_value _ _ acc (fun x => { acc with Name := x }) _ v.Name []
      (by simp [storeString, decodeString_encodeString _ hname]) (by rw [← hacc])
      (by intro _ he; simpa using he)
  have t1 : ∀ acc : GoPackageInfo, acc.Version = [] →
      (if (tags.Version.omitEmpty && v.Version.isEmpty) = true then some acc
        else storePackageInfo lib tags acc tags.Version.key (.str (encodeString v.Version))) =
        some { acc with Version := v.Version } := by
    intro acc hacc
    simp only [storePackageInfo, storeField, packageInfoFields, List.get?, i1]
    exact step_value _ _ acc (fun x => { acc with Version := x }) _ v.Version []
      (by simp [storeString, decodeString_encodeString _ hversion]) (by rw [← hacc])
      (by intro _ he; simpa using he)
  have t2 : ∀ acc : GoPackageInfo, acc.Description = [] →
      (if (tags.Description.omitEmpty && v.Description.isEmpty) = true then some acc
        else storePackageInfo lib tags acc tags.Description.key
          (.str (encodeString v.Description))) =
        some { acc with Description := v.Description } := by
    intro acc hacc
    simp only [storePackageInfo, storeField, packageInfoFields, List.get?, i2]
    exact step_value _ _ acc (fun x => { acc with Description := x }) _ v.Description []
      (by simp [storeString, decodeString_encodeString _ hdescription]) (by rw [← hacc])
      (by intro _ he; simpa using he)
  have t3 : ∀ acc : GoPackageInfo, acc.Author = [] →
      (if (tags.Author.omitEmpty && v.Author.isEmpty) = true then some acc
        else storePackageInfo lib tags acc tags.Author.key (.str (encodeString v.Author))) =
        some { acc with Author := v.Author } := by
    intro acc hacc
    simp only [storePackageInfo, storeField, packageInfoFields, List.get?, i3]
    exact step_value _ _ acc (fun x => { acc with Author := x }) _ v.Author []
      (by simp [storeString, decodeString_encodeString _ hauthor]) (by rw [← hacc])
      (by intro _ he; simpa using he)
  have t4 : ∀ acc : GoPackageInfo,
      (if (tags.InstallDate.omitEmpty && false) = true then some acc
        else storePackageInfo lib tags acc tags.InstallDate.key (.str text)) =
        some { acc with InstallDate := v.InstallDate } := by
    intro acc
    have hdate : v.InstallDate = ⟨v.InstallDate.wall, none⟩ := by
      rw [← hmono]
    simp only [storePackageInfo, storeField, packageInfoFields, List.get?, i4, Bool.and_false, Bool.false_eq_true, if_false, storeTime,
      hparse, Option.map_some']
    rw [← hdate]
  have t5 : ∀ acc : GoPackageInfo, acc.InstallPath = [] →
      (if (tags.InstallPath.omitEmpty && v.InstallPath.isEmpty) = true then some acc
        else storePackageInfo lib tags acc tags.InstallPath.key
          (.str (encodeString v.InstallPath))) =
        some { acc with InstallPath := v.InstallPath } := by
    intro acc hacc
    simp only [storePackageInfo, storeField, packageInfoFields, List.get?, i5]
    exact step_value _ _ acc (fun x => { acc with InstallPath := x }) _ v.InstallPath []
      (by simp [storeString, decodeString_encodeString _ hpath]) (by rw [← hacc])
      (by intro _ he; simpa using he)
  have t6 : ∀ acc : GoPackageInfo, acc.Global = false →
      (if (tags.Global.omitEmpty && !v.Global) = true then some acc
        else storePackageInfo lib tags acc tags.Global.key (.bool v.Global)) =
        some { acc with Global := v.Global } := by
    intro acc hacc
    simp only [storePackageInfo, storeField, packageInfoFields, List.get?, i6]
    exact step_value _ _ acc (fun x => { acc with Global := x }) _ v.Global false
      (by simp [storeBool]) (by rw [← hacc])
      (by intro _ he; simpa using he)
  have t7 : ∀ acc : GoPackageInfo, acc.Dependencies = none →
      (if (tags.Dependencies.omitEmpty && isEmptyOrNil v.Dependencies) = true then some acc
        else storePackageInfo lib tags acc tags.Dependencies.key (encodeMap v.Dependencies)) =
        some { acc with Dependencies := v.Dependencies } := by
    intro acc hacc
    simp only [storePackageInfo, storeField, packageInfoFields, List.get?, i7]
    exact step_value _ _ acc (fun x => { acc with Dependencies := x }) _ v.Dependencies none
      (by rw [hacc]; exact storeMap_encodeMap _ hdeps) (by rw [← hacc])
      (by
        intro ho he
        cases hd : v.Dependencies with
        | none => rfl
        | some entries =>
          cases entries with
          | nil => rw [hd] at hkdeps; simp [keepsEmpty, ho] at hkdeps
          | cons a rest => rw [hd] at he; simp [isEmptyOrNil] at he)
  have t8 : ∀ acc : GoPackageInfo, acc.Size = 0 →
      (if (tags.Size.omitEmpty && decide (v.Size = 0)) = true then some acc
        else storePackageInfo lib tags acc tags.Size.key (.integer v.Size)) =
        some { acc with Size := v.Size } := by
    intro acc hacc
    simp only [storePackageInfo, storeField, packageInfoFields, List.get?, i8]
    exact step_value _ _ acc (fun x => { acc with Size := x }) _ v.Size 0
      (by simp [storeInt, hsize]) (by rw [← hacc])
      (by intro _ he; simpa using he)
  have t9 : ∀ acc : GoPackageInfo, acc.Files = none →
      (if (tags.Files.omitEmpty && isEmptyOrNil v.Files) = true then some acc
        else storePackageInfo lib tags acc tags.Files.key (encodeStrings v.Files)) =
        some { acc with Files := v.Files } := by
    intro acc hacc
    simp only [storePackageInfo, storeField, packageInfoFields, List.get?, i9]
    exact step_value _ _ acc (fun x => { acc with Files := x }) _ v.Files none
      (storeStrings_encodeStrings _ _ hfiles) (by rw [← hacc])
      (by
        intro ho he
        cases hd : v.Files with
        | none => rfl
        | some entries =>
          cases entries with
          | nil => rw [hd] at hkfiles; simp [keepsEmpty, ho] at hkfiles
          | cons a rest => rw [hd] at he; simp [isEmptyOrNil] at he)
  have ta : ∀ acc : GoPackageInfo, acc.Scripts = none →
      (if (tags.Scripts.omitEmpty && isEmptyOrNil v.Scripts) = true then some acc
        else storePackageInfo lib tags acc tags.Scripts.key (encodeMap v.Scripts)) =
        some { acc with Scripts := v.Scripts } := by
    intro acc hacc
    simp only [storePackageInfo, storeField, packageInfoFields, List.get?, ia]
    exact step_value _ _ acc (fun x => { acc with Scripts := x }) _ v.Scripts none
      (by rw [hacc]; exact storeMap_encodeMap _ hscripts) (by rw [← hacc])
      (by
        intro ho he
        cases hd : v.Scripts with
        | none => rfl
        | some entries =>
          cases entries with
          | nil => rw [hd] at hkscripts; simp [keepsEmpty, ho] at hkscripts
          | cons a rest => rw [hd] at he; simp [isEmptyOrNil] at he)
  simp only [marshalPackageInfo, hformat, Option.some.injEq, exists_eq_left',
    unmarshalPackageInfo, unmarshalObject]
  rw [foldlM_member, t0 _ rfl, Option.some_bind, foldlM_member, t1 _ rfl, Option.some_bind,
    foldlM_member, t2 _ rfl, Option.some_bind, foldlM_member, t3 _ rfl, Option.some_bind,
    foldlM_member, t4, Option.some_bind, foldlM_member, t5 _ rfl, Option.some_bind,
    foldlM_member, t6 _ rfl, Option.some_bind, foldlM_member, t7 _ rfl, Option.some_bind,
    foldlM_member, t8 _ rfl, Option.some_bind, foldlM_member, t9 _ rfl, Option.some_bind,
    foldlM_member_last, ta _ rfl]

theorem storeString_valid (old : GoString) (j : Json) (x : GoString)
    (hold : validUTF8 old = true) (h : storeString old j = some x) : validUTF8 x = true := by
  cases j <;> simp only [storeString, Option.some.injEq] at h <;> try cases h
  · exact hold
  · exact validUTF8_decodeString _

theorem storeTime_monotonic (lib : Library) (old : GoTime) (j : Json) (x : GoTime)
    (hold : old.monotonic = none) (h : storeTime lib old j = some x) : x.monotonic = none := by
  cases j <;> simp only [storeTime, Option.some.injEq] at h <;> try cases h
  · exact hold
  · obtain ⟨w, _, hw⟩ := Option.map_eq_some'.1 h
    rw [← hw]

theorem foldlM_invariant {α β : Type} (step : α → β → Option α) (P : α → Prop)
    (hstep : ∀ acc b acc', P acc → step acc b = some acc' → P acc') :
    ∀ (l : List β) (acc acc' : α), P acc → List.foldlM step acc l = some acc' → P acc' := by
  intro l
  induction l with
  | nil =>
    intro acc acc' hP h
    simp only [List.foldlM, Option.pure_def, Option.some.injEq] at h
    rw [← h]; exact hP
  | cons b rest ih =>
    intro acc acc' hP h
    simp only [List.foldlM, Option.bind_eq_bind] at h
    cases hb : step acc b with
    | none => rw [hb] at h; cases h
    | some a =>
      rw [hb] at h
      exact ih a acc' (hstep acc b a hP hb) h

theorem storeField_invariant {α : Type} (lib : Library) (keys : List String)
    (fields : List (α → Json → Option α)) (P : α → Prop)
    (hfields : ∀ field ∈ fields, ∀ acc j acc', P acc → field acc j = some acc' → P acc')
    (acc : α) (k : String) (j : Json) (acc' : α) (hP : P acc)
    (h : storeField lib keys fields acc k j = some acc') : P acc' := by
  unfold storeField at h
  cases hi : fieldIndex lib keys k with
  | none =>
    rw [hi] at h
    simp only [Option.some.injEq] at h
    rw [← h]; exact hP
  | some i =>
    rw [hi] at h
    simp only at h
    cases hf : fields.get? i with
    | none =>
      rw [hf] at h
      simp only [Option.some.injEq] at h
      rw [← h]; exact hP
    | some field =>
      rw [hf] at h
      exact hfields field (List.get?_mem hf) acc j acc' hP h

theorem unmarshalObject_invariant {α : Type} (store : α → String → Json → Option α) (zero : α)
    (P : α → Prop) (hzero : P zero)
    (hstore : ∀ acc k j acc', P acc → store acc k j = some acc' → P acc')
    (j : Json) (v : α) (h : unmarshalObject store zero j = some v) : P v := by
  cases j with
  | object members =>
    exact foldlM_invariant (fun acc (m : String × Json) => store acc m.1 m.2) P
      (fun acc b acc' hP hs => hstore acc b.1 b.2 acc' hP hs) members zero v hzero h
  | null =>
    simp only [unmarshalObject, Option.some.injEq] at h
    rw [← h]; exact hzero
  | bool b => simp [unmarshalObject] at h
  | integer n => simp [unmarshalObject] at h
  | real q => simp [unmarshalObject] at h
  | str s => simp [unmarshalObject] at h
  | array items => simp [unmarshalObject] at h

/-- What `Unmarshal` reads into a `PackageInfo`, from any JSON text, has a
timestamp without monotonic clock reading and scalar strings that are valid
UTF-8. -/
theorem unmarshalPackageInfo_plain (lib : Library) (tags : PackageInfoTags) (j : Json)
    (v : GoPackageInfo) (h : unmarshalPackageInfo lib tags j = some v) :
    v.InstallDate.monotonic = none ∧ validUTF8 v.Name = true ∧ validUTF8 v.Version = true ∧
      validUTF8 v.Description = true ∧ validUTF8 v.Author = true ∧
      validUTF8 v.InstallPath = true := by
  refine unmarshalObject_invariant (storePackageInfo lib tags) zeroPackageInfo
    (fun v => v.InstallDate.monotonic = none ∧ validUTF8 v.Name = true ∧
      validUTF8 v.Version = true ∧ validUTF8 v.Description = true ∧
      validUTF8 v.Author = true ∧ validUTF8 v.InstallPath = true)
    (by decide) ?_ j v h
  intro acc k j acc' hP hs
  refine storeField_invariant lib tags.keys (packageInfoFields lib)
    (fun v => v.InstallDate.monotonic = none ∧ validUTF8 v.Name = true ∧
      validUTF8 v.Version = true ∧ validUTF8 v.Description = true ∧
      validUTF8 v.Author = true ∧ validUTF8 v.InstallPath = true) ?_ acc k j acc' hP hs
  intro field hfield acc j acc' hP hs
  obtain ⟨h1, h2, h3, h4, h5, h6⟩ := hP
  simp only [packageInfoFields, List.mem_cons, List.mem_singleton, List.not_mem_nil,
    or_false] at hfield
  rcases hfield with hf | hf | hf | hf | hf | hf | hf | hf | hf | hf | hf <;>
    (subst hf
     obtain ⟨x, hx, hacc⟩ := Option.map_eq_some'.1 hs
     rw [← hacc])
  · exact ⟨h1, storeString_valid _ _ _ h2 hx, h3, h4, h5, h6⟩
  · exact ⟨h1, h2, storeString_valid _ _ _ h3 hx, h4, h5, h6⟩
  · exact ⟨h1, h2, h3, storeString_valid _ _ _ h4 hx, h5, h6⟩
  · exact ⟨h1, h2, h3, h4, storeString_valid _ _ _ h5 hx, h6⟩
  · exact ⟨storeTime_monotonic lib _ _ _ h1 hx, h2, h3, h4, h5, h6⟩
  · exact ⟨h1, h2, h3, h4, h5, storeString_valid _ _ _ h6 hx⟩
  · exact ⟨h1, h2, h3, h4, h5, h6⟩
  · exact ⟨h1, h2, h3, h4, h5, h6⟩
  · exact ⟨h1, h2, h3, h4, h5, h6⟩
  · exact ⟨h1, h2, h3, h4, h5, h6⟩
  · exact ⟨h1, h2, h3, h4, h5, h6⟩

/-- No record with a monotonic clock reading in its timestamp (such as
`time.Now()` gives it) and no record with a byte that is not valid UTF-8 in
its name is read back as it was, whatever the time formatting and the tags. -/
theorem PackageInfo_round_trip_fails (lib : Library) (tags : PackageInfoTags)
    (v : GoPackageInfo) (h : v.InstallDate.monotonic ≠ none ∨ validUTF8 v.Name = false) :
    ∀ j, marshalPackageInfo lib tags v = some j → unmarshalPackageInfo lib tags j ≠ some v := by
  intro j _ hread
  have hp := unmarshalPackageInfo_plain lib tags j v hread
  rcases h with h | h
  · exact h hp.1
  · rw [hp.2.1] at h; cases h

theorem step_keeps {α β : Type} (o e : Bool) (acc : α) (set : β → α) (stored : Option β)
    (P : α → Prop) (hstored : ∃ x, stored = some x) (hacc : P acc) (hset : ∀ x, P (set x)) :
    ∃ y, (if (o && e) = true then some acc else stored.map set) = some y ∧ P y := by
  obtain ⟨x, hx⟩ := hstored
  subst hx
  by_cases h : (o && e) = true
  · exact ⟨acc, by simp only [h, if_true], hacc⟩
  · exact ⟨set x, by simp [h], hset x⟩

/-- A file entry whose size is an `int64` is read back from its JSON with
the invalid bytes of its strings replaced. -/
theorem unmarshalFileEntry_marshalFileEntry (lib : Library) (f : GoFileEntry)
    (hsize : inInt64 f.Size = true) :
    unmarshalFileEntry lib (marshalFileEntry f) =
      some { OS := toValidUTF8 f.OS, Arch := toValidUTF8 f.Arch, Format := toValidUTF8 f.Format
             Filename := toValidUTF8 f.Filename, Size := f.Size
             Checksum := toValidUTF8 f.Checksum } := by
  simp [unmarshalFileEntry, marshalFileEntry, unmarshalObject, List.foldlM, storeFileEntry,
    storeField, fieldIndex, position, fileEntryKeys, fileEntryFields, storeString, storeInt,
    hsize, zeroFileEntry, toValidUTF8]

theorem storeFiles_encodeFiles_some (lib : Library) (old l : Option (List GoFileEntry))
    (h : ∀ f ∈ l.getD [], inInt64 f.Size = true) :
    ∃ r, storeFiles lib old (encodeFiles l) = some r := by
  cases l with
  | none => exact ⟨none, rfl⟩
  | some items =>
    simp only [Option.getD_some] at h
    have hall : ∃ r, (items.map marshalFileEntry).mapM (unmarshalFileEntry lib) = some r := by
      induction items with
      | nil => exact ⟨[], rfl⟩
      | cons f rest ih =>
        obtain ⟨r, hr⟩ := ih (fun x hx => h x (List.mem_cons_of_mem _ hx))
        simp only [List.map_cons, List.mapM_cons]
        rw [unmarshalFileEntry_marshalFileEntry lib f (h f (List.mem_cons_self _ _)), hr]
        exact ⟨_, rfl⟩
    obtain ⟨r, hr⟩ := hall
    refine ⟨some r, ?_⟩
    simp only [encodeFiles, storeFiles, hr]
    rfl

/-- A response whose `Data` the encoder accepts is read back from its JSON
with the same `Success` flag and with `Message` and `Error` as they were, up
to the replacement of the bytes that are not valid UTF-8. -/
theorem unmarshalApiResponse_marshalApiResponse (lib : Library) (r : GoApiResponse)
    (data : List (String × Json)) (hdata : encodeData r.Data = some data) :
    ∃ j r', marshalApiResponse r = some j ∧ unmarshalApiResponse lib j = some r' ∧
      r'.Success = r.Success ∧ r'.Message = toValidUTF8 r.Message ∧
      r'.Error = toValidUTF8 r.Error := by
  obtain ⟨success, message, payload, error⟩ := r
  cases payload with
  | unsupported => simp [encodeData] at hdata
  | nil =>
    cases message <;> cases error <;>
      simp [marshalApiResponse, encodeData, unmarshalApiResponse, unmarshalObject, member,
        List.foldlM, storeApiResponse, storeField, fieldIndex, position, apiResponseKeys,
        apiResponseFields, storeString, storeBool, zeroApiResponse, toValidUTF8, encodeString,
        decodeString]
  | value j =>
    cases message <;> cases error <;>
      simp [marshalApiResponse, encodeData, unmarshalApiResponse, unmarshalObject, member,
        List.foldlM, storeApiResponse, storeField, fieldIndex, position, apiResponseKeys,
        apiResponseFields, storeString, storeBool, zeroApiResponse, toValidUTF8, encodeString,
        decodeString]

/-- A version entry whose integers are `int64` values and whose upload time
is written as a text that can be read is read back from its JSON with the
same `Size` and with `Version` as it was, up to the replacement of the bytes
that are not valid UTF-8, whatever distinct keys the tags give the fields the
schema test leaves open. -/
theorem unmarshalVersionEntry_marshalVersionEntry (lib : Library) (tags : VersionEntryTags)
    (v : GoVersionEntry) (hkeys : tags.keys.Nodup)
    (hsize : inInt64 v.Size = true) (hdownloads : inInt64 v.Downloads = true)
    (hfiles : ∀ f ∈ v.Files.getD [], inInt64 f.Size = true)
    (htime : ∃ text w, lib.formatTime v.Uploaded.wall = some text ∧
      lib.parseTime text = some w) :
    ∃ j v', marshalVersionEntry lib tags v = some j ∧
      unmarshalVersionEntry lib tags j = some v' ∧
      v'.Version = toValidUTF8 v.Version ∧ v'.Size = v.Size := by
  obtain ⟨text, w, hformat, hparse⟩ := htime
  simp only [VersionEntryTags.keys, List.nodup_cons, List.mem_cons, List.mem_singleton, not_or,
    List.not_mem_nil, not_false_eq_true, List.nodup_nil, and_true] at hkeys
  obtain ⟨⟨h01, -, -, h04, -, -, h07, -⟩, ⟨h12, h13, h14, h15, h16, h17, h18⟩,
    ⟨-, h24, -, -, h27, -⟩, ⟨h34, -, -, h37, -⟩, ⟨h45, h46, h47, h48⟩, ⟨-, h57, -⟩, ⟨h67, -⟩,
    h78⟩ := hkeys
  have i0 : fieldIndex lib tags.keys "version" = some 0 :=
    fieldIndex_exact _ _ _ _ (by simp [position, VersionEntryTags.keys])
  have i1 : fieldIndex lib tags.keys tags.Description.key = some 1 :=
    fieldIndex_exact _ _ _ _ (by simp [position, VersionEntryTags.keys, h01])
  have i2 : fieldIndex lib tags.keys "dependencies" = some 2 :=
    fieldIndex_exact _ _ _ _ (by simp [position, VersionEntryTags.keys, h12])
  have i3 : fieldIndex lib tags.keys "devDependencies" = some 3 :=
    fieldIndex_exact _ _ _ _ (by simp [position, VersionEntryTags.keys, h13])
  have i4 : fieldIndex lib tags.keys tags.Files.key = some 4 :=
    fieldIndex_exact _ _ _ _ (by simp [position, VersionEntryTags.keys, h04, h14, h24, h34])
  have i5 : fieldIndex lib tags.keys "size" = some 5 :=
    fieldIndex_exact _ _ _ _ (by simp [position, VersionEntryTags.keys, h15, h45])
  have i6 : fieldIndex lib tags.keys "checksum" = some 6 :=
    fieldIndex_exact _ _ _ _ (by simp [position, VersionEntryTags.keys, h16, h46])
  have i7 : fieldIndex lib tags.keys tags.Uploaded.key = some 7 :=
    fieldIndex_exact _ _ _ _
      (by simp [position, VersionEntryTags.keys, h07, h17, h27, h37, h47, h57, h67])
  have i8 : fieldIndex lib tags.keys "downloads" = some 8 :=
    fieldIndex_exact _ _ _ _ (by simp [position, VersionEntryTags.keys, h18, h48, h78])
  have t0 : (if ((⟨"version", false⟩ : FieldTag).omitEmpty && v.Version.isEmpty) = true
        then some zeroVersionEntry
        else storeVersionEntry lib tags zeroVersionEntry (⟨"version", false⟩ : FieldTag).key
          (.str (encodeString v.Version))) =
      some { zeroVersionEntry with Version := toValidUTF8 v.Version } := by
    simp [storeVersionEntry, storeField, versionEntryFields, i0, storeString, toValidUTF8]
  have t1 : ∀ acc : GoVersionEntry, acc.Version = toValidUTF8 v.Version →
      ∃ y, (if (tags.Description.omitEmpty && v.Description.isEmpty) = true then some acc
        else storeVersionEntry lib tags acc tags.Description.key
          (.str (encodeString v.Description))) = some y ∧
        y.Version = toValidUTF8 v.Version := by
    intro acc hacc
    simp only [storeVersionEntry, storeField, versionEntryFields, List.get?, i1]
    exact step_keeps _ _ acc (fun x => { acc with Description := x }) _
      (fun y => y.Version = toValidUTF8 v.Version) ⟨_, rfl⟩ hacc (fun _ => hacc)
  have t2 : ∀ acc : GoVersionEntry, acc.Version = toValidUTF8 v.Version →
      ∃ y, (if ((⟨"dependencies", true⟩ : FieldTag).omitEmpty &&
            isEmptyOrNil v.Dependencies) = true then some acc
        else storeVersionEntry lib tags acc (⟨"dependencies", true⟩ : FieldTag).key
          (encodeMap v.Dependencies)) = some y ∧
        y.Version = toValidUTF8 v.Version := by
    intro acc hacc
    simp only [storeVersionEntry, storeField, versionEntryFields, List.get?, i2]
    exact step_keeps _ _ acc (fun x => { acc with Dependencies := x }) _
      (fun y => y.Version = toValidUTF8 v.Version) (storeMap_encodeMap_some _ _) hacc
      (fun _ => hacc)
  have t3 : ∀ acc : GoVersionEntry, acc.Version = toValidUTF8 v.Version →
      ∃ y, (if ((⟨"devDependencies", true⟩ : FieldTag).omitEmpty &&
            isEmptyOrNil v.DevDeps) = true then some acc
        else storeVersionEntry lib tags acc (⟨"devDependencies", true⟩ : FieldTag).key
          (encodeMap v.DevDeps)) = some y ∧
        y.Version = toValidUTF8 v.Version := by
    intro acc hacc
    simp only [storeVersionEntry, storeField, versionEntryFields, List.get?, i3]
    exact step_keeps _ _ acc (fun x => { acc with DevDeps := x }) _
      (fun y => y.Version = toValidUTF8 v.Version) (storeMap_encodeMap_some _ _) hacc
      (fun _ => hacc)
  have t4 : ∀ acc : GoVersionEntry, acc.Version = toValidUTF8 v.Version →
      ∃ y, (if (tags.Files.omitEmpty && isEmptyOrNil v.Files) = true then some acc
        else storeVersionEntry lib tags acc tags.Files.key (encodeFiles v.Files)) = some y ∧
        y.Version = toValidUTF8 v.Version := by
    intro acc hacc
    simp only [storeVersionEntry, storeField, versionEntryFields, List.get?, i4]
    exact step_keeps _ _ acc (fun x => { acc with Files := x }) _
      (fun y => y.Version = toValidUTF8 v.Version) (storeFiles_encodeFiles_some lib _ _ hfiles)
      hacc (fun _ => hacc)
  have t5 : ∀ acc : GoVersionEntry, acc.Version = toValidUTF8 v.Version →
      (if ((⟨"size", false⟩ : FieldTag).omitEmpty && decide (v.Size = 0)) = true then some acc
        else storeVersionEntry lib tags acc (⟨"size", false⟩ : FieldTag).key
          (.integer v.Size)) = some { acc with Size := v.Size } := by
    intro acc _
    simp [storeVersionEntry, storeField, versionEntryFields, i5, storeInt, hsize]
  have t6 : ∀ acc : GoVersionEntry,
      acc.Version = toValidUTF8 v.Version ∧ acc.Size = v.Size →
      ∃ y, (if ((⟨"checksum", false⟩ : FieldTag).omitEmpty && v.Checksum.isEmpty) = true
        then some acc
        else storeVersionEntry lib tags acc (⟨"checksum", false⟩ : FieldTag).key
          (.str (encodeString v.Checksum))) = some y ∧
        (y.Version = toValidUTF8 v.Version ∧ y.Size = v.Size) := by
    intro acc hacc
    simp only [storeVersionEntry, storeField, versionEntryFields, List.get?, i6]
    exact step_keeps _ _ acc (fun x => { acc with Checksum := x }) _
      (fun y => y.Version = toValidUTF8 v.Version ∧ y.Size = v.Size) ⟨_, rfl⟩ hacc
      (fun _ => hacc)
  have t7 : ∀ acc : GoVersionEntry,
      acc.Version = toValidUTF8 v.Version ∧ acc.Size = v.Size →
      ∃ y, (if (tags.Uploaded.omitEmpty && false) = true then some acc
        else storeVersionEntry lib tags acc tags.Uploaded.key (.str text)) = some y ∧
        (y.Version = toValidUTF8 v.Version ∧ y.Size = v.Size) := by
    intro acc hacc
    simp only [storeVersionEntry, storeField, versionEntryFields, List.get?, i7]
    exact step_keeps _ _ acc (fun x => { acc with Uploaded := x }) _
      (fun y => y.Version = toValidUTF8 v.Version ∧ y.Size = v.Size)
      ⟨_, by simp only [storeTime, hparse]; rfl⟩ hacc (fun _ => hacc)
  have t8 : ∀ acc : GoVersionEntry,
      acc.Version = toValidUTF8 v.Version ∧ acc.Size = v.Size →
      ∃ y, (if ((⟨"downloads", false⟩ : FieldTag).omitEmpty &&
            decide (v.Downloads = 0)) = true then some acc
        else storeVersionEntry lib tags acc (⟨"downloads", false⟩ : FieldTag).key
          (.integer v.Downloads)) = some y ∧
        (y.Version = toValidUTF8 v.Version ∧ y.Size = v.Size) := by
    intro acc hacc
    simp only [storeVersionEntry, storeField, versionEntryFields, List.get?, i8]
    exact step_keeps _ _ acc (fun x => { acc with Downloads := x }) _
      (fun y => y.Version = toValidUTF8 v.Version ∧ y.Size = v.Size)
      ⟨_, by simp only [storeInt, hdownloads]; rfl⟩ hacc (fun _ => hacc)
  obtain ⟨y1, e1, p1⟩ := t1 _ (rfl : ({ zeroVersionEntry with
    Version := toValidUTF8 v.Version } : GoVersionEntry).Version = toValidUTF8 v.Version)
  obtain ⟨y2, e2, p2⟩ := t2 y1 p1
  obtain ⟨y3, e3, p3⟩ := t3 y2 p2
  obtain ⟨y4, e4, p4⟩ := t4 y3 p3
  have e5 := t5 y4 p4
  obtain ⟨y6, e6, p6⟩ := t6 { y4 with Size := v.Size } ⟨p4, rfl⟩
  obtain ⟨y7, e7, p7⟩ := t7 y6 p6
  obtain ⟨y8, e8, p8⟩ := t8 y7 p7
  have hm : ∃ j, marshalVersionEntry lib tags v = some j ∧
      unmarshalVersionEntry lib tags j = some y8 := by
    simp only [marshalVersionEntry, hformat, Option.some.injEq, exists_eq_left',
      unmarshalVersionEntry, unmarshalObject]
    rw [foldlM_member, t0, Option.some_bind, foldlM_member, e1, Option.some_bind,
      foldlM_member, e2, Option.some_bind, foldlM_member, e3, Option.some_bind,
      foldlM_member, e4, Option.some_bind, foldlM_member, e5, Option.some_bind,
      foldlM_member, e6, Option.some_bind, foldlM_member, e7, Option.some_bind,
      foldlM_member_last, e8]
  obtain ⟨j, hj1, hj2⟩ := hm
  exact ⟨j, y8, hj1, hj2, p8.1, p8.2⟩

/-- C25 refuted on the sample record, with the RFC 3339 texts of the `time`
package. The record as `InstallPackage` builds it has a timestamp with a
monotonic clock reading: it is written, and read back without the reading,
so the timestamp read differs from the one written. A description with a byte
that is not valid UTF-8 is read back with U+FFFD in its place. A timestamp in
the year 10000 is not written at all. -/
theorem PackageInfo_round_trip_loses_clock_and_bytes :
    (marshalPackageInfo sampleLibrary sampleTags sampleGoInfoNow).bind
        (unmarshalPackageInfo sampleLibrary sampleTags) = some sampleGoInfo ∧
      sampleGoInfoNow ≠ sampleGoInfo ∧
      sampleGoInfoNow.InstallDate ≠ sampleGoInfo.InstallDate ∧
      (marshalPackageInfo sampleLibrary sampleTags sampleGoInfoBytes).bind
          (unmarshalPackageInfo sampleLibrary sampleTags) =
        some { sampleGoInfo with
          Description := [GoRune.rune (Char.ofNat 97), GoRune.rune replacementChar] } ∧
      sampleGoInfoBytes.Description ≠
        [GoRune.rune (Char.ofNat 97), GoRune.rune replacementChar] ∧
      (marshalPackageInfo sampleLibrary sampleTags sampleGoInfoLate).isNone = true := by
  decide

/-- Where the script map is tagged `omitempty`, an empty script map that is
not nil is not written and is read back as the nil map. -/
theorem PackageInfo_round_trip_drops_empty_map :
    (marshalPackageInfo sampleLibrary sampleTags sampleGoInfoEmpty).bind
        (unmarshalPackageInfo sampleLibrary sampleTags) = some sampleGoInfo ∧
      sampleGoInfoEmpty.Scripts = some [] ∧ sampleGoInfo.Scripts = none := by
  decide

/-- C25 amended, on the sample record (valid UTF-8, timestamp without
monotonic reading, written as `2023-11-14T22:13:20.5Z`): it is written
without error and read back as it was. -/
theorem PackageInfo_json_round_trip_witness :
    ∃ j, marshalPackageInfo sampleLibrary sampleTags sampleGoInfo = some j ∧
      unmarshalPackageInfo sampleLibrary sampleTags j = some sampleGoInfo :=
  PackageInfo_json_round_trip sampleLibrary sampleTags sampleGoInfo (by decide) (by decide)
    (by decide) (by decide) (by decide) (by decide) (by decide) (by decide) (by decide)
    (by decide) rfl ⟨"2023-11-14T22:13:20.5Z", by decide, by decide⟩ (by decide) (by decide)
    (by decide)

/-- C26 refuted on the values of the schema tests, with the RFC 3339 texts
of the `time` package. A response whose message holds the byte 0xff is read
back with another message; a response whose `Data` the encoder rejects is not
written at all; a version entry whose version string holds the byte 0xff is
read back with another version string, and one uploaded in the year 10000 is
not written at all; a file entry whose `OS` holds the byte 0xff is read back
with another `OS`. -/
theorem wire_round_trip_fails_on_bytes_and_data :
    comparedOfResponse
        ((marshalApiResponse { sampleGoResponse with Message := [GoRune.invalid 255] }).bind
          (unmarshalApiResponse sampleLibrary)) =
        some (true, [GoRune.rune replacementChar], sampleGoResponse.Error) ∧
      [GoRune.rune replacementChar] ≠ [GoRune.invalid 255] ∧
      (marshalApiResponse { sampleGoResponse with Data := GoData.unsupported }).isNone = true ∧
      ((marshalVersionEntry sampleLibrary sampleVersionTags
            { sampleGoVersion with Version := [GoRune.invalid 255] }).bind
          (unmarshalVersionEntry sampleLibrary sampleVersionTags)).map
          (fun v => (v.Version, v.Size)) =
        some ([GoRune.rune replacementChar], 1024) ∧
      (marshalVersionEntry sampleLibrary sampleVersionTags
          { sampleGoVersion with
            Uploaded := ⟨{ sampleWallClock with year := 10000 }, none⟩ }).isNone = true ∧
      (unmarshalFileEntry sampleLibrary
          (marshalFileEntry { sampleGoFile with OS := [GoRune.invalid 255] })).map
          (fun f => (f.OS, f.Arch)) =
        some ([GoRune.rune replacementChar], sampleGoFile.Arch) := by
  decide

/-- C26, amended: encoding under the field names the schema test fixes and
decoding succeeds for every `ApiResponse` whose `Data` the encoder accepts,
for every `VersionEntry` whose integers are `int64` values and whose upload
time is written as a text that can be read (whatever distinct keys tag the
fields the test leaves open), and for every `FileEntry` whose size is an
`int64`; the compared fields of the decoded value (`Success`, `Message`,
`Error`; `Version`, `Size`; `OS`, `Arch`) are those of the original with each
byte that is not valid UTF-8 replaced by U+FFFD, hence equal to the
original's where the compared strings are valid UTF-8. -/
theorem wire_types_json_round_trip (lib : Library) (tags : VersionEntryTags) :
    (∀ r : GoApiResponse, r.Data.isSupported = true →
      ∃ j r', marshalApiResponse r = some j ∧ unmarshalApiResponse lib j = some r' ∧
        r'.Success = r.Success ∧ r'.Message = toValidUTF8 r.Message ∧
        r'.Error = toValidUTF8 r.Error ∧
        (validUTF8 r.Message = true → r'.Message = r.Message) ∧
        (validUTF8 r.Error = true → r'.Error = r.Error)) ∧
    (∀ v : GoVersionEntry, tags.keys.Nodup → inInt64 v.Size = true →
      inInt64 v.Downloads = true → (∀ f ∈ v.Files.getD [], inInt64 f.Size = true) →
      (∃ text w, lib.formatTime v.Uploaded.wall = some text ∧ lib.parseTime text = some w) →
      ∃ j v', marshalVersionEntry lib tags v = some j ∧
        unmarshalVersionEntry lib tags j = some v' ∧
        v'.Version = toValidUTF8 v.Version ∧ v'.Size = v.Size ∧
        (validUTF8 v.Version = true → v'.Version = v.Version)) ∧
    (∀ f : GoFileEntry, inInt64 f.Size = true →
      ∃ f', unmarshalFileEntry lib (marshalFileEntry f) = some f' ∧
        f'.OS = toValidUTF8 f.OS ∧ f'.Arch = toValidUTF8 f.Arch ∧
        (validUTF8 f.OS = true → f'.OS = f.OS) ∧
        (validUTF8 f.Arch = true → f'.Arch = f.Arch)) := by
  refine ⟨?_, ?_, ?_⟩
  · intro r hdata
    have hsome : ∃ data, encodeData r.Data = some data := by
      cases hd : r.Data with
      | nil => exact ⟨_, rfl⟩
      | value j => exact ⟨_, rfl⟩
      | unsupported => rw [hd] at hdata; cases hdata
    obtain ⟨data, hd⟩ := hsome
    obtain ⟨j, r', hm, hu, h1, h2, h3⟩ := unmarshalApiResponse_marshalApiResponse lib r data hd
    exact ⟨j, r', hm, hu, h1, h2, h3,
      fun hv => by rw [h2]; exact decodeString_encodeString _ hv,
      fun hv => by rw [h3]; exact decodeString_encodeString _ hv⟩
  · intro v hkeys hsize hdownloads hfiles htime
    obtain ⟨j, v', hm, hu, h1, h2⟩ :=
      unmarshalVersionEntry_marshalVersionEntry lib tags v hkeys hsize hdownloads hfiles htime
    exact ⟨j, v', hm, hu, h1, h2, fun hv => by rw [h1]; exact decodeString_encodeString _ hv⟩
  · intro f hsize
    exact ⟨_, unmarshalFileEntry_marshalFileEntry lib f hsize, rfl, rfl,
      fun hv => decodeString_encodeString _ hv, fun hv => decodeString_encodeString _ hv⟩

/-- C26 amended, on the values of the schema tests: the response, the
version entry and the file entry are written and read back with their
compared fields as they were. -/
theorem wire_types_json_round_trip_witness :
    (∃ j r', marshalApiResponse sampleGoResponse = some j ∧
      unmarshalApiResponse sampleLibrary j = some r' ∧
      r'.Success = sampleGoResponse.Success ∧ r'.Message = sampleGoResponse.Message ∧
      r'.Error = sampleGoResponse.Error) ∧
    (∃ j v', marshalVersionEntry sampleLibrary sampleVersionTags sampleGoVersion = some j ∧
      unmarshalVersionEntry sampleLibrary sampleVersionTags j = some v' ∧
      v'.Version = sampleGoVersion.Version ∧ v'.Size = sampleGoVersion.Size) ∧
    (∃ f', unmarshalFileEntry sampleLibrary (marshalFileEntry sampleGoFile) = some f' ∧
      f'.OS = sampleGoFile.OS ∧ f'.Arch = sampleGoFile.Arch) := by
  obtain ⟨hr, hv, hf⟩ := wire_types_json_round_trip sampleLibrary sampleVersionTags
  obtain ⟨j, r', hm, hu, h1, _, _, h4, h5⟩ := hr sampleGoResponse rfl
  obtain ⟨j2, v', hm2, hu2, _, hs2, hv2⟩ := hv sampleGoVersion (by decide) (by decide)
    (by decide) (by decide) ⟨"2023-11-14T22:13:20.5Z", sampleWallClock, by decide, by decide⟩
  obtain ⟨f', hu3, _, _, ho, ha⟩ := hf sampleGoFile (by decide)
  exact ⟨⟨j, r', hm, hu, h1, h4 (by decide), h5 (by decide)⟩,
    ⟨j2, v', hm2, hu2, hv2 (by decide), hs2⟩, ⟨f', hu3, ho (by decide), ha (by decide)⟩⟩

end Criage
